import Mathlib

/-!
# snarkjs command line: call-data and verifier-source encoders

A shallow embedding of the encoding functions of `cli.js`:

* `p256`, the fixed-width hexadecimal literal of a field element;
* the `generatecall` stage of `run`, which assembles the call literal of a
  proof and its public signals;
* `generateVerifier_original`, `generateVerifier_groth` and
  `generateVerifier_kimleeoh`, which fill a Solidity template by textual
  replacement of placeholders;
* the option defaults and the command router `run`, as the reads, writes,
  printed lines and exit code of a run;
* the artifact codec, which `cli.js` imports from `ffjavascript`, modelled
  from the spec.

JavaScript strings are modelled by `String`; every text the program builds
here is ASCII, so a character is one UTF-16 code unit and `length` counts
the same thing on both sides.  Big integers that the artifact codec yields
(strings of decimal digits) are nonnegative and are modelled by `Nat`.
-/

namespace Snarkjs

/-! ## Data model -/

/-- A point of G1 as the artifacts hold it: the array `[x, y]`; `p.1` is the
source's `p[0]` and `p.2` its `p[1]`. -/
abbrev G1Point := Nat × Nat

/-- A point of G2: the array `[[x.c0, x.c1], [y.c0, y.c1]]`; `p.1.2` is the
source's `p[0][1]`. -/
abbrev G2Point := (Nat × Nat) × (Nat × Nat)

/-- What a `throw` or a fault of the engine hands to the `catch` block of
`run`: `error message` is `new Error(message)`; `typeError what` is the
TypeError that the engine raises when it evaluates the expression `what` on
a value that does not allow it (an index or a property read on `undefined`,
a call of what is no function). -/
inductive Thrown where
  | error (message : String)
  | typeError (what : String)
  deriving DecidableEq

/-- The proof record read by the `generatecall` stage.  `protocol` is `none`
when the record has no such field (`typeof proof.protocol === "undefined"`),
and so is each point that the record does not hold: a record of the
Groth/KimLeeOh layout holds `pi_a`, `pi_b` and `pi_c` only. -/
structure Proof where
  protocol : Option String
  pi_a : Option G1Point
  pi_ap : Option G1Point
  pi_b : Option G2Point
  pi_bp : Option G1Point
  pi_c : Option G1Point
  pi_cp : Option G1Point
  pi_h : Option G1Point
  pi_kp : Option G1Point

/-- The first read of a coordinate of a point of a record, such as
`proof.pi_ap[0]`: a TypeError when the record does not hold the point. -/
def readField {α : Type} (what : String) (v : Option α) : Except Thrown α :=
  match v with
  | some x => Except.ok x
  | none => Except.error (Thrown.typeError what)

/-! ## `p256` -/

/-- The text of `n.toString(16)` for a nonnegative big integer: lower-case
hexadecimal digits, most significant first, no leading zero, `"0"` for zero. -/
def toString16 (n : Nat) : String :=
  ⟨Nat.toDigits 16 n⟩

/-- The text of `n.toString()` for a nonnegative big integer. -/
def toString10 (n : Nat) : String :=
  ⟨Nat.toDigits 10 n⟩

/-- The loop `while (nstr.length < 64) nstr = "0"+nstr;`.  The first argument
bounds the number of iterations; `padLoop_exit` shows that 64 iterations
always reach the exit test. -/
def padLoop : Nat → String → String
  | 0, nstr => nstr
  | fuel + 1, nstr =>
    if nstr.length < 64 then padLoop fuel ("0" ++ nstr) else nstr

/-- The function `p256` of `cli.js`. -/
def p256 (n : Nat) : String :=
  let nstr := toString16 n
  let nstr := padLoop 64 nstr
  let nstr := "\"0x" ++ nstr ++ "\""
  nstr

/-! ## The `generatecall` stage -/

/-- The loop over the public signals of the `generatecall` stage:
`if (inputs != "") inputs = inputs + ","; inputs = inputs + p256(public[i]);`
run over the signals that remain, from the current value of `inputs`. -/
def inputsLoop : List Nat → String → String
  | [], inputs => inputs
  | s :: rest, inputs =>
    let inputs := if inputs ≠ "" then inputs ++ "," else inputs
    inputsLoop rest (inputs ++ p256 s)

/-- The `generatecall` branch of `run`, from the two artifacts already read
to the text handed to `console.log`; `Except.error` holds what is thrown.
The points are read in the order of the template literal, so the first one
that the record lacks is the one whose read throws. -/
def generatecall (publicSignals : List Nat) (proof : Proof) : Except Thrown String :=
  let inputs := inputsLoop publicSignals ""
  if proof.protocol = none ∨ proof.protocol = some "original" then do
    let pi_a ← readField "proof.pi_a[0]" proof.pi_a
    let pi_ap ← readField "proof.pi_ap[0]" proof.pi_ap
    let pi_b ← readField "proof.pi_b[0]" proof.pi_b
    let pi_bp ← readField "proof.pi_bp[0]" proof.pi_bp
    let pi_c ← readField "proof.pi_c[0]" proof.pi_c
    let pi_cp ← readField "proof.pi_cp[0]" proof.pi_cp
    let pi_h ← readField "proof.pi_h[0]" proof.pi_h
    let pi_kp ← readField "proof.pi_kp[0]" proof.pi_kp
    Except.ok (
      "[" ++ p256 pi_a.1 ++ ", " ++ p256 pi_a.2 ++ "]," ++
      "[" ++ p256 pi_ap.1 ++ ", " ++ p256 pi_ap.2 ++ "]," ++
      "[[" ++ p256 pi_b.1.2 ++ ", " ++ p256 pi_b.1.1 ++ "],[" ++
        p256 pi_b.2.2 ++ ", " ++ p256 pi_b.2.1 ++ "]]," ++
      "[" ++ p256 pi_bp.1 ++ ", " ++ p256 pi_bp.2 ++ "]," ++
      "[" ++ p256 pi_c.1 ++ ", " ++ p256 pi_c.2 ++ "]," ++
      "[" ++ p256 pi_cp.1 ++ ", " ++ p256 pi_cp.2 ++ "]," ++
      "[" ++ p256 pi_h.1 ++ ", " ++ p256 pi_h.2 ++ "]," ++
      "[" ++ p256 pi_kp.1 ++ ", " ++ p256 pi_kp.2 ++ "]," ++
      "[" ++ inputs ++ "]")
  else if proof.protocol = some "groth" ∨ proof.protocol = some "kimleeoh" then do
    let pi_a ← readField "proof.pi_a[0]" proof.pi_a
    let pi_b ← readField "proof.pi_b[0]" proof.pi_b
    let pi_c ← readField "proof.pi_c[0]" proof.pi_c
    Except.ok (
      "[" ++ p256 pi_a.1 ++ ", " ++ p256 pi_a.2 ++ "]," ++
      "[[" ++ p256 pi_b.1.2 ++ ", " ++ p256 pi_b.1.1 ++ "],[" ++
        p256 pi_b.2.2 ++ ", " ++ p256 pi_b.2.1 ++ "]]," ++
      "[" ++ p256 pi_c.1 ++ ", " ++ p256 pi_c.2 ++ "]," ++
      "[" ++ inputs ++ "]")
  else
    Except.error (Thrown.error "InvalidProof")

/-! ## Textual replacement -/

/-- The replacement text of `String.prototype.replace` for a search value
that is a string (ECMAScript `GetSubstitution` with no captures): in the
replace value `$$` stands for `$`, `$&` for the matched text, a dollar
followed by a grave accent for the text before the match, a dollar followed by
an apostrophe for the text after it; every other character, and a dollar
followed by anything else, is copied. -/
def getSubstitution (matched preceding following : List Char) : List Char → List Char
  | [] => []
  | [c] => [c]
  | c :: d :: r =>
    if c = '$' then
      if d = '$' then '$' :: getSubstitution matched preceding following r
      else if d = '&' then matched ++ getSubstitution matched preceding following r
      else if d = Char.ofNat 96 then preceding ++ getSubstitution matched preceding following r
      else if d = Char.ofNat 39 then following ++ getSubstitution matched preceding following r
      else c :: getSubstitution matched preceding following (d :: r)
    else c :: getSubstitution matched preceding following (d :: r)

/-- The index of the first occurrence of `searchString` in a text
(`String.prototype.indexOf`), `none` where JavaScript yields `-1`. -/
def indexOf (searchString : List Char) : List Char → Option Nat
  | [] => if searchString = [] then some 0 else none
  | c :: cs =>
    if searchString.isPrefixOf (c :: cs) then some 0
    else (indexOf searchString cs).map (· + 1)

/-- The method `string.replace(searchString, replaceValue)` with a string as
search value, on lists of characters: the first occurrence, if there is one,
is replaced, and the text is returned as it is otherwise. -/
def replaceChars (string searchString replaceValue : List Char) : List Char :=
  match indexOf searchString string with
  | none => string
  | some pos =>
    let preceding := string.take pos
    let following := string.drop (pos + searchString.length)
    preceding ++ getSubstitution searchString preceding following replaceValue ++ following

/-- The method `string.replace(searchString, replaceValue)` on texts. -/
def replace (string searchString replaceValue : String) : String :=
  ⟨replaceChars string.data searchString.data replaceValue.data⟩

/-! ## Verifier generation -/

/-- The verification key handed to the generators.  The record carries the
fields of both layouts; `generateVerifier_original` reads those of the
Original layout and `IC`, the two other generators those of the
Groth/KimLeeOh layout and `IC`.  A key is taken to hold the fields that the
generator applied to it reads. -/
structure VerificationKey where
  protocol : Option String
  vk_a : G2Point
  vk_b : G1Point
  vk_c : G2Point
  vk_g : G2Point
  vk_gb_1 : G1Point
  vk_gb_2 : G2Point
  vk_z : G2Point
  vk_alfa_1 : G1Point
  vk_beta_2 : G2Point
  vk_gamma_2 : G2Point
  vk_delta_2 : G2Point
  IC : List G1Point

/-- The text of `i.toString()` for an integer number, as `IC.length - 1` is. -/
def toString10Int : Int → String
  | Int.ofNat m => toString10 m
  | Int.negSucc m => "-" ++ toString10 (m + 1)

/-- The loop that builds `vi`, run over the points of `IC` that remain, from
index `i` and the current value of `vi`:
`if (vi != "") vi = vi + "        "; vi = vi + ...`. -/
def icLoop : List G1Point → Nat → String → String
  | [], _, vi => vi
  | pt :: rest, i, vi =>
    let vi := if vi ≠ "" then vi ++ "        " else vi
    icLoop rest (i + 1)
      (vi ++ ("vk.IC[" ++ toString10 i ++ "] = Pairing.G1Point(" ++ toString10 pt.1 ++ "," ++
        toString10 pt.2 ++ ");\n"))

/-- The function `generateVerifier_original`; the text of the template file
`templates/verifier_original.sol` is the second argument. -/
def generateVerifier_original (verificationKey : VerificationKey) (template : String) : String :=
  let vka_str := "[" ++ toString10 verificationKey.vk_a.1.2 ++ "," ++
                   toString10 verificationKey.vk_a.1.1 ++ "], " ++
                 "[" ++ toString10 verificationKey.vk_a.2.2 ++ "," ++
                   toString10 verificationKey.vk_a.2.1 ++ "]"
  let template := replace template "<%vk_a%>" vka_str
  let vkb_str := toString10 verificationKey.vk_b.1 ++ "," ++
                 toString10 verificationKey.vk_b.2
  let template := replace template "<%vk_b%>" vkb_str
  let vkc_str := "[" ++ toString10 verificationKey.vk_c.1.2 ++ "," ++
                   toString10 verificationKey.vk_c.1.1 ++ "], " ++
                 "[" ++ toString10 verificationKey.vk_c.2.2 ++ "," ++
                   toString10 verificationKey.vk_c.2.1 ++ "]"
  let template := replace template "<%vk_c%>" vkc_str
  let vkg_str := "[" ++ toString10 verificationKey.vk_g.1.2 ++ "," ++
                   toString10 verificationKey.vk_g.1.1 ++ "], " ++
                 "[" ++ toString10 verificationKey.vk_g.2.2 ++ "," ++
                   toString10 verificationKey.vk_g.2.1 ++ "]"
  let template := replace template "<%vk_g%>" vkg_str
  let vkgb1_str := toString10 verificationKey.vk_gb_1.1 ++ "," ++
                   toString10 verificationKey.vk_gb_1.2
  let template := replace template "<%vk_gb1%>" vkgb1_str
  let vkgb2_str := "[" ++ toString10 verificationKey.vk_gb_2.1.2 ++ "," ++
                     toString10 verificationKey.vk_gb_2.1.1 ++ "], " ++
                   "[" ++ toString10 verificationKey.vk_gb_2.2.2 ++ "," ++
                     toString10 verificationKey.vk_gb_2.2.1 ++ "]"
  let template := replace template "<%vk_gb2%>" vkgb2_str
  let vkz_str := "[" ++ toString10 verificationKey.vk_z.1.2 ++ "," ++
                   toString10 verificationKey.vk_z.1.1 ++ "], " ++
                 "[" ++ toString10 verificationKey.vk_z.2.2 ++ "," ++
                   toString10 verificationKey.vk_z.2.1 ++ "]"
  let template := replace template "<%vk_z%>" vkz_str
  let template := replace template "<%vk_input_length%>"
    (toString10Int ((verificationKey.IC.length : Int) - 1))
  let template := replace template "<%vk_ic_length%>" (toString10 verificationKey.IC.length)
  let vi := icLoop verificationKey.IC 0 ""
  let template := replace template "<%vk_ic_pts%>" vi
  template

/-- The function `generateVerifier_groth`; the text of the template file
`templates/verifier_groth.sol` is the second argument. -/
def generateVerifier_groth (verificationKey : VerificationKey) (template : String) : String :=
  let vkalfa1_str := toString10 verificationKey.vk_alfa_1.1 ++ "," ++
                     toString10 verificationKey.vk_alfa_1.2
  let template := replace template "<%vk_alfa1%>" vkalfa1_str
  let vkbeta2_str := "[" ++ toString10 verificationKey.vk_beta_2.1.2 ++ "," ++
                       toString10 verificationKey.vk_beta_2.1.1 ++ "], " ++
                     "[" ++ toString10 verificationKey.vk_beta_2.2.2 ++ "," ++
                       toString10 verificationKey.vk_beta_2.2.1 ++ "]"
  let template := replace template "<%vk_beta2%>" vkbeta2_str
  let vkgamma2_str := "[" ++ toString10 verificationKey.vk_gamma_2.1.2 ++ "," ++
                        toString10 verificationKey.vk_gamma_2.1.1 ++ "], " ++
                      "[" ++ toString10 verificationKey.vk_gamma_2.2.2 ++ "," ++
                        toString10 verificationKey.vk_gamma_2.2.1 ++ "]"
  let template := replace template "<%vk_gamma2%>" vkgamma2_str
  let vkdelta2_str := "[" ++ toString10 verificationKey.vk_delta_2.1.2 ++ "," ++
                        toString10 verificationKey.vk_delta_2.1.1 ++ "], " ++
                      "[" ++ toString10 verificationKey.vk_delta_2.2.2 ++ "," ++
                        toString10 verificationKey.vk_delta_2.2.1 ++ "]"
  let template := replace template "<%vk_delta2%>" vkdelta2_str
  let template := replace template "<%vk_input_length%>"
    (toString10Int ((verificationKey.IC.length : Int) - 1))
  let template := replace template "<%vk_ic_length%>" (toString10 verificationKey.IC.length)
  let vi := icLoop verificationKey.IC 0 ""
  let template := replace template "<%vk_ic_pts%>" vi
  template

/-- The function `generateVerifier_kimleeoh`; it reads the same template file
`templates/verifier_groth.sol`, whose text is the second argument. -/
def generateVerifier_kimleeoh (verificationKey : VerificationKey) (template : String) : String :=
  let vkalfa1_str := toString10 verificationKey.vk_alfa_1.1 ++ "," ++
                     toString10 verificationKey.vk_alfa_1.2
  let template := replace template "<%vk_alfa1%>" vkalfa1_str
  let vkbeta2_str := "[" ++ toString10 verificationKey.vk_beta_2.1.2 ++ "," ++
                       toString10 verificationKey.vk_beta_2.1.1 ++ "], " ++
                     "[" ++ toString10 verificationKey.vk_beta_2.2.2 ++ "," ++
                       toString10 verificationKey.vk_beta_2.2.1 ++ "]"
  let template := replace template "<%vk_beta2%>" vkbeta2_str
  let vkgamma2_str := "[" ++ toString10 verificationKey.vk_gamma_2.1.2 ++ "," ++
                        toString10 verificationKey.vk_gamma_2.1.1 ++ "], " ++
                      "[" ++ toString10 verificationKey.vk_gamma_2.2.2 ++ "," ++
                        toString10 verificationKey.vk_gamma_2.2.1 ++ "]"
  let template := replace template "<%vk_gamma2%>" vkgamma2_str
  let vkdelta2_str := "[" ++ toString10 verificationKey.vk_delta_2.1.2 ++ "," ++
                        toString10 verificationKey.vk_delta_2.1.1 ++ "], " ++
                      "[" ++ toString10 verificationKey.vk_delta_2.2.2 ++ "," ++
                        toString10 verificationKey.vk_delta_2.2.1 ++ "]"
  let template := replace template "<%vk_delta2%>" vkdelta2_str
  let template := replace template "<%vk_input_length%>"
    (toString10Int ((verificationKey.IC.length : Int) - 1))
  let template := replace template "<%vk_ic_length%>" (toString10 verificationKey.IC.length)
  let vi := icLoop verificationKey.IC 0 ""
  let template := replace template "<%vk_ic_pts%>" vi
  template

/-! ## Templates -/

/-- Whether the opening marker `<%` of a placeholder occurs in a text. -/
def hasMarker : List Char → Bool
  | c :: d :: r => (c == '<' && d == '%') || hasMarker (d :: r)
  | _ => false

/-- A template given by its parts: the text `a0` followed, for each pair
`(token, text)` of `rest` in order, by `value token` and then `text`.  With
`value := id` this is the template itself, its placeholders in place. -/
def fill (value : String → String) : String → List (String × String) → String
  | a0, [] => a0
  | a0, (tk, a) :: rest => a0 ++ (value tk ++ fill value a rest)

/-- The same on lists of characters. -/
def render (value : List Char → List Char) :
    List Char → List (List Char × List Char) → List Char
  | a0, [] => a0
  | a0, (tk, a) :: rest => a0 ++ (value tk ++ render value a rest)

/-- The state of a template during generation: the placeholders of `done`
have been replaced by their values, the others are still in place. -/
def subst (done : List (List Char)) (value : List Char → List Char) (tk : List Char) :
    List Char :=
  if tk ∈ done then value tk else tk

/-- A placeholder token: the opening marker `<%` followed by a body in which
no `<` occurs. -/
def IsToken (tk : List Char) : Prop :=
  ∃ body, tk = '<' :: '%' :: body ∧ '<' ∉ body

/-- A text in which none of `<`, `%` and `$` occurs. -/
def Plain (v : List Char) : Prop :=
  ∀ c ∈ v, c ≠ '<' ∧ c ≠ '%' ∧ c ≠ '$'

instance : DecidablePred Plain := fun v => by
  unfold Plain
  infer_instance

/-- The placeholders of `generateVerifier_original`, in the order of its
replacements. -/
def placeholders_original : List String :=
  ["<%vk_a%>", "<%vk_b%>", "<%vk_c%>", "<%vk_g%>", "<%vk_gb1%>", "<%vk_gb2%>", "<%vk_z%>",
    "<%vk_input_length%>", "<%vk_ic_length%>", "<%vk_ic_pts%>"]

/-- The placeholders of `generateVerifier_groth` and `generateVerifier_kimleeoh`,
in the order of their replacements. -/
def placeholders_groth : List String :=
  ["<%vk_alfa1%>", "<%vk_beta2%>", "<%vk_gamma2%>", "<%vk_delta2%>",
    "<%vk_input_length%>", "<%vk_ic_length%>", "<%vk_ic_pts%>"]

/-- The text the generators write for a point of G1. -/
def g1Text (p : G1Point) : String :=
  toString10 p.1 ++ "," ++ toString10 p.2

/-- The text the generators write for a point of G2. -/
def g2Text (p : G2Point) : String :=
  "[" ++ toString10 p.1.2 ++ "," ++ toString10 p.1.1 ++ "], " ++
  "[" ++ toString10 p.2.2 ++ "," ++ toString10 p.2.1 ++ "]"

/-- The replace value that `generateVerifier_original` passes for each of its
placeholders (any other text is left as it is). -/
def substitution_original (verificationKey : VerificationKey) (tk : String) : String :=
  if tk = "<%vk_a%>" then g2Text verificationKey.vk_a
  else if tk = "<%vk_b%>" then g1Text verificationKey.vk_b
  else if tk = "<%vk_c%>" then g2Text verificationKey.vk_c
  else if tk = "<%vk_g%>" then g2Text verificationKey.vk_g
  else if tk = "<%vk_gb1%>" then g1Text verificationKey.vk_gb_1
  else if tk = "<%vk_gb2%>" then g2Text verificationKey.vk_gb_2
  else if tk = "<%vk_z%>" then g2Text verificationKey.vk_z
  else if tk = "<%vk_input_length%>" then toString10Int ((verificationKey.IC.length : Int) - 1)
  else if tk = "<%vk_ic_length%>" then toString10 verificationKey.IC.length
  else if tk = "<%vk_ic_pts%>" then icLoop verificationKey.IC 0 ""
  else tk

/-- The replace value that `generateVerifier_groth` and
`generateVerifier_kimleeoh` pass for each of their placeholders (any other
text is left as it is). -/
def substitution_groth (verificationKey : VerificationKey) (tk : String) : String :=
  if tk = "<%vk_alfa1%>" then g1Text verificationKey.vk_alfa_1
  else if tk = "<%vk_beta2%>" then g2Text verificationKey.vk_beta_2
  else if tk = "<%vk_gamma2%>" then g2Text verificationKey.vk_gamma_2
  else if tk = "<%vk_delta2%>" then g2Text verificationKey.vk_delta_2
  else if tk = "<%vk_input_length%>" then toString10Int ((verificationKey.IC.length : Int) - 1)
  else if tk = "<%vk_ic_length%>" then toString10 verificationKey.IC.length
  else if tk = "<%vk_ic_pts%>" then icLoop verificationKey.IC 0 ""
  else tk

/-- A verification key with distinct coordinates everywhere and two points
in `IC`, used to evaluate the generators. -/
def sampleKey : VerificationKey :=
  { protocol := some "groth"
    vk_a := ((1, 2), (3, 4))
    vk_b := (5, 6)
    vk_c := ((7, 8), (9, 10))
    vk_g := ((11, 12), (13, 14))
    vk_gb_1 := (15, 16)
    vk_gb_2 := ((17, 18), (19, 20))
    vk_z := ((21, 22), (23, 24))
    vk_alfa_1 := (25, 26)
    vk_beta_2 := ((27, 28), (29, 30))
    vk_gamma_2 := ((31, 32), (33, 34))
    vk_delta_2 := ((35, 36), (37, 38))
    IC := [(39, 40), (41, 42)] }

deriving instance DecidableEq for Except

/-! ## Reading a literal back -/

/-- The sixteen characters of a lower-case hexadecimal digit. -/
def hexDigitChars : List Char :=
  "0123456789abcdef".data

/-- The value of a hexadecimal digit character (`0` for any other character). -/
def hexValue (c : Char) : Nat :=
  if '0' ≤ c ∧ c ≤ '9' then c.toNat - '0'.toNat
  else if 'a' ≤ c ∧ c ≤ 'f' then c.toNat - 'a'.toNat + 10
  else if 'A' ≤ c ∧ c ≤ 'F' then c.toNat - 'A'.toNat + 10
  else 0

/-- Reading a text of hexadecimal digits, most significant first, as a number
in base 16. -/
def readBase16 (s : String) : Nat :=
  s.data.foldl (fun acc c => 16 * acc + hexValue c) 0

/-! ## The command router -/

/-- A value that `yargs` hands over for a token of the command line: a
text, a number when the token reads as a number (the token `123` is the
number 123), or a boolean for an option given without a value.  Integers
stand for the numbers: what `cli.js` tests of a number is whether it is
zero. -/
inductive ArgValue where
  | str (s : String)
  | number (n : Int)
  | bool (b : Bool)
  deriving DecidableEq

/-- Whether a value is truthy: the empty text, the number zero and `false`
are not. -/
def ArgValue.truthy : ArgValue → Bool
  | ArgValue.str s => decide (s ≠ "")
  | ArgValue.number n => decide (n ≠ 0)
  | ArgValue.bool b => b

/-- The parsed command line: `command` is `argv._[0]`, `none` when no
command is given; the other fields are the options that `cli.js` reads,
`none` when the option is not given. -/
structure Argv where
  command : Option ArgValue
  r1cs : Option ArgValue := none
  sym : Option ArgValue := none
  provingkey : Option ArgValue := none
  verificationkey : Option ArgValue := none
  input : Option ArgValue := none
  wasm : Option ArgValue := none
  witness : Option ArgValue := none
  proof : Option ArgValue := none
  «public» : Option ArgValue := none
  verifier : Option ArgValue := none
  protocol : Option ArgValue := none

/-- The expression `(v) ? v : d` on an option value: the value when it is
given and truthy, the default `d` otherwise. -/
def orDefault (v : Option ArgValue) (d : String) : ArgValue :=
  match v with
  | some x => if x.truthy then x else ArgValue.str d
  | none => ArgValue.str d

/-- The constant `r1csName`. -/
def r1csName (argv : Argv) : ArgValue := orDefault argv.r1cs "circuit.r1cs"

/-- The constant `symName`. -/
def symName (argv : Argv) : ArgValue := orDefault argv.sym "circuit.sym"

/-- The constant `provingKeyName`. -/
def provingKeyName (argv : Argv) : ArgValue := orDefault argv.provingkey "proving_key.json"

/-- The constant `verificationKeyName`. -/
def verificationKeyName (argv : Argv) : ArgValue :=
  orDefault argv.verificationkey "verification_key.json"

/-- The constant `inputName`. -/
def inputName (argv : Argv) : ArgValue := orDefault argv.input "input.json"

/-- The constant `wasmName`. -/
def wasmName (argv : Argv) : ArgValue := orDefault argv.wasm "circuit.wasm"

/-- The constant `witnessName`. -/
def witnessName (argv : Argv) : ArgValue := orDefault argv.witness "witness.json"

/-- The constant `proofName`. -/
def proofName (argv : Argv) : ArgValue := orDefault argv.proof "proof.json"

/-- The constant `publicName`. -/
def publicName (argv : Argv) : ArgValue := orDefault argv.«public» "public.json"

/-- The constant `verifierName`. -/
def verifierName (argv : Argv) : ArgValue := orDefault argv.verifier "verifier.sol"

/-- The constant `protocol`. -/
def protocol (argv : Argv) : ArgValue := orDefault argv.protocol "groth"

/-- The value that the program uses for an option, by the long name of the
option. -/
def optionValue (argv : Argv) (option : String) : ArgValue :=
  if option = "r1cs" then r1csName argv
  else if option = "sym" then symName argv
  else if option = "provingkey" then provingKeyName argv
  else if option = "verificationkey" then verificationKeyName argv
  else if option = "input" then inputName argv
  else if option = "wasm" then wasmName argv
  else if option = "witness" then witnessName argv
  else if option = "proof" then proofName argv
  else if option = "public" then publicName argv
  else if option = "verifier" then verifierName argv
  else if option = "protocol" then protocol argv
  else ArgValue.str ""

/-- The defaults that the usage text documents, entry by entry in the order
of the text: command, long name of the option, text after `Default:`. -/
def usageDefaults : List (String × String × String) :=
  [("setup", "r1cs", "circuit.r1cs"),
   ("setup", "provingkey", "proving_key.json"),
   ("setup", "verificationkey", "verification_key.json"),
   ("setup", "protocol", "groth"),
   ("calculatewitness", "wasm", "circuit.r1cs"),
   ("calculatewitness", "input", "input.json"),
   ("calculatewitness", "witness", "witness.json"),
   ("calculatewitness", "sym", "circuit.sym"),
   ("proof", "witness", "witness.json"),
   ("proof", "provingkey", "proving_key.json"),
   ("proof", "proof", "proof.json"),
   ("proof", "public", "public.json"),
   ("verify", "verificationkey", "verification_key.json"),
   ("verify", "proof", "proof.json"),
   ("verify", "public", "public.json"),
   ("generateverifier", "verificationkey", "verification_key.json"),
   ("generateverifier", "verifier", "verifier.sol"),
   ("generatecall", "proof", "proof.json"),
   ("generatecall", "public", "public.json"),
   ("info", "r1cs", "circuit.r1cs"),
   ("printconstraints", "r1cs", "circuit.r1cs"),
   ("printconstraints", "sym", "circuit.sym")]

/-- What a run does that can be seen from outside, in order.  A file is
named by the value of its option. -/
inductive Effect where
  | readFile (name : ArgValue)
  | writeFile (name : ArgValue) (data : String)
  | log (text : String)
  | exit (code : Nat)
  deriving DecidableEq

/-- The eight stages of `run`. -/
inductive Stage where
  | info
  | printconstraints
  | setup
  | calculatewitness
  | proof
  | verify
  | generateverifier
  | generatecall
  deriving DecidableEq

/-- What `run` takes from outside `cli.js`.  Reading an artifact is taken to
succeed: `verificationKeyAt name` is
`unstringifyBigInts(JSON.parse(fs.readFileSync(name, "utf8")))` for a
verification key, and likewise for a proof and for public signals.
`templateAt file` is the text of the file `file` of the directory
`templates`.  `zkSnark protocol` is the `isValid` function of the entry
`zkSnark[protocol]`, `none` when the entry is missing.  `stack err` is the
text of `err.stack`, and `typeErrorMessage what` the message of the engine
for a TypeError at the expression `what`.  The five stages that only hand
over to the circuit loader, the witness calculator and the proof engine are
given by what they do. -/
structure World where
  toUpperCase : String → String
  verificationKeyAt : ArgValue → VerificationKey
  proofAt : ArgValue → Proof
  publicAt : ArgValue → List Nat
  templateAt : String → String
  zkSnark : Option String → Option (VerificationKey → Proof → List Nat → Bool)
  stack : Thrown → String
  typeErrorMessage : String → String
  info : Argv → List Effect
  printconstraints : Argv → List Effect
  setup : Argv → List Effect
  calculatewitness : Argv → List Effect
  proof : Argv → List Effect

/-- The chain of tests `argv._[0].toUpperCase() == "..."` of `run`, as the
stage it leads to; `none` is the final `else`. -/
def selectStage (toUpperCase : String → String) (token : String) : Option Stage :=
  if toUpperCase token = "INFO" then some Stage.info
  else if toUpperCase token = "PRINTCONSTRAINTS" then some Stage.printconstraints
  else if toUpperCase token = "SETUP" then some Stage.setup
  else if toUpperCase token = "CALCULATEWITNESS" then some Stage.calculatewitness
  else if toUpperCase token = "PROOF" then some Stage.proof
  else if toUpperCase token = "VERIFY" then some Stage.verify
  else if toUpperCase token = "GENERATEVERIFIER" then some Stage.generateverifier
  else if toUpperCase token = "GENERATECALL" then some Stage.generatecall
  else none

/-- The text of `"" + err`: `Error: message` for `new Error(message)`, and
`TypeError:` followed by the message of the engine for a TypeError. -/
def errorText (w : World) : Thrown → String
  | Thrown.error message => "Error: " ++ message
  | Thrown.typeError what => "TypeError: " ++ w.typeErrorMessage what

/-- The `catch` block of `run`: the stack and the line `ERROR: ` followed by
the text of the error are printed and the process exits with code 1. -/
def catchBlock (w : World) (err : Thrown) : List Effect :=
  [Effect.log (w.stack err), Effect.log ("ERROR: " ++ errorText w err), Effect.exit 1]

/-- The `generateverifier` branch of `run`, from the verification key already
read to the text handed to `fs.writeFileSync`; `Except.error` holds what is
thrown.  Each generator reads its own template file. -/
def generateverifier (templateAt : String → String) (verificationKey : VerificationKey) :
    Except Thrown String :=
  if verificationKey.protocol = some "original" then
    Except.ok (generateVerifier_original verificationKey (templateAt "verifier_original.sol"))
  else if verificationKey.protocol = some "groth" then
    Except.ok (generateVerifier_groth verificationKey (templateAt "verifier_groth.sol"))
  else if verificationKey.protocol = some "kimleeoh" then
    Except.ok (generateVerifier_kimleeoh verificationKey (templateAt "verifier_groth.sol"))
  else
    Except.error (Thrown.error "InvalidProof")

/-- The function `run`: the reads and writes of artifacts, the lines printed
and the exit of the process, in order.  The first test,
`argv._[0].toUpperCase() == "INFO"`, throws a TypeError when `argv._[0]` is
not a text.  The reads of the template files inside the generators are not
listed. -/
def run (w : World) (argv : Argv) : List Effect :=
  match argv.command with
  | some (ArgValue.str token) =>
    (match selectStage w.toUpperCase token with
     | some Stage.info => w.info argv
     | some Stage.printconstraints => w.printconstraints argv
     | some Stage.setup => w.setup argv
     | some Stage.calculatewitness => w.calculatewitness argv
     | some Stage.proof => w.proof argv
     | some Stage.verify =>
       let «public» := w.publicAt (publicName argv)
       let verificationKey := w.verificationKeyAt (verificationKeyName argv)
       let proof := w.proofAt (proofName argv)
       [Effect.readFile (publicName argv), Effect.readFile (verificationKeyName argv),
         Effect.readFile (proofName argv)] ++
       (match w.zkSnark verificationKey.protocol with
        | none => catchBlock w (Thrown.error "Invalid protocol")
        | some isValid =>
          if isValid verificationKey proof «public» then [Effect.log "OK", Effect.exit 0]
          else [Effect.log "INVALID", Effect.exit 1])
     | some Stage.generateverifier =>
       let verificationKey := w.verificationKeyAt (verificationKeyName argv)
       [Effect.readFile (verificationKeyName argv)] ++
       (match generateverifier w.templateAt verificationKey with
        | Except.ok verifierCode =>
          [Effect.writeFile (verifierName argv) verifierCode, Effect.exit 0]
        | Except.error err => catchBlock w err)
     | some Stage.generatecall =>
       let «public» := w.publicAt (publicName argv)
       let proof := w.proofAt (proofName argv)
       [Effect.readFile (publicName argv), Effect.readFile (proofName argv)] ++
       (match generatecall «public» proof with
        | Except.ok S => [Effect.log S, Effect.exit 0]
        | Except.error err => catchBlock w err)
     | none => catchBlock w (Thrown.error "Invalid Command"))
  | _ => catchBlock w (Thrown.typeError "argv._[0].toUpperCase()")

/-- A proof record of the Groth layout with distinct coordinates, used to
evaluate `run`. -/
def sampleProof : Proof :=
  { protocol := some "groth"
    pi_a := some (1, 2)
    pi_ap := none
    pi_b := some ((3, 4), (5, 6))
    pi_bp := none
    pi_c := some (7, 8)
    pi_cp := none
    pi_h := none
    pi_kp := none }

/-- A proof record of the Original layout with distinct coordinates. -/
def sampleProofOriginal : Proof :=
  { protocol := some "original"
    pi_a := some (1, 2)
    pi_ap := some (11, 12)
    pi_b := some ((3, 4), (5, 6))
    pi_bp := some (13, 14)
    pi_c := some (7, 8)
    pi_cp := some (15, 16)
    pi_h := some (17, 18)
    pi_kp := some (19, 20) }

/-- Upper-casing of the letters `a` to `z`, every other character kept; on
texts of ASCII characters this is `String.prototype.toUpperCase`. -/
def asciiUpperCase (s : String) : String :=
  ⟨s.data.map (fun c => if 'a' ≤ c ∧ c ≤ 'z' then Char.ofNat (c.toNat - 32) else c)⟩

/-- A world used to evaluate `run`: upper-casing of ASCII letters, the sample
artifacts under every name, short templates, the three protocols in the table
with a check that accepts the public signals `[9]` only, and stages of the
collaborators that do nothing but exit. -/
def sampleWorld : World :=
  { toUpperCase := asciiUpperCase
    verificationKeyAt := fun _ => sampleKey
    proofAt := fun _ => sampleProof
    publicAt := fun name => if name = ArgValue.str "public.json" then [9] else [10]
    templateAt := fun file =>
      if file = "verifier_original.sol" then "a = <%vk_a%>;" else "alfa1 = <%vk_alfa1%>;"
    zkSnark := fun tag =>
      if tag = some "original" ∨ tag = some "groth" ∨ tag = some "kimleeoh" then
        some (fun _ _ signals => signals == [9])
      else none
    stack := fun err =>
      match err with
      | Thrown.error message => "Error: " ++ message ++ "\n    at run"
      | Thrown.typeError what => "TypeError: " ++ what ++ "\n    at run"
    typeErrorMessage := fun what => what ++ " is not allowed"
    info := fun _ => [Effect.exit 0]
    printconstraints := fun _ => [Effect.exit 0]
    setup := fun _ => [Effect.exit 0]
    calculatewitness := fun _ => [Effect.exit 0]
    proof := fun _ => [Effect.exit 0] }

/-- The text that selects a stage, in upper case. -/
def Stage.token : Stage → String
  | Stage.info => "INFO"
  | Stage.printconstraints => "PRINTCONSTRAINTS"
  | Stage.setup => "SETUP"
  | Stage.calculatewitness => "CALCULATEWITNESS"
  | Stage.proof => "PROOF"
  | Stage.verify => "VERIFY"
  | Stage.generateverifier => "GENERATEVERIFIER"
  | Stage.generatecall => "GENERATECALL"

/-- The eight command names, in upper case, in the order of the tests of
`run`. -/
def commandTokens : List String :=
  ["INFO", "PRINTCONSTRAINTS", "SETUP", "CALCULATEWITNESS", "PROOF", "VERIFY",
    "GENERATEVERIFIER", "GENERATECALL"]

/-! ## The artifact codec -/

/-- Modelled from the spec: the scalars other than big integers and strings
that an artifact may hold (the spec's "other scalar"); the functions
`stringifyBigInts` and `unstringifyBigInts` are imported from the package
`ffjavascript` and are not part of `cli.js`. -/
inductive Scalar where
  | null
  | bool (b : Bool)
  | number (n : Int)

/-- Modelled from the spec: a value of the artifact codec, "one of big
integer, ordered sequence, mapping with unique keys, other scalar", strings
being the scalars that `destringify` inspects.  Big integers are field
elements, hence nonnegative. -/
inductive Value where
  | bigint (n : Nat)
  | string (s : String)
  | other (s : Scalar)
  | seq (items : List Value)
  | map (fields : List (String × Value))

/-- Modelled from the spec: whether a text is "composed entirely of decimal
digits" (at least one). -/
def isDecimal (s : String) : Bool :=
  !s.data.isEmpty && s.data.all (fun c => decide ('0' ≤ c ∧ c ≤ '9'))

/-- Modelled from the spec: the big integer that a text of decimal digits is
"parsed back into". -/
def readBase10 (s : String) : Nat :=
  s.data.foldl (fun acc c => 10 * acc + (c.toNat - '0'.toNat)) 0

mutual
/-- Modelled from the spec: `stringify` of the artifact codec
(`stringifyBigInts` of `ffjavascript`): "big integers become decimal-string
leaves; sequences and mappings are rebuilt with the same shape/order/keys,
with all big-integer leaves transformed; other scalars pass through
unchanged". -/
def stringify : Value → Value
  | Value.bigint n => Value.string (toString10 n)
  | Value.seq items => Value.seq (stringifyItems items)
  | Value.map fields => Value.map (stringifyFields fields)
  | Value.string s => Value.string s
  | Value.other s => Value.other s
/-- Modelled from the spec: `stringify` on the items of a sequence. -/
def stringifyItems : List Value → List Value
  | [] => []
  | v :: rest => stringify v :: stringifyItems rest
/-- Modelled from the spec: `stringify` on the fields of a mapping. -/
def stringifyFields : List (String × Value) → List (String × Value)
  | [] => []
  | (k, v) :: rest => (k, stringify v) :: stringifyFields rest
end

mutual
/-- Modelled from the spec: `destringify` of the artifact codec
(`unstringifyBigInts` of `ffjavascript`): "any leaf value that is a string
composed entirely of decimal digits is parsed back into a big integer;
non-numeric strings and other scalars pass through unchanged". -/
def destringify : Value → Value
  | Value.string s => if isDecimal s then Value.bigint (readBase10 s) else Value.string s
  | Value.seq items => Value.seq (destringifyItems items)
  | Value.map fields => Value.map (destringifyFields fields)
  | Value.bigint n => Value.bigint n
  | Value.other s => Value.other s
/-- Modelled from the spec: `destringify` on the items of a sequence. -/
def destringifyItems : List Value → List Value
  | [] => []
  | v :: rest => destringify v :: destringifyItems rest
/-- Modelled from the spec: `destringify` on the fields of a mapping. -/
def destringifyFields : List (String × Value) → List (String × Value)
  | [] => []
  | (k, v) :: rest => (k, destringify v) :: destringifyFields rest
end

mutual
/-- A value "built from nested sequences, mappings and big integers": no
string and no other scalar at a leaf. -/
def onlyBigInts : Value → Bool
  | Value.bigint _ => true
  | Value.seq items => onlyBigIntsItems items
  | Value.map fields => onlyBigIntsFields fields
  | Value.string _ => false
  | Value.other _ => false
/-- The same for the items of a sequence. -/
def onlyBigIntsItems : List Value → Bool
  | [] => true
  | v :: rest => onlyBigInts v && onlyBigIntsItems rest
/-- The same for the fields of a mapping. -/
def onlyBigIntsFields : List (String × Value) → Bool
  | [] => true
  | (_, v) :: rest => onlyBigInts v && onlyBigIntsFields rest
end

mutual
/-- A value that plain JSON text can hold: no big integer at a leaf. -/
def noBigInt : Value → Bool
  | Value.bigint _ => false
  | Value.seq items => noBigIntItems items
  | Value.map fields => noBigIntFields fields
  | Value.string _ => true
  | Value.other _ => true
/-- The same for the items of a sequence. -/
def noBigIntItems : List Value → Bool
  | [] => true
  | v :: rest => noBigInt v && noBigIntItems rest
/-- The same for the fields of a mapping. -/
def noBigIntFields : List (String × Value) → Bool
  | [] => true
  | (_, v) :: rest => noBigInt v && noBigIntFields rest
end

/-- The proof of the spec's example as a value of the codec. -/
def sampleValue : Value :=
  Value.map [("pi_a", Value.seq [Value.bigint 1, Value.bigint 2]),
    ("pi_b", Value.seq [Value.seq [Value.bigint 3, Value.bigint 4],
      Value.seq [Value.bigint 5, Value.bigint (2 ^ 256)]]),
    ("pi_c", Value.seq [Value.bigint 7, Value.bigint 0])]

/-- The tokens that come after `tk` in a list of tokens: those that a
generator replaces after it has replaced `tk`. -/
def tokensAfter (tk : List Char) : List (List Char) → List (List Char)
  | [] => []
  | x :: rest => if x = tk then rest else tokensAfter tk rest

/-! ## Replacement of first occurrences in one pass -/

/-- One pass over a template, from left to right, that replaces the first
occurrence of each token of `pending` by its value.  `skip` counts the
characters of a token just replaced that are still to be passed over.  At a
position where a token of `pending` begins, its value is written, the token
leaves `pending` (a later occurrence of it stays as it is) and its characters
are passed over; at any other position the character is kept.  A token is
not empty. -/
def fillFirstAux (value : List Char → List Char) :
    Nat → List (List Char) → List Char → List Char
  | _, _, [] => []
  | skip + 1, pending, _ :: cs => fillFirstAux value skip pending cs
  | 0, pending, c :: cs =>
    match pending.find? (fun tk => tk.isPrefixOf (c :: cs)) with
    | some tk => value tk ++ fillFirstAux value (tk.length - 1) (pending.erase tk) cs
    | none => c :: fillFirstAux value 0 pending cs

/-- The template in which the first occurrence of each of the placeholders
`tokens` is replaced by its value, and everything else is kept: what the
specification asks of a generator, stated without the order in which the
source makes its replacements. -/
def fillFirst (value : String → String) (tokens : List String) (template : String) : String :=
  ⟨fillFirstAux (fun tk => (value ⟨tk⟩).data) 0 (tokens.map String.data) template.data⟩

/-! ## Lemmas on digits -/

theorem toDigitsCore_eq_digits (b : Nat) (hb : 1 < b) :
    ∀ (fuel n : Nat) (acc : List Char), n < fuel →
      Nat.toDigitsCore b fuel n acc =
        (if n = 0 then ['0'] else ((Nat.digits b n).reverse.map Nat.digitChar)) ++ acc := by
  intro fuel
  induction fuel with
  | zero => intro n acc h; omega
  | succ fuel ih =>
    intro n acc h
    rw [Nat.toDigitsCore]
    by_cases hq : n / b = 0
    · have hlt : n < b := (Nat.div_eq_zero_iff (by omega)).mp hq
      simp only [hq, if_true]
      by_cases hn : n = 0
      · subst hn; simp [Nat.digitChar]
      · simp [hn, Nat.digits_of_lt b n hn hlt, Nat.mod_eq_of_lt hlt]
    · have hn : n ≠ 0 := by
        rintro rfl
        simp at hq
      have hlt : n / b < fuel := by
        have : n / b < n := Nat.div_lt_self (Nat.pos_of_ne_zero hn) hb
        omega
      simp only [hq, if_false]
      rw [ih (n / b) _ hlt]
      simp only [hq, hn, if_false]
      rw [Nat.digits_def' hb (Nat.pos_of_ne_zero hn)]
      simp

theorem toDigits_eq_digits (b : Nat) (hb : 1 < b) (n : Nat) :
    Nat.toDigits b n =
      if n = 0 then ['0'] else (Nat.digits b n).reverse.map Nat.digitChar := by
  rw [Nat.toDigits, toDigitsCore_eq_digits b hb (n + 1) n [] (Nat.lt_succ_self n)]
  simp

theorem digitChar_mem_hexDigitChars : ∀ d, d < 16 → Nat.digitChar d ∈ hexDigitChars := by
  decide

theorem hexValue_digitChar : ∀ d, d < 16 → hexValue (Nat.digitChar d) = d := by
  decide

theorem toString16_data (n : Nat) : (toString16 n).data = Nat.toDigits 16 n := rfl

theorem toString16_length_pos (n : Nat) : 0 < (toString16 n).length := by
  rw [toString16, String.length_mk, toDigits_eq_digits 16 (by decide)]
  by_cases hn : n = 0
  · simp [hn]
  · have : Nat.digits 16 n ≠ [] := Nat.digits_ne_nil_iff_ne_zero.mpr hn
    simp [hn, List.length_pos, this]

theorem toString16_length_le (n k : Nat) (hk : 0 < k) (h : n < 16 ^ k) :
    (toString16 n).length ≤ k := by
  rw [toString16, String.length_mk, toDigits_eq_digits 16 (by decide)]
  by_cases hn : n = 0
  · simp [hn]; omega
  · simp only [hn, if_false, List.length_map, List.length_reverse]
    by_contra hc
    have h1 : 16 ^ (k + 1) ≤ 16 ^ (Nat.digits 16 n).length :=
      Nat.pow_le_pow_right (by decide) (by omega)
    have h2 := Nat.base_pow_length_digits_le 16 n (by decide) hn
    rw [pow_succ] at h1
    omega

theorem toString16_length_gt (n k : Nat) (h : 16 ^ k ≤ n) :
    k < (toString16 n).length := by
  rw [toString16, String.length_mk, toDigits_eq_digits 16 (by decide)]
  have hn : n ≠ 0 := by
    have := Nat.pos_pow_of_pos k (show 0 < 16 by decide)
    omega
  simp only [hn, if_false, List.length_map, List.length_reverse]
  by_contra hc
  have h1 : n < 16 ^ (Nat.digits 16 n).length := Nat.lt_base_pow_length_digits (by decide)
  have h2 : 16 ^ (Nat.digits 16 n).length ≤ 16 ^ k :=
    Nat.pow_le_pow_right (by decide) (by omega)
  omega

theorem toString16_mem_hex (n : Nat) : ∀ c ∈ (toString16 n).data, c ∈ hexDigitChars := by
  intro c hc
  rw [toString16_data, toDigits_eq_digits 16 (by decide)] at hc
  by_cases hn : n = 0
  · simp [hn] at hc
    subst hc
    decide
  · simp only [hn, if_false, List.mem_map, List.mem_reverse] at hc
    obtain ⟨d, hd, rfl⟩ := hc
    exact digitChar_mem_hexDigitChars d (Nat.digits_lt_base (by decide) hd)

theorem foldl_hex_digits (ds : List Nat) (hds : ∀ d ∈ ds, d < 16) :
    (ds.reverse.map Nat.digitChar).foldl (fun acc c => 16 * acc + hexValue c) 0 =
      Nat.ofDigits 16 ds := by
  induction ds with
  | nil => simp
  | cons d ds ih =>
    have hd : d < 16 := hds d (List.mem_cons_self _ _)
    have ih2 := ih (fun x hx => hds x (List.mem_cons_of_mem _ hx))
    simp only [List.reverse_cons, List.map_append, List.map, List.foldl_append, List.foldl]
    rw [ih2, hexValue_digitChar d hd, Nat.ofDigits_cons]
    omega

theorem readBase16_toString16 (n : Nat) : readBase16 (toString16 n) = n := by
  rw [readBase16, toString16_data, toDigits_eq_digits 16 (by decide)]
  by_cases hn : n = 0
  · subst hn; decide
  · simp only [hn, if_false]
    rw [foldl_hex_digits _ (fun d hd => Nat.digits_lt_base (by decide) hd), Nat.ofDigits_digits]

theorem foldl_hex_zeros (k : Nat) (l : List Char) :
    (List.replicate k '0' ++ l).foldl (fun acc c => 16 * acc + hexValue c) 0 =
      l.foldl (fun acc c => 16 * acc + hexValue c) 0 := by
  induction k with
  | zero => simp
  | succ k ih =>
    rw [List.replicate_succ, List.cons_append, List.foldl_cons]
    exact ih

/-- The padding loop, given enough iterations, puts `64 - length` zeros in front. -/
theorem padLoop_eq : ∀ (fuel : Nat) (s : String), 64 - s.length ≤ fuel →
    padLoop fuel s = ⟨List.replicate (64 - s.length) '0'⟩ ++ s := by
  intro fuel
  induction fuel with
  | zero =>
    intro s h
    have h0 : 64 - s.length = 0 := by omega
    rw [padLoop, h0]
    apply String.ext
    simp
  | succ fuel ih =>
    intro s h
    rw [padLoop]
    by_cases hl : s.length < 64
    · have h1 : ("0" ++ s).length = s.length + 1 := by
        rw [String.length_append, show "0".length = 1 from rfl]; omega
      rw [if_pos hl, ih ("0" ++ s) (by omega)]
      apply String.ext
      have e : 64 - s.length = (64 - ("0" ++ s).length) + 1 := by omega
      rw [e, List.replicate_succ']
      simp [String.data_append]
    · rw [if_neg hl]
      have h0 : 64 - s.length = 0 := by omega
      rw [h0]
      apply String.ext
      simp

/-- Sixty-four iterations always reach the exit test of the padding loop:
the text it returns is no shorter than 64 characters. -/
theorem padLoop_exit (s : String) : ¬ (padLoop 64 s).length < 64 := by
  rw [padLoop_eq 64 s (by omega)]
  simp [String.length_append]
  omega

theorem p256_eq (n : Nat) :
    p256 n = "\"0x" ++ (⟨List.replicate (64 - (toString16 n).length) '0'⟩ ++ toString16 n) ++
      "\"" := by
  simp only [p256]
  rw [padLoop_eq 64 _ (by omega)]

theorem p256_ne_empty (n : Nat) : p256 n ≠ "" := by
  rw [p256_eq]
  intro h
  have := congrArg String.length h
  simp [String.length_append] at this
  have h3 : "\"0x".length = 3 := rfl
  omega

/-- The loop over the public signals, started from a non-empty text, appends
each literal after a comma. -/
theorem inputsLoop_go : ∀ (l : List Nat) (acc : String), acc ≠ "" →
    inputsLoop l acc = String.intercalate.go acc "," (l.map p256) := by
  intro l
  induction l with
  | nil => intro acc _; rfl
  | cons s rest ih =>
    intro acc hacc
    rw [inputsLoop]
    simp only [hacc, ne_eq, not_false_eq_true, if_true, List.map, String.intercalate.go]
    apply ih
    intro h
    have := congrArg String.length h
    simp [String.length_append] at this
    exact hacc (String.ext (List.eq_nil_of_length_eq_zero this.1.1))

/-- The loop over the public signals joins their literals with single commas. -/
theorem inputsLoop_eq (l : List Nat) :
    inputsLoop l "" = String.intercalate "," (l.map p256) := by
  cases l with
  | nil => rfl
  | cons s rest =>
    rw [inputsLoop]
    simp only [ne_eq, not_true_eq_false, if_false, List.map, String.intercalate]
    rw [show "" ++ p256 s = p256 s from String.ext (by simp)]
    exact inputsLoop_go rest (p256 s) (p256_ne_empty s)

/-! ## The call literal -/

/-- C1, as stated, fails: for the Groth-tagged proof with `pi_a=(1,2)`,
`pi_b=((3,4),(5,6))`, `pi_c=(7,8)` and the public signals `[9]`, the call
literal is not the text of the claim, in which the two literals of a pair are
separated by a comma alone; the stage writes a comma and a space there. -/
theorem generatecall_groth_not_bare_commas :
    generatecall [9] ⟨some "groth", some (1, 2), none, some ((3, 4), (5, 6)), none,
        some (7, 8), none, none, none⟩ ≠
      Except.ok ("[" ++ p256 1 ++ "," ++ p256 2 ++ "],[[" ++ p256 4 ++ "," ++ p256 3 ++ "],[" ++
        p256 6 ++ "," ++ p256 5 ++ "]],[" ++ p256 7 ++ "," ++ p256 8 ++ "],[" ++ p256 9 ++ "]") := by
  decide

/-- C1, amended: for every proof tagged "groth" or "kimleeoh" that holds
the points `pi_a`, `pi_b` and `pi_c`, and every sequence of public signals,
the stage returns the call literal made of the groups `[pi_a]`, `[[pi_b]]`,
`[pi_c]`, `[signals]` separated by single commas, where the two literals of
each pair are separated by a comma followed by one space, each pair of `pi_b`
is written second coordinate first, and the literals of the public signals
are separated by single commas. -/
theorem generatecall_groth_literal (publicSignals : List Nat) (proof : Proof)
    (a : G1Point) (b : G2Point) (c : G1Point)
    (h : proof.protocol = some "groth" ∨ proof.protocol = some "kimleeoh")
    (ha : proof.pi_a = some a) (hb : proof.pi_b = some b) (hc : proof.pi_c = some c) :
    generatecall publicSignals proof =
      Except.ok (
        "[" ++ p256 a.1 ++ ", " ++ p256 a.2 ++ "]" ++ "," ++
        "[" ++ "[" ++ p256 b.1.2 ++ ", " ++ p256 b.1.1 ++ "]" ++ "," ++
          "[" ++ p256 b.2.2 ++ ", " ++ p256 b.2.1 ++ "]" ++ "]" ++ "," ++
        "[" ++ p256 c.1 ++ ", " ++ p256 c.2 ++ "]" ++ "," ++
        "[" ++ String.intercalate "," (publicSignals.map p256) ++ "]") := by
  have h1 : ¬ (proof.protocol = none ∨ proof.protocol = some "original") := by
    rcases h with h | h <;> rw [h] <;> decide
  unfold generatecall
  rw [if_neg h1, if_pos h, ha, hb, hc, inputsLoop_eq]
  simp only [String.append_assoc]
  rfl

/-- Witness of `generatecall_groth_literal`: the proof of the spec's example. -/
theorem generatecall_groth_literal_witness :
    generatecall [9] ⟨some "groth", some (1, 2), none, some ((3, 4), (5, 6)), none,
        some (7, 8), none, none, none⟩ =
      Except.ok (
        "[" ++ p256 1 ++ ", " ++ p256 2 ++ "]" ++ "," ++
        "[" ++ "[" ++ p256 4 ++ ", " ++ p256 3 ++ "]" ++ "," ++
          "[" ++ p256 6 ++ ", " ++ p256 5 ++ "]" ++ "]" ++ "," ++
        "[" ++ p256 7 ++ ", " ++ p256 8 ++ "]" ++ "," ++
        "[" ++ String.intercalate "," ([9].map p256) ++ "]") :=
  generatecall_groth_literal [9]
    ⟨some "groth", some (1, 2), none, some ((3, 4), (5, 6)), none, some (7, 8), none, none, none⟩
    (1, 2) ((3, 4), (5, 6)) (7, 8) (Or.inl rfl) rfl rfl rfl

/-- C2: for `0 ≤ n < 2^256`, `p256 n` is the text `"0x` + hex + `"` where hex
has exactly 64 characters, all of them hexadecimal digits, is the hexadecimal
text of `n` left-padded with zeros, and reads back as `n` in base 16. -/
theorem p256_fixed_width (n : Nat) (h : n < 2 ^ 256) :
    ∃ hex : String,
      p256 n = "\"0x" ++ hex ++ "\"" ∧
      hex.length = 64 ∧
      (∀ c ∈ hex.data, c ∈ hexDigitChars) ∧
      hex = ⟨List.replicate (64 - (toString16 n).length) '0'⟩ ++ toString16 n ∧
      readBase16 hex = n := by
  have hle : (toString16 n).length ≤ 64 :=
    toString16_length_le n 64 (by decide) (by
      have e : (16 : Nat) ^ 64 = 2 ^ 256 := by norm_num
      omega)
  refine ⟨⟨List.replicate (64 - (toString16 n).length) '0'⟩ ++ toString16 n,
    p256_eq n, ?_, ?_, rfl, ?_⟩
  · rw [String.length_append, String.length_mk, List.length_replicate]
    omega
  · intro c hc
    rw [String.data_append, List.mem_append] at hc
    rcases hc with hc | hc
    · rw [List.eq_of_mem_replicate hc]
      decide
    · exact toString16_mem_hex n c hc
  · have := readBase16_toString16 n
    rw [readBase16] at this ⊢
    rw [String.data_append, foldl_hex_zeros]
    exact this

/-- Witness of `p256_fixed_width` at the two ends of the range, `0` and
`2^256 - 1`. -/
theorem p256_fixed_width_witness :
    (∃ hex : String,
      p256 0 = "\"0x" ++ hex ++ "\"" ∧
      hex.length = 64 ∧
      (∀ c ∈ hex.data, c ∈ hexDigitChars) ∧
      hex = ⟨List.replicate (64 - (toString16 0).length) '0'⟩ ++ toString16 0 ∧
      readBase16 hex = 0) ∧
    (∃ hex : String,
      p256 (2 ^ 256 - 1) = "\"0x" ++ hex ++ "\"" ∧
      hex.length = 64 ∧
      (∀ c ∈ hex.data, c ∈ hexDigitChars) ∧
      hex = ⟨List.replicate (64 - (toString16 (2 ^ 256 - 1)).length) '0'⟩ ++
        toString16 (2 ^ 256 - 1) ∧
      readBase16 hex = 2 ^ 256 - 1) :=
  ⟨p256_fixed_width 0 (by decide), p256_fixed_width (2 ^ 256 - 1) (by decide)⟩

/-- C3: for every proof tagged "original" that holds its eight points, and
every sequence of public signals, the call literal is nine bracketed groups
joined by single commas, in the order pi_a, pi_ap, pi_b, pi_bp, pi_c, pi_cp,
pi_h, pi_kp, public signals; a G1 group holds `p256 x` then `p256 y`; the
pi_b group holds one inner group for each of its two coordinate pairs, in
order, each written second coordinate first; the last group holds the
literals of the public signals in input order. -/
theorem generatecall_original_literal (publicSignals : List Nat) (proof : Proof)
    (a ap : G1Point) (b : G2Point) (bp c cp h kp : G1Point)
    (htag : proof.protocol = some "original")
    (ha : proof.pi_a = some a) (hap : proof.pi_ap = some ap) (hb : proof.pi_b = some b)
    (hbp : proof.pi_bp = some bp) (hc : proof.pi_c = some c) (hcp : proof.pi_cp = some cp)
    (hh : proof.pi_h = some h) (hkp : proof.pi_kp = some kp) :
    generatecall publicSignals proof =
      Except.ok (String.intercalate "," [
        "[" ++ p256 a.1 ++ ", " ++ p256 a.2 ++ "]",
        "[" ++ p256 ap.1 ++ ", " ++ p256 ap.2 ++ "]",
        "[" ++ String.intercalate "," [
            "[" ++ p256 b.1.2 ++ ", " ++ p256 b.1.1 ++ "]",
            "[" ++ p256 b.2.2 ++ ", " ++ p256 b.2.1 ++ "]"] ++ "]",
        "[" ++ p256 bp.1 ++ ", " ++ p256 bp.2 ++ "]",
        "[" ++ p256 c.1 ++ ", " ++ p256 c.2 ++ "]",
        "[" ++ p256 cp.1 ++ ", " ++ p256 cp.2 ++ "]",
        "[" ++ p256 h.1 ++ ", " ++ p256 h.2 ++ "]",
        "[" ++ p256 kp.1 ++ ", " ++ p256 kp.2 ++ "]",
        "[" ++ String.intercalate "," (publicSignals.map p256) ++ "]"]) := by
  unfold generatecall
  rw [if_pos (Or.inr htag), ha, hap, hb, hbp, hc, hcp, hh, hkp, inputsLoop_eq]
  simp only [String.intercalate, String.intercalate.go, String.append_assoc]
  rfl

/-- Witness of `generatecall_original_literal`. -/
theorem generatecall_original_literal_witness :
    generatecall [9, 10] ⟨some "original", some (1, 2), some (11, 12), some ((3, 4), (5, 6)),
        some (13, 14), some (7, 8), some (15, 16), some (17, 18), some (19, 20)⟩ =
      Except.ok (String.intercalate "," [
        "[" ++ p256 1 ++ ", " ++ p256 2 ++ "]",
        "[" ++ p256 11 ++ ", " ++ p256 12 ++ "]",
        "[" ++ String.intercalate "," [
            "[" ++ p256 4 ++ ", " ++ p256 3 ++ "]",
            "[" ++ p256 6 ++ ", " ++ p256 5 ++ "]"] ++ "]",
        "[" ++ p256 13 ++ ", " ++ p256 14 ++ "]",
        "[" ++ p256 7 ++ ", " ++ p256 8 ++ "]",
        "[" ++ p256 15 ++ ", " ++ p256 16 ++ "]",
        "[" ++ p256 17 ++ ", " ++ p256 18 ++ "]",
        "[" ++ p256 19 ++ ", " ++ p256 20 ++ "]",
        "[" ++ String.intercalate "," ([9, 10].map p256) ++ "]"]) :=
  generatecall_original_literal [9, 10]
    ⟨some "original", some (1, 2), some (11, 12), some ((3, 4), (5, 6)), some (13, 14),
      some (7, 8), some (15, 16), some (17, 18), some (19, 20)⟩
    (1, 2) (11, 12) ((3, 4), (5, 6)) (13, 14) (7, 8) (15, 16) (17, 18) (19, 20)
    rfl rfl rfl rfl rfl rfl rfl rfl rfl

set_option maxRecDepth 20000 in
/-- C4, as stated, fails: `p256 (2^256)` returns a literal of 65 hexadecimal
digits, and the stage that calls it on the public signal `2^256` ends normally
with its call literal; no error is raised. -/
theorem p256_overflow_no_error :
    p256 (2 ^ 256) =
      "\"0x10000000000000000000000000000000000000000000000000000000000000000\"" ∧
    generatecall [2 ^ 256] ⟨some "groth", some (1, 2), none, some ((3, 4), (5, 6)), none,
        some (7, 8), none, none, none⟩ =
      Except.ok ("[" ++ p256 1 ++ ", " ++ p256 2 ++ "],[[" ++ p256 4 ++ ", " ++ p256 3 ++ "],[" ++
        p256 6 ++ ", " ++ p256 5 ++ "]],[" ++ p256 7 ++ ", " ++ p256 8 ++ "],[" ++
        "\"0x10000000000000000000000000000000000000000000000000000000000000000\"" ++ "]") :=
  ⟨by decide, by decide⟩

/-- C4, amended: applied to any `n ≥ 2^256`, `p256` raises no error; it
returns the quoted `0x` literal holding the unpadded hexadecimal text of `n`,
which has more than 64 digits. -/
theorem p256_overflow_literal (n : Nat) (h : 2 ^ 256 ≤ n) :
    p256 n = "\"0x" ++ toString16 n ++ "\"" ∧ 64 < (toString16 n).length := by
  have hgt : 64 < (toString16 n).length :=
    toString16_length_gt n 64 (by
      have e : (16 : Nat) ^ 64 = 2 ^ 256 := by norm_num
      omega)
  refine ⟨?_, hgt⟩
  rw [p256_eq, show 64 - (toString16 n).length = 0 by omega]
  rfl

/-- Witness of `p256_overflow_literal` at `n = 2^256`. -/
theorem p256_overflow_literal_witness :
    p256 (2 ^ 256) = "\"0x" ++ toString16 (2 ^ 256) ++ "\"" ∧
      64 < (toString16 (2 ^ 256)).length :=
  p256_overflow_literal (2 ^ 256) (Nat.le_refl _)

/-- C5: a proof record with no protocol field is treated as Original: the
stage returns what it returns for the same record tagged "original". -/
theorem generatecall_protocol_default (publicSignals : List Nat) (proof : Proof)
    (h : proof.protocol = none) :
    generatecall publicSignals proof =
      generatecall publicSignals { proof with protocol := some "original" } := by
  unfold generatecall
  rw [if_pos (Or.inl h), if_pos (Or.inr rfl)]

/-- Witness of `generatecall_protocol_default`. -/
theorem generatecall_protocol_default_witness :
    generatecall [9] ⟨none, some (1, 2), some (11, 12), some ((3, 4), (5, 6)), some (13, 14),
        some (7, 8), some (15, 16), some (17, 18), some (19, 20)⟩ =
      generatecall [9] ⟨some "original", some (1, 2), some (11, 12), some ((3, 4), (5, 6)),
        some (13, 14), some (7, 8), some (15, 16), some (17, 18), some (19, 20)⟩ :=
  generatecall_protocol_default [9]
    ⟨none, some (1, 2), some (11, 12), some ((3, 4), (5, 6)), some (13, 14), some (7, 8),
      some (15, 16), some (17, 18), some (19, 20)⟩ rfl

/-- C6, as stated, fails: a proof record of the Groth layout (`pi_a`, `pi_b`
and `pi_c` only) that carries no protocol tag is taken for an Original proof;
the stage fails on it although the tag is none of the unknown ones, and what
is thrown is the TypeError of the read `proof.pi_ap[0]`, not `InvalidProof`. -/
theorem generatecall_untagged_groth_record :
    generatecall [9] ⟨none, some (1, 2), none, some ((3, 4), (5, 6)), none, some (7, 8), none,
        none, none⟩ = Except.error (Thrown.typeError "proof.pi_ap[0]") := by
  decide

/-- C6, amended: the stage throws `InvalidProof` exactly when the proof
carries a protocol tag that is none of "original", "groth", "kimleeoh".  With
no tag or the tag "original" it returns a call literal when the record holds
the eight points of the Original layout, and with the tag "groth" or
"kimleeoh" when the record holds `pi_a`, `pi_b` and `pi_c`; when the record
lacks a point that its branch reads, the stage fails with a TypeError at the
read of that point and there is no call literal. -/
theorem generatecall_fails_iff (publicSignals : List Nat) (proof : Proof) :
    (generatecall publicSignals proof = Except.error (Thrown.error "InvalidProof") ↔
      ∃ t, proof.protocol = some t ∧ t ≠ "original" ∧ t ≠ "groth" ∧ t ≠ "kimleeoh") ∧
    ((proof.protocol = none ∨ proof.protocol = some "original") →
      ((proof.pi_a.isSome && proof.pi_ap.isSome && proof.pi_b.isSome && proof.pi_bp.isSome &&
          proof.pi_c.isSome && proof.pi_cp.isSome && proof.pi_h.isSome &&
          proof.pi_kp.isSome) = true →
        ∃ S, generatecall publicSignals proof = Except.ok S) ∧
      ((proof.pi_a.isSome && proof.pi_ap.isSome && proof.pi_b.isSome && proof.pi_bp.isSome &&
          proof.pi_c.isSome && proof.pi_cp.isSome && proof.pi_h.isSome &&
          proof.pi_kp.isSome) = false →
        ∃ what, generatecall publicSignals proof = Except.error (Thrown.typeError what))) ∧
    ((proof.protocol = some "groth" ∨ proof.protocol = some "kimleeoh") →
      ((proof.pi_a.isSome && proof.pi_b.isSome && proof.pi_c.isSome) = true →
        ∃ S, generatecall publicSignals proof = Except.ok S) ∧
      ((proof.pi_a.isSome && proof.pi_b.isSome && proof.pi_c.isSome) = false →
        ∃ what, generatecall publicSignals proof = Except.error (Thrown.typeError what))) := by
  obtain ⟨tag, a, ap, b, bp, c, cp, h, kp⟩ := proof
  refine ⟨?_, ?_, ?_⟩
  · unfold generatecall
    by_cases h1 : tag = none ∨ tag = some "original"
    · simp only [if_pos h1]
      constructor
      · intro he
        exfalso
        cases a <;> cases ap <;> cases b <;> cases bp <;> cases c <;> cases cp <;> cases h <;>
          cases kp <;> simp [readField, bind, Except.bind] at he
      · rintro ⟨t, ht, h2, -, -⟩
        rcases h1 with h1 | h1
        · rw [h1] at ht; cases ht
        · rw [h1] at ht; exact absurd (Option.some.inj ht).symm h2
    · simp only [if_neg h1]
      by_cases h2 : tag = some "groth" ∨ tag = some "kimleeoh"
      · simp only [if_pos h2]
        constructor
        · intro he
          exfalso
          cases a <;> cases b <;> cases c <;> simp [readField, bind, Except.bind] at he
        · rintro ⟨t, ht, -, h3, h4⟩
          rcases h2 with h2 | h2
          · rw [h2] at ht; exact absurd (Option.some.inj ht).symm h3
          · rw [h2] at ht; exact absurd (Option.some.inj ht).symm h4
      · simp only [if_neg h2, true_iff]
        cases tag with
        | none => exact absurd (Or.inl rfl) h1
        | some t =>
          refine ⟨t, rfl, ?_, ?_, ?_⟩
          · intro e; exact h1 (Or.inr (by rw [e]))
          · intro e; exact h2 (Or.inl (by rw [e]))
          · intro e; exact h2 (Or.inr (by rw [e]))
  · intro h1
    unfold generatecall
    simp only [if_pos h1]
    constructor
    · intro hs
      cases a <;> cases ap <;> cases b <;> cases bp <;> cases c <;> cases cp <;> cases h <;>
        cases kp <;> simp at hs
      exact ⟨_, rfl⟩
    · intro hs
      cases a <;> cases ap <;> cases b <;> cases bp <;> cases c <;> cases cp <;> cases h <;>
        cases kp <;> simp at hs <;> exact ⟨_, rfl⟩
  · intro h2
    have h2t : tag = some "groth" ∨ tag = some "kimleeoh" := h2
    have h1 : ¬ (tag = none ∨ tag = some "original") := by
      rcases h2t with h | h <;> rw [h] <;> decide
    unfold generatecall
    simp only [if_neg h1, if_pos h2]
    constructor
    · intro hs
      cases a <;> cases b <;> cases c <;> simp at hs
      exact ⟨_, rfl⟩
    · intro hs
      cases a <;> cases b <;> cases c <;> simp at hs <;> exact ⟨_, rfl⟩

/-- Witness of `generatecall_fails_iff`: a record tagged "plonk", for which
`InvalidProof` is thrown, and the records of the Original layout and of the
Groth layout, for which a call literal is returned. -/
theorem generatecall_fails_iff_witness :
    generatecall [9] { sampleProof with protocol := some "plonk" } =
      Except.error (Thrown.error "InvalidProof") ∧
    (∃ S, generatecall [9] { sampleProofOriginal with protocol := none } = Except.ok S) ∧
    (∃ S, generatecall [9] sampleProof = Except.ok S) ∧
    (∃ what, generatecall [9] { sampleProof with protocol := some "original" } =
      Except.error (Thrown.typeError what)) :=
  ⟨(generatecall_fails_iff [9] { sampleProof with protocol := some "plonk" }).1.mpr
      ⟨"plonk", rfl, by decide, by decide, by decide⟩,
    ((generatecall_fails_iff [9] { sampleProofOriginal with protocol := none }).2.1
      (Or.inl rfl)).1 rfl,
    ((generatecall_fails_iff [9] sampleProof).2.2 (Or.inl rfl)).1 rfl,
    ((generatecall_fails_iff [9] { sampleProof with protocol := some "original" }).2.1
      (Or.inr rfl)).2 rfl⟩


/-! ## Lemmas on textual replacement -/

theorem getSubstitution_of_no_dollar (m p f : List Char) :
    ∀ r : List Char, (∀ c ∈ r, c ≠ '$') → getSubstitution m p f r = r := by
  intro r
  induction r with
  | nil => intro _; rfl
  | cons c t ih =>
    intro h
    cases t with
    | nil => rfl
    | cons d r =>
      have hc : c ≠ '$' := h c (List.mem_cons_self _ _)
      rw [getSubstitution, if_neg hc, ih (fun x hx => h x (List.mem_cons_of_mem _ hx))]

theorem replaceChars_nil (tk v : List Char) (htk : tk ≠ []) : replaceChars [] tk v = [] := by
  simp [replaceChars, indexOf, htk]

theorem replaceChars_at (tk v y : List Char) (htk : tk ≠ []) (hv : ∀ c ∈ v, c ≠ '$') :
    replaceChars (tk ++ y) tk v = v ++ y := by
  have hidx : indexOf tk (tk ++ y) = some 0 := by
    cases h : tk ++ y with
    | nil => simp at h; exact absurd h.1 htk
    | cons c cs =>
      rw [indexOf, ← h, if_pos (List.isPrefixOf_iff_prefix.mpr (List.prefix_append _ _))]
  simp only [replaceChars, hidx, List.take_zero, List.nil_append, Nat.zero_add,
    List.drop_left, getSubstitution_of_no_dollar _ _ _ v hv]

theorem replaceChars_cons (tk v : List Char) (c : Char) (cs : List Char)
    (hv : ∀ c ∈ v, c ≠ '$') (hn : ¬ tk <+: c :: cs) :
    replaceChars (c :: cs) tk v = c :: replaceChars cs tk v := by
  have hb : ¬ (tk.isPrefixOf (c :: cs) = true) := fun h => hn (List.isPrefixOf_iff_prefix.mp h)
  simp only [replaceChars, indexOf, if_neg hb]
  cases indexOf tk cs with
  | none => rfl
  | some i =>
    simp only [Option.map, getSubstitution_of_no_dollar _ _ _ v hv]
    rw [show i + 1 + tk.length = (i + tk.length) + 1 by omega]
    simp

/-! ## Lemmas on the opening marker -/

theorem hasMarker_tail (c : Char) (x : List Char) (h : hasMarker (c :: x) = false) :
    hasMarker x = false := by
  cases x with
  | nil => rfl
  | cons d r =>
    rw [hasMarker, Bool.or_eq_false_iff] at h
    exact h.2

theorem hasMarker_append_of_no_lt (x y : List Char) (hx : '<' ∉ x) :
    hasMarker (x ++ y) = hasMarker y := by
  induction x with
  | nil => rfl
  | cons c t ih =>
    have hc : c ≠ '<' := fun e => hx (e ▸ List.mem_cons_self _ _)
    have ht : '<' ∉ t := fun e => hx (List.mem_cons_of_mem _ e)
    cases hty : t ++ y with
    | nil =>
      have : y = [] := (List.append_eq_nil.mp hty).2
      rw [List.cons_append, hty, this]
      rfl
    | cons d r =>
      rw [List.cons_append, hty, hasMarker, ← hty, ih ht]
      simp [hc]

theorem hasMarker_append_of_head (x y : List Char) (hx : hasMarker x = false)
    (hy : y.head? ≠ some '%') : hasMarker (x ++ y) = hasMarker y := by
  induction x with
  | nil => rfl
  | cons c t ih =>
    have ht := hasMarker_tail c t hx
    cases t with
    | nil =>
      cases y with
      | nil => rfl
      | cons d r =>
        have hd : d ≠ '%' := fun e => hy (by simp [e])
        show hasMarker (c :: d :: r) = hasMarker (d :: r)
        rw [hasMarker]
        simp [hd]
    | cons d r =>
      have h1 : (c == '<' && d == '%') = false := by
        rw [hasMarker, Bool.or_eq_false_iff] at hx
        exact hx.1
      show hasMarker (c :: d :: (r ++ y)) = hasMarker y
      rw [hasMarker, h1, Bool.false_or]
      exact ih ht

theorem hasMarker_of_infix (s r : List Char) : hasMarker (s ++ '<' :: '%' :: r) = true := by
  induction s with
  | nil => simp [hasMarker]
  | cons c t ih =>
    cases hty : t ++ '<' :: '%' :: r with
    | nil => simp at hty
    | cons d r2 =>
      rw [List.cons_append, hty, hasMarker, ← hty, ih]
      simp


/-! ## Replacement in a template given by its parts -/

theorem IsToken.ne_nil {tk : List Char} (h : IsToken tk) : tk ≠ [] := by
  obtain ⟨body, rfl, _⟩ := h
  simp

/-- Replacing a token skips a text that holds no opening marker, when what
follows does not begin with `%`. -/
theorem replaceChars_skip (tk v : List Char) (htk : IsToken tk) (hv : ∀ c ∈ v, c ≠ '$') :
    ∀ (a x : List Char), hasMarker a = false → x.head? ≠ some '%' →
      replaceChars (a ++ x) tk v = a ++ replaceChars x tk v := by
  intro a
  induction a with
  | nil => intro x _ _; rfl
  | cons c t ih =>
    intro x ha hx
    have ht := hasMarker_tail c t ha
    rw [List.cons_append, replaceChars_cons tk v c (t ++ x) hv, ih x ht hx]
    · rfl
    · obtain ⟨body, rfl, _⟩ := htk
      intro hp
      rw [List.cons_prefix_cons] at hp
      obtain ⟨hc, hp2⟩ := hp
      cases t with
      | nil =>
        cases x with
        | nil => simp at hp2
        | cons d r =>
          rw [List.nil_append, List.cons_prefix_cons] at hp2
          exact hx (by rw [← hp2.1]; rfl)
      | cons d r =>
        rw [List.cons_append, List.cons_prefix_cons] at hp2
        rw [hasMarker, Bool.or_eq_false_iff] at ha
        have := ha.1
        simp [← hc, ← hp2.1] at this

theorem render_append (value : List Char → List Char) (x a : List Char)
    (rest : List (List Char × List Char)) :
    render value (x ++ a) rest = x ++ render value a rest := by
  cases rest with
  | nil => rfl
  | cons p rest => simp [render]

theorem render_congr (f g : List Char → List Char) :
    ∀ (rest : List (List Char × List Char)) (a : List Char),
      (∀ p ∈ rest, f p.1 = g p.1) → render f a rest = render g a rest := by
  intro rest
  induction rest with
  | nil => intro a _; rfl
  | cons p rest ih =>
    intro a h
    obtain ⟨tk, b⟩ := p
    rw [render, render, h (tk, b) (List.mem_cons_self _ _),
      ih b (fun q hq => h q (List.mem_cons_of_mem _ hq))]

/-- One replacement on a template in progress: the token `tk`, not yet
replaced, is replaced where the template holds it, and nothing else moves. -/
theorem replaceChars_render (value : List Char → List Char) (tk : List Char)
    (done : List (List Char)) (htk : IsToken tk) (hv : Plain (value tk)) (hnd : tk ∉ done) :
    ∀ (rest : List (List Char × List Char)) (a0 : List Char), hasMarker a0 = false →
      (∀ p ∈ rest, IsToken p.1 ∧ hasMarker p.2 = false ∧
        (p.1 ≠ tk → ¬ tk <+: p.1 ∧ ¬ p.1 <+: tk) ∧
        (p.1 ∈ done → Plain (value p.1) ∧ value p.1 ≠ [])) →
      (rest.map Prod.fst).Nodup →
      replaceChars (render (subst done value) a0 rest) tk (value tk) =
        render (subst (tk :: done) value) a0 rest := by
  have hd : ∀ c ∈ value tk, c ≠ '$' := fun c hc => (hv c hc).2.2
  intro rest
  induction rest with
  | nil =>
    intro a0 ha0 _ _
    have := replaceChars_skip tk (value tk) htk hd a0 [] ha0 (by simp)
    rw [List.append_nil, replaceChars_nil tk _ htk.ne_nil, List.append_nil] at this
    exact this
  | cons p rest ih =>
    intro a0 ha0 hrest hnodup
    obtain ⟨t, a1⟩ := p
    obtain ⟨ht, ha1, hinc, hdone⟩ := hrest (t, a1) (List.mem_cons_self _ _)
    have hrest2 : ∀ q ∈ rest, IsToken q.1 ∧ hasMarker q.2 = false ∧
        (q.1 ≠ tk → ¬ tk <+: q.1 ∧ ¬ q.1 <+: tk) ∧
        (q.1 ∈ done → Plain (value q.1) ∧ value q.1 ≠ []) :=
      fun q hq => hrest q (List.mem_cons_of_mem _ hq)
    rw [List.map_cons, List.nodup_cons] at hnodup
    obtain ⟨htnot, hnodup2⟩ := hnodup
    simp only [] at ht ha1 hinc hdone htnot
    by_cases hmem : t ∈ done
    · -- already replaced: its value is plain text and joins the text around it
      obtain ⟨hpl, hne⟩ := hdone hmem
      have hne_tk : t ≠ tk := fun e => hnd (e ▸ hmem)
      have e1 : subst done value t = value t := by simp [subst, hmem]
      have e2 : subst (tk :: done) value t = value t := by simp [subst, hmem]
      have hL : ∀ g : List Char → List Char,
          a0 ++ (value t ++ render g a1 rest) = render g ((a0 ++ value t) ++ a1) rest := by
        intro g
        rw [render_append, List.append_assoc]
      rw [render, render, e1, e2, hL, hL]
      apply ih _ _ hrest2 hnodup2
      obtain ⟨c, w, hw⟩ := List.exists_cons_of_ne_nil hne
      have hlt : '<' ∉ value t := fun h => (hpl _ h).1 rfl
      have hhead : (value t ++ a1).head? ≠ some '%' := by
        rw [hw]
        intro h
        simp at h
        exact (hpl c (by rw [hw]; exact List.mem_cons_self _ _)).2.1 h
      rw [List.append_assoc, hasMarker_append_of_head a0 _ ha0 hhead,
        hasMarker_append_of_no_lt _ _ hlt]
      exact ha1
    · have e1 : subst done value t = t := by simp [subst, hmem]
      by_cases heq : t = tk
      · -- the token to replace
        subst heq
        have e2 : subst (t :: done) value t = value t := by simp [subst]
        have hcongr : render (subst done value) a1 rest = render (subst (t :: done) value) a1 rest := by
          apply render_congr
          intro q hq
          have hqt : q.1 ≠ t := fun e => htnot (e ▸ List.mem_map_of_mem Prod.fst hq)
          simp [subst, hqt]
        obtain ⟨body, hbody, _⟩ := htk
        rw [render, render, e1, e2, replaceChars_skip t (value t) ⟨body, hbody, ‹_›⟩ hd a0 _ ha0
          (by rw [hbody]; simp), replaceChars_at t (value t) _ (by rw [hbody]; simp) hd, hcongr]
      · -- another token, still in place
        have e2 : subst (tk :: done) value t = t := by simp [subst, hmem, heq]
        obtain ⟨hi1, hi2⟩ := hinc heq
        obtain ⟨body, hbody, hbl⟩ := ht
        have hnp : ¬ tk <+: '<' :: ('%' :: body ++ render (subst done value) a1 rest) := by
          intro hp
          have hp2 : t <+: '<' :: ('%' :: body ++ render (subst done value) a1 rest) := by
            rw [hbody]
            exact ⟨render (subst done value) a1 rest, by simp⟩
          rcases List.prefix_or_prefix_of_prefix hp hp2 with h | h
          · exact hi1 h
          · exact hi2 h
        have hlt : '<' ∉ '%' :: body := by
          intro h
          rcases List.mem_cons.mp h with h | h
          · exact absurd h (by decide)
          · exact hbl h
        have hm : hasMarker (('%' :: body) ++ a1) = false := by
          rw [hasMarker_append_of_no_lt _ _ hlt]
          exact ha1
        rw [render, render, e1, e2, replaceChars_skip tk (value tk) htk hd a0 _ ha0
          (by rw [hbody]; simp)]
        rw [hbody]
        show a0 ++ replaceChars ('<' :: ('%' :: body ++ render (subst done value) a1 rest)) tk
          (value tk) = _
        rw [replaceChars_cons tk (value tk) _ _ hd hnp, ← render_append,
          ih _ hm hrest2 hnodup2, render_append]
        simp


/-- The replacements of a generator, one token after the other, on a
template in progress. -/
theorem foldl_replaceChars_render (value : List Char → List Char) (T : List (List Char))
    (hT : ∀ x ∈ T, IsToken x) (hinc : ∀ x ∈ T, ∀ y ∈ T, x ≠ y → ¬ x <+: y) :
    ∀ (todo done : List (List Char)), todo.Nodup →
      (∀ x ∈ todo, x ∈ T ∧ x ∉ done ∧ Plain (value x)) →
      (∀ x ∈ todo.dropLast, value x ≠ []) →
      (∀ x ∈ done, Plain (value x) ∧ value x ≠ []) →
      ∀ (rest : List (List Char × List Char)) (a0 : List Char), hasMarker a0 = false →
        (∀ p ∈ rest, p.1 ∈ T ∧ hasMarker p.2 = false) → (rest.map Prod.fst).Nodup →
        todo.foldl (fun t x => replaceChars t x (value x)) (render (subst done value) a0 rest) =
          render (subst (todo.reverse ++ done) value) a0 rest := by
  intro todo
  induction todo with
  | nil => intro done _ _ _ _ rest a0 _ _ _; rfl
  | cons x todo ih =>
    intro done hnd htodo hne hdone rest a0 ha0 hrest hnodup
    obtain ⟨hxT, hxd, hxp⟩ := htodo x (List.mem_cons_self _ _)
    rw [List.nodup_cons] at hnd
    have hstep := replaceChars_render value x done (hT x hxT) hxp hxd rest a0 ha0
      (fun p hp => ⟨hT _ (hrest p hp).1, (hrest p hp).2,
        fun hpx => ⟨hinc x hxT p.1 (hrest p hp).1 (Ne.symm hpx),
          hinc p.1 (hrest p hp).1 x hxT hpx⟩,
        fun hpd => hdone _ hpd⟩) hnodup
    rw [List.foldl_cons, hstep]
    cases htd : todo with
    | nil => rfl
    | cons y todo2 =>
      rw [← htd]
      have hxne : value x ≠ [] := by
        apply hne
        rw [htd]
        exact List.mem_cons_self _ _
      rw [ih (x :: done) hnd.2
        (fun z hz => ⟨(htodo z (List.mem_cons_of_mem _ hz)).1,
          fun hzm => by
            rcases List.mem_cons.mp hzm with h | h
            · exact hnd.1 (h ▸ hz)
            · exact (htodo z (List.mem_cons_of_mem _ hz)).2.1 h,
          (htodo z (List.mem_cons_of_mem _ hz)).2.2⟩)
        (fun z hz => by
          apply hne
          rw [htd] at hz ⊢
          exact List.mem_cons_of_mem _ hz)
        (fun z hz => by
          rcases List.mem_cons.mp hz with h | h
          · rw [h]; exact ⟨hxp, hxne⟩
          · exact hdone z h)
        rest a0 ha0 hrest hnodup]
      apply render_congr
      intro p _
      simp [subst]

/-- The replacements of a generator on a template given by its parts, each
token of `T` at most once and `<%` nowhere else: every token is replaced by
its value. -/
theorem foldl_replaceChars_template (value : List Char → List Char) (T : List (List Char))
    (hT : ∀ x ∈ T, IsToken x) (hinc : ∀ x ∈ T, ∀ y ∈ T, x ≠ y → ¬ x <+: y)
    (hnd : T.Nodup) (hpl : ∀ x ∈ T, Plain (value x)) (hne : ∀ x ∈ T.dropLast, value x ≠ [])
    (rest : List (List Char × List Char)) (a0 : List Char) (ha0 : hasMarker a0 = false)
    (hrest : ∀ p ∈ rest, p.1 ∈ T ∧ hasMarker p.2 = false) (hnodup : (rest.map Prod.fst).Nodup) :
    T.foldl (fun t x => replaceChars t x (value x)) (render id a0 rest) =
      render value a0 rest := by
  have h0 : render id a0 rest = render (subst [] value) a0 rest :=
    render_congr _ _ rest a0 (fun p _ => by simp [subst])
  rw [h0, foldl_replaceChars_render value T hT hinc T [] hnd
    (fun x hx => ⟨hx, by simp, hpl x hx⟩) hne (by simp) rest a0 ha0 hrest hnodup]
  apply render_congr
  intro p hp
  simp [subst, (hrest p hp).1]

/-- A filled template holds no opening marker when the values put in are
plain and non-empty. -/
theorem hasMarker_render (value : List Char → List Char) :
    ∀ (rest : List (List Char × List Char)) (a0 : List Char), hasMarker a0 = false →
      (∀ p ∈ rest, hasMarker p.2 = false ∧ Plain (value p.1) ∧ value p.1 ≠ []) →
      hasMarker (render value a0 rest) = false := by
  intro rest
  induction rest with
  | nil => intro a0 ha0 _; exact ha0
  | cons p rest ih =>
    intro a0 ha0 h
    obtain ⟨tk, a1⟩ := p
    obtain ⟨ha1, hpl, hne⟩ := h (tk, a1) (List.mem_cons_self _ _)
    simp only [] at ha1 hpl hne
    obtain ⟨c, w, hw⟩ := List.exists_cons_of_ne_nil hne
    have hlt : '<' ∉ value tk := fun h => (hpl _ h).1 rfl
    have hhead : (value tk ++ render value a1 rest).head? ≠ some '%' := by
      rw [hw]
      intro h
      simp at h
      exact (hpl c (by rw [hw]; exact List.mem_cons_self _ _)).2.1 h
    rw [render, hasMarker_append_of_head a0 _ ha0 hhead, hasMarker_append_of_no_lt _ _ hlt]
    exact ih a1 ha1 (fun q hq => h q (List.mem_cons_of_mem _ hq))

/-- A token does not occur in a text that holds no opening marker. -/
theorem not_infix_of_hasMarker (tk x : List Char) (htk : IsToken tk)
    (hx : hasMarker x = false) : ¬ tk <:+: x := by
  rintro ⟨s, t, rfl⟩
  obtain ⟨body, rfl, _⟩ := htk
  have := hasMarker_of_infix s (body ++ t)
  simp only [List.cons_append, List.append_assoc] at hx
  rw [this] at hx
  exact Bool.noConfusion hx

theorem fill_data (value : String → String) :
    ∀ (rest : List (String × String)) (a0 : String),
      (fill value a0 rest).data =
        render (fun l => (value ⟨l⟩).data) a0.data (rest.map (fun p => (p.1.data, p.2.data))) := by
  intro rest
  induction rest with
  | nil => intro a0; rfl
  | cons p rest ih =>
    intro a0
    obtain ⟨tk, a1⟩ := p
    simp only [fill, List.map, render, String.data_append, ih]


/-! ## The generators as a sequence of replacements -/

theorem generateVerifier_original_data (vk : VerificationKey) (t : String) :
    (generateVerifier_original vk t).data =
      (placeholders_original.map String.data).foldl
        (fun t x => replaceChars t x (substitution_original vk ⟨x⟩).data) t.data := by
  rfl

theorem generateVerifier_groth_data (vk : VerificationKey) (t : String) :
    (generateVerifier_groth vk t).data =
      (placeholders_groth.map String.data).foldl
        (fun t x => replaceChars t x (substitution_groth vk ⟨x⟩).data) t.data := by
  rfl

theorem generateVerifier_kimleeoh_data (vk : VerificationKey) (t : String) :
    (generateVerifier_kimleeoh vk t).data =
      (placeholders_groth.map String.data).foldl
        (fun t x => replaceChars t x (substitution_groth vk ⟨x⟩).data) t.data := by
  rfl


/-! ## The values are plain text -/

theorem plain_append (x y : List Char) : Plain (x ++ y) ↔ Plain x ∧ Plain y := by
  simp only [Plain, List.mem_append]
  constructor
  · intro h
    exact ⟨fun c hc => h c (Or.inl hc), fun c hc => h c (Or.inr hc)⟩
  · rintro ⟨h1, h2⟩ c (hc | hc)
    · exact h1 c hc
    · exact h2 c hc

theorem digitChar_plain : ∀ d, d < 10 →
    Nat.digitChar d ≠ '<' ∧ Nat.digitChar d ≠ '%' ∧ Nat.digitChar d ≠ '$' := by
  decide

theorem toString10_plain (n : Nat) : Plain (toString10 n).data := by
  intro c hc
  rw [toString10, toDigits_eq_digits 10 (by decide)] at hc
  by_cases hn : n = 0
  · simp [hn] at hc
    subst hc
    decide
  · simp only [hn, if_false, List.mem_map, List.mem_reverse] at hc
    obtain ⟨d, hd, rfl⟩ := hc
    exact digitChar_plain d (Nat.digits_lt_base (by decide) hd)

theorem toString10_ne_nil (n : Nat) : (toString10 n).data ≠ [] := by
  rw [toString10, toDigits_eq_digits 10 (by decide)]
  by_cases hn : n = 0
  · simp [hn]
  · simp [hn, Nat.digits_ne_nil_iff_ne_zero]

theorem toString10Int_plain (i : Int) : Plain (toString10Int i).data := by
  cases i with
  | ofNat m => exact toString10_plain m
  | negSucc m =>
    rw [toString10Int, String.data_append, plain_append]
    exact ⟨by decide, toString10_plain _⟩

theorem toString10Int_ne_nil (i : Int) : (toString10Int i).data ≠ [] := by
  cases i with
  | ofNat m => exact toString10_ne_nil m
  | negSucc m =>
    rw [toString10Int, String.data_append]
    intro h
    exact absurd (List.append_eq_nil.mp h).1 (by decide)

theorem g1Text_plain (p : G1Point) : Plain (g1Text p).data := by
  simp only [g1Text, String.data_append, plain_append, toString10_plain, true_and, and_true]
  decide

theorem g1Text_ne_nil (p : G1Point) : (g1Text p).data ≠ [] := by
  simp only [g1Text, String.data_append]
  intro h
  exact toString10_ne_nil _ (List.append_eq_nil.mp h).2

theorem g2Text_plain (p : G2Point) : Plain (g2Text p).data := by
  simp only [g2Text, String.data_append, plain_append, toString10_plain, true_and, and_true]
  decide

theorem g2Text_ne_nil (p : G2Point) : (g2Text p).data ≠ [] := by
  simp only [g2Text, String.data_append]
  intro h
  exact absurd (List.append_eq_nil.mp h).2 (by decide)

theorem icLoop_plain : ∀ (l : List G1Point) (i : Nat) (vi : String), Plain vi.data →
    Plain (icLoop l i vi).data := by
  intro l
  induction l with
  | nil => intro i vi h; exact h
  | cons pt rest ih =>
    intro i vi h
    rw [icLoop]
    apply ih
    have h2 : Plain (if vi ≠ "" then vi ++ "        " else vi).data := by
      split
      · rw [String.data_append, plain_append]
        exact ⟨h, by decide⟩
      · exact h
    simp only [String.data_append, plain_append, toString10_plain, h2, true_and, and_true]
    decide


/-! ## The generators on a template given by its parts -/

theorem isToken_of (tk : List Char) (h : tk.take 2 = ['<', '%'] ∧ '<' ∉ tk.drop 2) :
    IsToken tk := by
  refine ⟨tk.drop 2, ?_, h.2⟩
  have := List.take_append_drop 2 tk
  rw [h.1] at this
  exact this.symm

theorem string_data_injective : Function.Injective String.data :=
  fun _ _ h => String.ext h

/-- A function that performs the replacements of the placeholders `P` in
order, with plain values, fills every template given by its parts. -/
theorem generator_fill (gen : String → String) (P : List String) (value : String → String)
    (hgen : ∀ t, (gen t).data = (P.map String.data).foldl
      (fun t x => replaceChars t x (value ⟨x⟩).data) t.data)
    (hT : ∀ x ∈ P.map String.data, x.take 2 = ['<', '%'] ∧ '<' ∉ x.drop 2)
    (hinc : ∀ x ∈ P.map String.data, ∀ y ∈ P.map String.data, x ≠ y → ¬ x <+: y)
    (hnd : P.Nodup) (hpl : ∀ tk ∈ P, Plain (value tk).data)
    (hne : ∀ tk ∈ P.dropLast, (value tk).data ≠ [])
    (a0 : String) (rest : List (String × String)) (ha0 : hasMarker a0.data = false)
    (hrest : ∀ p ∈ rest, p.1 ∈ P ∧ hasMarker p.2.data = false)
    (hnodup : (rest.map Prod.fst).Nodup) :
    gen (fill id a0 rest) = fill value a0 rest := by
  apply String.ext
  rw [hgen, fill_data, fill_data]
  apply foldl_replaceChars_template (fun l => (value ⟨l⟩).data) (P.map String.data)
    (fun x hx => isToken_of x (hT x hx)) hinc (hnd.map string_data_injective)
  · intro x hx
    obtain ⟨tk, htk, rfl⟩ := List.mem_map.mp hx
    exact hpl tk htk
  · intro x hx
    rw [← List.map_dropLast] at hx
    obtain ⟨tk, htk, rfl⟩ := List.mem_map.mp hx
    exact hne tk htk
  · exact ha0
  · intro p hp
    obtain ⟨q, hq, rfl⟩ := List.mem_map.mp hp
    exact ⟨List.mem_map_of_mem _ (hrest q hq).1, (hrest q hq).2⟩
  · rw [List.map_map]
    have : (Prod.fst ∘ fun p : String × String => (p.1.data, p.2.data)) =
        String.data ∘ Prod.fst := rfl
    rw [this, ← List.map_map]
    exact hnodup.map string_data_injective

theorem placeholders_original_shape :
    ∀ x ∈ placeholders_original.map String.data, x.take 2 = ['<', '%'] ∧ '<' ∉ x.drop 2 := by
  decide

theorem placeholders_groth_shape :
    ∀ x ∈ placeholders_groth.map String.data, x.take 2 = ['<', '%'] ∧ '<' ∉ x.drop 2 := by
  decide

theorem placeholders_original_incomparable :
    ∀ x ∈ placeholders_original.map String.data, ∀ y ∈ placeholders_original.map String.data,
      x ≠ y → ¬ x <+: y := by
  decide

theorem placeholders_groth_incomparable :
    ∀ x ∈ placeholders_groth.map String.data, ∀ y ∈ placeholders_groth.map String.data,
      x ≠ y → ¬ x <+: y := by
  decide

theorem placeholders_original_nodup : placeholders_original.Nodup := by
  decide

theorem placeholders_groth_nodup : placeholders_groth.Nodup := by
  decide

theorem substitution_original_plain (vk : VerificationKey) :
    ∀ tk ∈ placeholders_original, Plain (substitution_original vk tk).data := by
  intro tk htk
  simp only [placeholders_original, List.mem_cons, List.mem_singleton, List.not_mem_nil,
    or_false] at htk
  rcases htk with rfl | rfl | rfl | rfl | rfl | rfl | rfl | rfl | rfl | rfl
  · exact g2Text_plain _
  · exact g1Text_plain _
  · exact g2Text_plain _
  · exact g2Text_plain _
  · exact g1Text_plain _
  · exact g2Text_plain _
  · exact g2Text_plain _
  · exact toString10Int_plain _
  · exact toString10_plain _
  · exact icLoop_plain _ _ _ (by decide)

theorem substitution_original_ne_nil (vk : VerificationKey) :
    ∀ tk ∈ placeholders_original.dropLast, (substitution_original vk tk).data ≠ [] := by
  intro tk htk
  simp only [placeholders_original, List.dropLast, List.mem_cons, List.mem_singleton,
    List.not_mem_nil, or_false] at htk
  rcases htk with rfl | rfl | rfl | rfl | rfl | rfl | rfl | rfl | rfl
  · exact g2Text_ne_nil _
  · exact g1Text_ne_nil _
  · exact g2Text_ne_nil _
  · exact g2Text_ne_nil _
  · exact g1Text_ne_nil _
  · exact g2Text_ne_nil _
  · exact g2Text_ne_nil _
  · exact toString10Int_ne_nil _
  · exact toString10_ne_nil _

theorem substitution_groth_plain (vk : VerificationKey) :
    ∀ tk ∈ placeholders_groth, Plain (substitution_groth vk tk).data := by
  intro tk htk
  simp only [placeholders_groth, List.mem_cons, List.mem_singleton, List.not_mem_nil,
    or_false] at htk
  rcases htk with rfl | rfl | rfl | rfl | rfl | rfl | rfl
  · exact g1Text_plain _
  · exact g2Text_plain _
  · exact g2Text_plain _
  · exact g2Text_plain _
  · exact toString10Int_plain _
  · exact toString10_plain _
  · exact icLoop_plain _ _ _ (by decide)

theorem substitution_groth_ne_nil (vk : VerificationKey) :
    ∀ tk ∈ placeholders_groth.dropLast, (substitution_groth vk tk).data ≠ [] := by
  intro tk htk
  simp only [placeholders_groth, List.dropLast, List.mem_cons, List.mem_singleton,
    List.not_mem_nil, or_false] at htk
  rcases htk with rfl | rfl | rfl | rfl | rfl | rfl
  · exact g1Text_ne_nil _
  · exact g2Text_ne_nil _
  · exact g2Text_ne_nil _
  · exact g2Text_ne_nil _
  · exact toString10Int_ne_nil _
  · exact toString10_ne_nil _

/-- On a template given by its parts, `generateVerifier_original` puts its
replace value in the place of every placeholder. -/
theorem generateVerifier_original_fill (vk : VerificationKey) (a0 : String)
    (rest : List (String × String)) (ha0 : hasMarker a0.data = false)
    (hrest : ∀ p ∈ rest, p.1 ∈ placeholders_original ∧ hasMarker p.2.data = false)
    (hnodup : (rest.map Prod.fst).Nodup) :
    generateVerifier_original vk (fill id a0 rest) = fill (substitution_original vk) a0 rest :=
  generator_fill _ _ _ (generateVerifier_original_data vk) placeholders_original_shape
    placeholders_original_incomparable placeholders_original_nodup
    (substitution_original_plain vk) (substitution_original_ne_nil vk) a0 rest ha0 hrest hnodup

/-- On a template given by its parts, `generateVerifier_groth` puts its
replace value in the place of every placeholder. -/
theorem generateVerifier_groth_fill (vk : VerificationKey) (a0 : String)
    (rest : List (String × String)) (ha0 : hasMarker a0.data = false)
    (hrest : ∀ p ∈ rest, p.1 ∈ placeholders_groth ∧ hasMarker p.2.data = false)
    (hnodup : (rest.map Prod.fst).Nodup) :
    generateVerifier_groth vk (fill id a0 rest) = fill (substitution_groth vk) a0 rest :=
  generator_fill _ _ _ (generateVerifier_groth_data vk) placeholders_groth_shape
    placeholders_groth_incomparable placeholders_groth_nodup
    (substitution_groth_plain vk) (substitution_groth_ne_nil vk) a0 rest ha0 hrest hnodup

/-- On a template given by its parts, `generateVerifier_kimleeoh` puts its
replace value in the place of every placeholder. -/
theorem generateVerifier_kimleeoh_fill (vk : VerificationKey) (a0 : String)
    (rest : List (String × String)) (ha0 : hasMarker a0.data = false)
    (hrest : ∀ p ∈ rest, p.1 ∈ placeholders_groth ∧ hasMarker p.2.data = false)
    (hnodup : (rest.map Prod.fst).Nodup) :
    generateVerifier_kimleeoh vk (fill id a0 rest) = fill (substitution_groth vk) a0 rest :=
  generator_fill _ _ _ (generateVerifier_kimleeoh_data vk) placeholders_groth_shape
    placeholders_groth_incomparable placeholders_groth_nodup
    (substitution_groth_plain vk) (substitution_groth_ne_nil vk) a0 rest ha0 hrest hnodup


/-! ## The block of `IC` assignments -/

theorem string_ne_empty_of_data {s : String} (h : s.data ≠ []) : s ≠ "" :=
  fun e => h (by rw [e])

theorem icLine_ne_nil (i : Nat) (pt : G1Point) (vi : String) :
    (vi ++ ("vk.IC[" ++ toString10 i ++ "] = Pairing.G1Point(" ++ toString10 pt.1 ++ "," ++
      toString10 pt.2 ++ ");\n")).data ≠ [] := by
  simp only [String.data_append]
  intro h
  exact absurd (List.append_eq_nil.mp (List.append_eq_nil.mp h).2).2 (by decide)

/-- The loop that builds `vi`, started from a non-empty text, appends each
line after the indentation. -/
theorem icLoop_go : ∀ (l : List G1Point) (i : Nat) (vi : String), vi ≠ "" →
    icLoop l i vi = String.intercalate.go vi "        "
      ((l.enumFrom i).map (fun p => "vk.IC[" ++ toString10 p.1 ++ "] = Pairing.G1Point(" ++
        toString10 p.2.1 ++ "," ++ toString10 p.2.2 ++ ");\n")) := by
  intro l
  induction l with
  | nil => intro i vi _; rfl
  | cons pt rest ih =>
    intro i vi hvi
    rw [icLoop]
    simp only [hvi, ne_eq, not_false_eq_true, if_true, List.enumFrom_cons, List.map,
      String.intercalate.go]
    rw [ih (i + 1) _ (string_ne_empty_of_data (icLine_ne_nil i pt _)), String.append_assoc]

/-- The loop that builds `vi` joins the assignment lines of the points of
`IC`, in order, with the indentation of eight spaces. -/
theorem icLoop_eq (l : List G1Point) :
    icLoop l 0 "" = String.intercalate "        "
      (l.enum.map (fun p => "vk.IC[" ++ toString10 p.1 ++ "] = Pairing.G1Point(" ++
        toString10 p.2.1 ++ "," ++ toString10 p.2.2 ++ ");\n")) := by
  cases l with
  | nil => rfl
  | cons pt rest =>
    rw [icLoop]
    simp only [ne_eq, not_true_eq_false, if_false, List.enum, List.enumFrom_cons, List.map,
      String.intercalate]
    rw [icLoop_go rest 1 _ (string_ne_empty_of_data (icLine_ne_nil 0 pt _))]
    congr 1

theorem icLoop_ne_nil_of_ne_nil : ∀ (l : List G1Point) (i : Nat) (vi : String),
    vi.data ≠ [] → (icLoop l i vi).data ≠ [] := by
  intro l
  induction l with
  | nil => intro i vi h; exact h
  | cons pt rest ih =>
    intro i vi _
    rw [icLoop]
    exact ih _ _ (icLine_ne_nil i pt _)

theorem icLoop_ne_nil (l : List G1Point) (h : l ≠ []) : (icLoop l 0 "").data ≠ [] := by
  cases l with
  | nil => exact absurd rfl h
  | cons pt rest =>
    rw [icLoop]
    exact icLoop_ne_nil_of_ne_nil _ _ _ (icLine_ne_nil 0 pt _)


theorem substitution_original_ne_nil_all (vk : VerificationKey) (hIC : vk.IC ≠ []) :
    ∀ tk ∈ placeholders_original, (substitution_original vk tk).data ≠ [] := by
  intro tk htk
  simp only [placeholders_original, List.mem_cons, List.mem_singleton, List.not_mem_nil,
    or_false] at htk
  rcases htk with rfl | rfl | rfl | rfl | rfl | rfl | rfl | rfl | rfl | rfl
  · exact g2Text_ne_nil _
  · exact g1Text_ne_nil _
  · exact g2Text_ne_nil _
  · exact g2Text_ne_nil _
  · exact g1Text_ne_nil _
  · exact g2Text_ne_nil _
  · exact g2Text_ne_nil _
  · exact toString10Int_ne_nil _
  · exact toString10_ne_nil _
  · exact icLoop_ne_nil _ hIC

theorem substitution_groth_ne_nil_all (vk : VerificationKey) (hIC : vk.IC ≠ []) :
    ∀ tk ∈ placeholders_groth, (substitution_groth vk tk).data ≠ [] := by
  intro tk htk
  simp only [placeholders_groth, List.mem_cons, List.mem_singleton, List.not_mem_nil,
    or_false] at htk
  rcases htk with rfl | rfl | rfl | rfl | rfl | rfl | rfl
  · exact g1Text_ne_nil _
  · exact g2Text_ne_nil _
  · exact g2Text_ne_nil _
  · exact g2Text_ne_nil _
  · exact toString10Int_ne_nil _
  · exact toString10_ne_nil _
  · exact icLoop_ne_nil _ hIC

/-- No token of `P` occurs in a template filled with plain, non-empty
values. -/
theorem not_infix_fill (value : String → String) (P : List String)
    (hT : ∀ x ∈ P.map String.data, x.take 2 = ['<', '%'] ∧ '<' ∉ x.drop 2)
    (hpl : ∀ tk ∈ P, Plain (value tk).data) (hne : ∀ tk ∈ P, (value tk).data ≠ [])
    (a0 : String) (rest : List (String × String)) (ha0 : hasMarker a0.data = false)
    (hrest : ∀ p ∈ rest, p.1 ∈ P ∧ hasMarker p.2.data = false) :
    ∀ tk ∈ P, ¬ tk.data <:+: (fill value a0 rest).data := by
  intro tk htk
  apply not_infix_of_hasMarker _ _ (isToken_of _ (hT _ (List.mem_map_of_mem _ htk)))
  rw [fill_data]
  apply hasMarker_render _ _ _ ha0
  intro p hp
  obtain ⟨q, hq, rfl⟩ := List.mem_map.mp hp
  exact ⟨(hrest q hq).2, hpl _ (hrest q hq).1, hne _ (hrest q hq).1⟩

theorem toString10Int_pred (n : Nat) (h : n ≠ 0) :
    toString10Int ((n : Int) - 1) = toString10 (n - 1) := by
  obtain ⟨m, rfl⟩ := Nat.exists_eq_succ_of_ne_zero h
  have e : (((m + 1 : Nat) : Int) - 1) = Int.ofNat m := by
    simp
  rw [e]
  rfl

/-! ## The verifier source -/

/-- C7, as stated, fails: each generator replaces the first occurrence of a
placeholder only, so a template that holds a placeholder twice comes back
with the second occurrence in place.  A placeholder is also left when a
replacement completes one out of text of the template: around a value
(`<%vk_gb` and `%>` around the length `2`), or around the empty block of an
empty `IC`. -/
theorem generateVerifier_second_occurrence_left :
    (generateVerifier_original sampleKey "<%vk_b%> <%vk_b%>" = "5,6 <%vk_b%>" ∧
      "<%vk_b%>".data <:+: (generateVerifier_original sampleKey "<%vk_b%> <%vk_b%>").data) ∧
    (generateVerifier_groth sampleKey "<%vk_alfa1%> <%vk_alfa1%>" = "25,26 <%vk_alfa1%>" ∧
      "<%vk_alfa1%>".data <:+:
        (generateVerifier_groth sampleKey "<%vk_alfa1%> <%vk_alfa1%>").data) ∧
    (generateVerifier_kimleeoh sampleKey "<%vk_alfa1%> <%vk_alfa1%>" = "25,26 <%vk_alfa1%>" ∧
      "<%vk_alfa1%>".data <:+:
        (generateVerifier_kimleeoh sampleKey "<%vk_alfa1%> <%vk_alfa1%>").data) ∧
    generateVerifier_original sampleKey "<%vk_gb<%vk_ic_length%>%>" = "<%vk_gb2%>" ∧
    generateVerifier_groth { sampleKey with IC := [] } "<<%vk_ic_pts%>%vk_ic_pts%>" =
      "<%vk_ic_pts%>" :=
  ⟨⟨by decide, "5,6 ".data, [], by decide⟩, ⟨by decide, "25,26 ".data, [], by decide⟩,
    ⟨by decide, "25,26 ".data, [], by decide⟩, by decide, by decide⟩

/-- C7, amended: for every verification key with a non-empty `IC` and every
template made of placeholders of the generator, each at most once, and of
text in which the opening marker `<%` does not occur, the text returned by
`generateVerifier_original`, `generateVerifier_groth` and
`generateVerifier_kimleeoh` contains none of the placeholders that the
generator substitutes. -/
theorem generateVerifier_no_placeholder_left (vk : VerificationKey) (hIC : vk.IC ≠ [])
    (a0 : String) (rest : List (String × String)) (ha0 : hasMarker a0.data = false)
    (htext : ∀ p ∈ rest, hasMarker p.2.data = false) (hnodup : (rest.map Prod.fst).Nodup) :
    ((∀ p ∈ rest, p.1 ∈ placeholders_original) →
      ∀ tk ∈ placeholders_original,
        ¬ tk.data <:+: (generateVerifier_original vk (fill id a0 rest)).data) ∧
    ((∀ p ∈ rest, p.1 ∈ placeholders_groth) →
      ∀ tk ∈ placeholders_groth,
        ¬ tk.data <:+: (generateVerifier_groth vk (fill id a0 rest)).data ∧
        ¬ tk.data <:+: (generateVerifier_kimleeoh vk (fill id a0 rest)).data) := by
  constructor
  · intro hP tk htk
    have hrest : ∀ p ∈ rest, p.1 ∈ placeholders_original ∧ hasMarker p.2.data = false :=
      fun p hp => ⟨hP p hp, htext p hp⟩
    rw [generateVerifier_original_fill vk a0 rest ha0 hrest hnodup]
    exact not_infix_fill _ _ placeholders_original_shape (substitution_original_plain vk)
      (substitution_original_ne_nil_all vk hIC) a0 rest ha0 hrest tk htk
  · intro hP tk htk
    have hrest : ∀ p ∈ rest, p.1 ∈ placeholders_groth ∧ hasMarker p.2.data = false :=
      fun p hp => ⟨hP p hp, htext p hp⟩
    rw [generateVerifier_groth_fill vk a0 rest ha0 hrest hnodup,
      generateVerifier_kimleeoh_fill vk a0 rest ha0 hrest hnodup]
    have := not_infix_fill _ _ placeholders_groth_shape (substitution_groth_plain vk)
      (substitution_groth_ne_nil_all vk hIC) a0 rest ha0 hrest tk htk
    exact ⟨this, this⟩

/-- Witness of `generateVerifier_no_placeholder_left`: the sample key and a
template with the three placeholders that all generators share. -/
theorem generateVerifier_no_placeholder_left_witness :
    (∀ tk ∈ placeholders_original,
      ¬ tk.data <:+: (generateVerifier_original sampleKey
        (fill id "n = " [("<%vk_input_length%>", "; m = "), ("<%vk_ic_length%>", ";\n"),
          ("<%vk_ic_pts%>", "end")])).data) ∧
    (∀ tk ∈ placeholders_groth,
      ¬ tk.data <:+: (generateVerifier_groth sampleKey
        (fill id "n = " [("<%vk_input_length%>", "; m = "), ("<%vk_ic_length%>", ";\n"),
          ("<%vk_ic_pts%>", "end")])).data ∧
      ¬ tk.data <:+: (generateVerifier_kimleeoh sampleKey
        (fill id "n = " [("<%vk_input_length%>", "; m = "), ("<%vk_ic_length%>", ";\n"),
          ("<%vk_ic_pts%>", "end")])).data) :=
  ⟨(generateVerifier_no_placeholder_left sampleKey (by decide) "n = "
      [("<%vk_input_length%>", "; m = "), ("<%vk_ic_length%>", ";\n"), ("<%vk_ic_pts%>", "end")]
      (by decide) (by decide) (by decide)).1 (by decide),
    (generateVerifier_no_placeholder_left sampleKey (by decide) "n = "
      [("<%vk_input_length%>", "; m = "), ("<%vk_ic_length%>", ";\n"), ("<%vk_ic_pts%>", "end")]
      (by decide) (by decide) (by decide)).2 (by decide)⟩


/-- C8: for every verification key, the text that each of the three
generators substitutes for `<%vk_ic_pts%>`, built by the loop over `IC`, is
the block of `len(IC)` assignment lines, the `i`-th being
`vk.IC[i] = Pairing.G1Point(X,Y);` and a newline with `i`, `X = IC[i].x`,
`Y = IC[i].y` in decimal, the lines in order and joined by the indentation of
eight spaces, so that every line after the first is preceded by it; and on
every template (made of placeholders of the generator, each at most once, and
of text free of `<%`) this block is what stands in the place of the
placeholder in the text returned, the other placeholders receiving the
replace values of the generator. -/
theorem generateVerifier_ic_block (vk : VerificationKey) :
    icLoop vk.IC 0 "" =
      String.intercalate "        "
        (vk.IC.enum.map (fun p => "vk.IC[" ++ toString10 p.1 ++ "] = Pairing.G1Point(" ++
          toString10 p.2.1 ++ "," ++ toString10 p.2.2 ++ ");\n")) ∧
    (vk.IC.enum.map (fun p => "vk.IC[" ++ toString10 p.1 ++ "] = Pairing.G1Point(" ++
      toString10 p.2.1 ++ "," ++ toString10 p.2.2 ++ ");\n")).length = vk.IC.length ∧
    ∀ (a0 : String) (rest : List (String × String)), hasMarker a0.data = false →
      (∀ p ∈ rest, hasMarker p.2.data = false) → (rest.map Prod.fst).Nodup →
      ((∀ p ∈ rest, p.1 ∈ placeholders_original) →
        generateVerifier_original vk (fill id a0 rest) =
          fill (fun tk =>
            if tk = "<%vk_ic_pts%>" then
              String.intercalate "        "
                (vk.IC.enum.map (fun p => "vk.IC[" ++ toString10 p.1 ++
                  "] = Pairing.G1Point(" ++ toString10 p.2.1 ++ "," ++ toString10 p.2.2 ++
                  ");\n"))
            else substitution_original vk tk) a0 rest) ∧
      ((∀ p ∈ rest, p.1 ∈ placeholders_groth) →
        generateVerifier_groth vk (fill id a0 rest) =
          fill (fun tk =>
            if tk = "<%vk_ic_pts%>" then
              String.intercalate "        "
                (vk.IC.enum.map (fun p => "vk.IC[" ++ toString10 p.1 ++
                  "] = Pairing.G1Point(" ++ toString10 p.2.1 ++ "," ++ toString10 p.2.2 ++
                  ");\n"))
            else substitution_groth vk tk) a0 rest ∧
        generateVerifier_kimleeoh vk (fill id a0 rest) =
          fill (fun tk =>
            if tk = "<%vk_ic_pts%>" then
              String.intercalate "        "
                (vk.IC.enum.map (fun p => "vk.IC[" ++ toString10 p.1 ++
                  "] = Pairing.G1Point(" ++ toString10 p.2.1 ++ "," ++ toString10 p.2.2 ++
                  ");\n"))
            else substitution_groth vk tk) a0 rest) := by
  refine ⟨icLoop_eq vk.IC, by simp [List.enum], ?_⟩
  intro a0 rest ha0 htext hnodup
  have hO : (fun tk =>
      if tk = "<%vk_ic_pts%>" then
        String.intercalate "        "
          (vk.IC.enum.map (fun p => "vk.IC[" ++ toString10 p.1 ++ "] = Pairing.G1Point(" ++
            toString10 p.2.1 ++ "," ++ toString10 p.2.2 ++ ");\n"))
      else substitution_original vk tk) = substitution_original vk := by
    funext tk
    by_cases h : tk = "<%vk_ic_pts%>"
    · subst h
      rw [if_pos rfl, ← icLoop_eq]
      rfl
    · rw [if_neg h]
  have hG : (fun tk =>
      if tk = "<%vk_ic_pts%>" then
        String.intercalate "        "
          (vk.IC.enum.map (fun p => "vk.IC[" ++ toString10 p.1 ++ "] = Pairing.G1Point(" ++
            toString10 p.2.1 ++ "," ++ toString10 p.2.2 ++ ");\n"))
      else substitution_groth vk tk) = substitution_groth vk := by
    funext tk
    by_cases h : tk = "<%vk_ic_pts%>"
    · subst h
      rw [if_pos rfl, ← icLoop_eq]
      rfl
    · rw [if_neg h]
  rw [hO, hG]
  exact ⟨fun hP => generateVerifier_original_fill vk a0 rest ha0
      (fun p hp => ⟨hP p hp, htext p hp⟩) hnodup,
    fun hP => ⟨generateVerifier_groth_fill vk a0 rest ha0
      (fun p hp => ⟨hP p hp, htext p hp⟩) hnodup,
      generateVerifier_kimleeoh_fill vk a0 rest ha0
      (fun p hp => ⟨hP p hp, htext p hp⟩) hnodup⟩⟩

/-- Witness of `generateVerifier_ic_block`: the sample key, whose `IC` has
two points, and a template that holds the placeholder between two lines. -/
theorem generateVerifier_ic_block_witness :
    icLoop sampleKey.IC 0 "" =
      "vk.IC[0] = Pairing.G1Point(39,40);\n        vk.IC[1] = Pairing.G1Point(41,42);\n" ∧
    generateVerifier_original sampleKey "        <%vk_ic_pts%>    \x7d\n" =
      "        vk.IC[0] = Pairing.G1Point(39,40);\n        vk.IC[1] = Pairing.G1Point(41,42);\n    \x7d\n" ∧
    generateVerifier_groth sampleKey "        <%vk_ic_pts%>    \x7d\n" =
      "        vk.IC[0] = Pairing.G1Point(39,40);\n        vk.IC[1] = Pairing.G1Point(41,42);\n    \x7d\n" ∧
    generateVerifier_kimleeoh sampleKey "        <%vk_ic_pts%>    \x7d\n" =
      "        vk.IC[0] = Pairing.G1Point(39,40);\n        vk.IC[1] = Pairing.G1Point(41,42);\n    \x7d\n" :=
  ⟨(generateVerifier_ic_block sampleKey).1,
    ((generateVerifier_ic_block sampleKey).2.2 "        " [("<%vk_ic_pts%>", "    \x7d\n")]
      (by decide) (by decide) (by decide)).1 (by decide),
    ((generateVerifier_ic_block sampleKey).2.2 "        " [("<%vk_ic_pts%>", "    \x7d\n")]
      (by decide) (by decide) (by decide)).2 (by decide)⟩

/-! ## `p256` on every nonnegative integer -/

theorem readBase16_padded (n k : Nat) :
    readBase16 (⟨List.replicate k '0'⟩ ++ toString16 n) = n := by
  have := readBase16_toString16 n
  rw [readBase16] at this ⊢
  rw [String.data_append, foldl_hex_zeros]
  exact this

theorem toString16_length_eq_digits (n : Nat) (hn : n ≠ 0) :
    (toString16 n).length = (Nat.digits 16 n).length := by
  rw [toString16, String.length_mk, toDigits_eq_digits 16 (by decide)]
  simp [hn]

/-- C18: for every `n ≥ 0`, `p256 n` is the quoted `0x` literal whose
hexadecimal part has `max(64, number of base-16 digits of n)` characters and
reads back as `n`; for `n ≥ 2^256` that part is the unpadded hexadecimal text
of `n`, longer than 64 digits: nothing is cut off and no error is raised. -/
theorem p256_width (n : Nat) :
    ∃ hex : String,
      p256 n = "\"0x" ++ hex ++ "\"" ∧
      hex.length = max 64 (toString16 n).length ∧
      readBase16 hex = n ∧
      (n ≠ 0 → (toString16 n).length = (Nat.digits 16 n).length) ∧
      (2 ^ 256 ≤ n → hex = toString16 n ∧ 64 < hex.length) := by
  refine ⟨⟨List.replicate (64 - (toString16 n).length) '0'⟩ ++ toString16 n, p256_eq n, ?_,
    readBase16_padded n _, toString16_length_eq_digits n, ?_⟩
  · rw [String.length_append, String.length_mk, List.length_replicate]
    omega
  · intro h
    have hgt : 64 < (toString16 n).length :=
      toString16_length_gt n 64 (by
        have e : (16 : Nat) ^ 64 = 2 ^ 256 := by norm_num
        omega)
    have h0 : 64 - (toString16 n).length = 0 := by omega
    rw [h0]
    exact ⟨String.ext (by simp), by
      rw [String.length_append, String.length_mk, List.length_replicate]; omega⟩

/-- Witness of `p256_width` at `n = 2^256`, the first value that takes 65
digits. -/
theorem p256_width_witness :
    ∃ hex : String,
      p256 (2 ^ 256) = "\"0x" ++ hex ++ "\"" ∧
      hex.length = max 64 (toString16 (2 ^ 256)).length ∧
      readBase16 hex = 2 ^ 256 ∧
      ((2 ^ 256 : Nat) ≠ 0 → (toString16 (2 ^ 256)).length = (Nat.digits 16 (2 ^ 256)).length) ∧
      (2 ^ 256 ≤ 2 ^ 256 → hex = toString16 (2 ^ 256) ∧ 64 < hex.length) :=
  p256_width (2 ^ 256)

/-- C19: `p256` is injective on the nonnegative integers, whatever their
size: equal literals come from equal numbers. -/
theorem p256_injective (m n : Nat) (h : p256 m = p256 n) : m = n := by
  rw [p256_eq, p256_eq] at h
  have hd := congrArg String.data h
  simp only [String.data_append] at hd
  have h1 := List.append_cancel_left (List.append_cancel_right hd)
  have h2 : (⟨List.replicate (64 - (toString16 m).length) '0'⟩ ++ toString16 m : String) =
      ⟨List.replicate (64 - (toString16 n).length) '0'⟩ ++ toString16 n :=
    String.ext (by simpa [String.data_append] using h1)
  have h3 := congrArg readBase16 h2
  rwa [readBase16_padded, readBase16_padded] at h3

/-- Witness of `p256_injective`: `255` written in two ways. -/
theorem p256_injective_witness : p256 (15 * 16 + 15) = p256 255 ∧ 15 * 16 + 15 = 255 :=
  ⟨by decide, p256_injective (15 * 16 + 15) 255 (by decide)⟩

/-! ## Groth and KimLeeOh -/

/-- C12: `generateVerifier_groth` and `generateVerifier_kimleeoh` return the
same text on every verification key and every template text, and the
`generateverifier` stage hands both the same template file: for keys that
differ in the tag only, "groth" or "kimleeoh", it yields the same source. -/
theorem generateVerifier_groth_kimleeoh_same (vk : VerificationKey) (template : String) :
    generateVerifier_groth vk template = generateVerifier_kimleeoh vk template ∧
    ∀ templateAt : String → String,
      generateverifier templateAt { vk with protocol := some "groth" } =
        generateverifier templateAt { vk with protocol := some "kimleeoh" } := by
  refine ⟨rfl, fun templateAt => ?_⟩
  rfl

/-! ## The `generateverifier` stage -/

/-- C13, evaluated on the code: for a verification key whose tag is none of
the three ("plonk", or no tag at all) the `generateverifier` stage throws
`new Error("InvalidProof")`, the error of a proof record in a stage that
reads no proof, and the run prints `ERROR: Error: InvalidProof` and exits
with code 1 without writing the verifier file; on the same key the `verify`
stage, which looks the tag up in the table of protocols, throws
`Invalid protocol`.  The keys on which the stage throws `InvalidProof` are
exactly those whose tag is none of "original", "groth", "kimleeoh". -/
theorem generateverifier_error_is_InvalidProof :
    (∀ (templateAt : String → String) (verificationKey : VerificationKey),
      generateverifier templateAt verificationKey = Except.error (Thrown.error "InvalidProof") ↔
        (verificationKey.protocol ≠ some "original" ∧ verificationKey.protocol ≠ some "groth" ∧
          verificationKey.protocol ≠ some "kimleeoh")) ∧
    generateverifier sampleWorld.templateAt { sampleKey with protocol := some "plonk" } =
      Except.error (Thrown.error "InvalidProof") ∧
    generateverifier sampleWorld.templateAt { sampleKey with protocol := none } =
      Except.error (Thrown.error "InvalidProof") ∧
    run { sampleWorld with
          verificationKeyAt := fun _ => { sampleKey with protocol := some "plonk" } }
        { command := some (ArgValue.str "generateverifier") } =
      [Effect.readFile (ArgValue.str "verification_key.json"),
        Effect.log "Error: InvalidProof\n    at run",
        Effect.log "ERROR: Error: InvalidProof", Effect.exit 1] ∧
    run { sampleWorld with
          verificationKeyAt := fun _ => { sampleKey with protocol := some "plonk" } }
        { command := some (ArgValue.str "verify") } =
      [Effect.readFile (ArgValue.str "public.json"),
        Effect.readFile (ArgValue.str "verification_key.json"),
        Effect.readFile (ArgValue.str "proof.json"),
        Effect.log "Error: Invalid protocol\n    at run",
        Effect.log "ERROR: Error: Invalid protocol", Effect.exit 1] := by
  refine ⟨?_, by decide, by decide, by decide, by decide⟩
  intro templateAt verificationKey
  unfold generateverifier
  by_cases h1 : verificationKey.protocol = some "original"
  · simp [h1]
  · by_cases h2 : verificationKey.protocol = some "groth"
    · simp [h1, h2]
    · by_cases h3 : verificationKey.protocol = some "kimleeoh"
      · simp [h1, h2, h3]
      · simp [h1, h2, h3]

/-! ## The command router -/

theorem selectStage_eq_some (up : String → String) (t : String) (s : Stage) :
    selectStage up t = some s ↔ up t = s.token := by
  unfold selectStage
  by_cases h1 : up t = "INFO"
  · cases s <;> simp [h1, Stage.token]
  by_cases h2 : up t = "PRINTCONSTRAINTS"
  · cases s <;> simp [h2, Stage.token]
  by_cases h3 : up t = "SETUP"
  · cases s <;> simp [h3, Stage.token]
  by_cases h4 : up t = "CALCULATEWITNESS"
  · cases s <;> simp [h4, Stage.token]
  by_cases h5 : up t = "PROOF"
  · cases s <;> simp [h5, Stage.token]
  by_cases h6 : up t = "VERIFY"
  · cases s <;> simp [h6, Stage.token]
  by_cases h7 : up t = "GENERATEVERIFIER"
  · cases s <;> simp [h7, Stage.token]
  by_cases h8 : up t = "GENERATECALL"
  · cases s <;> simp [h8, Stage.token]
  cases s <;> simp [h1, h2, h3, h4, h5, h6, h7, h8, Stage.token]

theorem selectStage_eq_none (up : String → String) (t : String) :
    selectStage up t = none ↔ up t ∉ commandTokens := by
  unfold selectStage commandTokens
  by_cases h1 : up t = "INFO"
  · simp [h1]
  by_cases h2 : up t = "PRINTCONSTRAINTS"
  · simp [h2]
  by_cases h3 : up t = "SETUP"
  · simp [h3]
  by_cases h4 : up t = "CALCULATEWITNESS"
  · simp [h4]
  by_cases h5 : up t = "PROOF"
  · simp [h5]
  by_cases h6 : up t = "VERIFY"
  · simp [h6]
  by_cases h7 : up t = "GENERATEVERIFIER"
  · simp [h7]
  by_cases h8 : up t = "GENERATECALL"
  · simp [h8]
  simp [h1, h2, h3, h4, h5, h6, h7, h8]

/-- C14, as stated, fails: the token `123` reaches `run` as the number 123,
on which `argv._[0].toUpperCase()` throws a TypeError at the first test; the
run ends with that error and not with the error of an invalid command,
although the token upper-cases to none of the eight names. -/
theorem command_number_token_type_error :
    run sampleWorld { command := some (ArgValue.number 123) } =
      [Effect.log "TypeError: argv._[0].toUpperCase()\n    at run",
        Effect.log "ERROR: TypeError: argv._[0].toUpperCase() is not allowed",
        Effect.exit 1] ∧
    run sampleWorld { command := some (ArgValue.number 123) } ≠
      catchBlock sampleWorld (Thrown.error "Invalid Command") :=
  ⟨by decide, by decide⟩

/-- C14, amended: command selection is case-insensitive and closed.  Two
texts that are equal after upper-casing select the same stage; a text selects
a stage exactly when it upper-cases to the name of that stage, one of the
eight; a command token that is a text and upper-cases to none of the eight
names selects no stage: the run throws `new Error("Invalid Command")`, prints
it and exits with code 1, and it reads and writes no file; and a command
token that is no text (a number, as for `123`, or no token at all) makes the
first test throw a TypeError: the run prints that error and exits with code
1, and it reads and writes no file either. -/
theorem command_selection (w : World) :
    (∀ t1 t2 : String, w.toUpperCase t1 = w.toUpperCase t2 →
      selectStage w.toUpperCase t1 = selectStage w.toUpperCase t2) ∧
    (∀ (t : String) (s : Stage),
      selectStage w.toUpperCase t = some s ↔ w.toUpperCase t = s.token) ∧
    (∀ (argv : Argv) (token : String), argv.command = some (ArgValue.str token) →
      w.toUpperCase token ∉ commandTokens →
      selectStage w.toUpperCase token = none ∧
      run w argv =
        [Effect.log (w.stack (Thrown.error "Invalid Command")),
          Effect.log "ERROR: Error: Invalid Command", Effect.exit 1] ∧
      (∀ name, Effect.readFile name ∉ run w argv) ∧
      (∀ name data, Effect.writeFile name data ∉ run w argv)) ∧
    (∀ argv : Argv, (∀ token : String, argv.command ≠ some (ArgValue.str token)) →
      run w argv =
        [Effect.log (w.stack (Thrown.typeError "argv._[0].toUpperCase()")),
          Effect.log ("ERROR: TypeError: " ++ w.typeErrorMessage "argv._[0].toUpperCase()"),
          Effect.exit 1] ∧
      (∀ name, Effect.readFile name ∉ run w argv) ∧
      (∀ name data, Effect.writeFile name data ∉ run w argv)) := by
  refine ⟨?_, fun t s => selectStage_eq_some _ t s, ?_, ?_⟩
  · intro t1 t2 h
    unfold selectStage
    rw [h]
  · intro argv token hc h
    have hnone := (selectStage_eq_none w.toUpperCase token).mpr h
    have hrun : run w argv =
        [Effect.log (w.stack (Thrown.error "Invalid Command")),
          Effect.log "ERROR: Error: Invalid Command", Effect.exit 1] := by
      simp only [run, hc, hnone, catchBlock, errorText]
      rfl
    refine ⟨hnone, hrun, ?_, ?_⟩
    · intro name
      rw [hrun]
      simp
    · intro name data
      rw [hrun]
      simp
  · intro argv hc
    have hrun : run w argv =
        [Effect.log (w.stack (Thrown.typeError "argv._[0].toUpperCase()")),
          Effect.log ("ERROR: TypeError: " ++ w.typeErrorMessage "argv._[0].toUpperCase()"),
          Effect.exit 1] := by
      unfold run
      cases hcmd : argv.command with
      | none => rfl
      | some v =>
        cases v with
        | str token => exact absurd hcmd (hc token)
        | number n => rfl
        | bool b => rfl
    refine ⟨hrun, ?_, ?_⟩
    · intro name
      rw [hrun]
      simp
    · intro name data
      rw [hrun]
      simp

/-- Witness of `command_selection`: in the sample world `Verify` and `VERIFY`
select the same stage, the stage `verify`; `frobnicate` ends the run with
the error of an invalid command; and a run with no command token ends with
the TypeError of the first test. -/
theorem command_selection_witness :
    selectStage sampleWorld.toUpperCase "Verify" = selectStage sampleWorld.toUpperCase "VERIFY" ∧
    selectStage sampleWorld.toUpperCase "Verify" = some Stage.verify ∧
    run sampleWorld { command := some (ArgValue.str "frobnicate") } =
      [Effect.log "Error: Invalid Command\n    at run",
        Effect.log "ERROR: Error: Invalid Command", Effect.exit 1] ∧
    run sampleWorld { command := none } =
      [Effect.log "TypeError: argv._[0].toUpperCase()\n    at run",
        Effect.log "ERROR: TypeError: argv._[0].toUpperCase() is not allowed",
        Effect.exit 1] :=
  ⟨(command_selection sampleWorld).1 "Verify" "VERIFY" (by decide),
    ((command_selection sampleWorld).2.1 "Verify" Stage.verify).mpr (by decide),
    ((command_selection sampleWorld).2.2.1 { command := some (ArgValue.str "frobnicate") }
      "frobnicate" rfl (by decide)).2.1,
    ((command_selection sampleWorld).2.2.2 { command := none }
      (fun _ h => Option.noConfusion h)).1⟩

/-! ## The `verify` stage -/

/-- C15: in the `verify` stage, for a verification key whose protocol is in
the table, the run reads the three artifacts and then, when `isValid` is
true, prints `OK` and exits with code 0, and when it is false, prints
`INVALID` and exits with code 1; in both cases nothing else is printed, the
lines of the error handler included. -/
theorem verify_outcome (w : World) (argv : Argv) (token : String)
    (isValid : VerificationKey → Proof → List Nat → Bool)
    (hc : argv.command = some (ArgValue.str token))
    (h : selectStage w.toUpperCase token = some Stage.verify)
    (hreg : w.zkSnark (w.verificationKeyAt (verificationKeyName argv)).protocol = some isValid) :
    (isValid (w.verificationKeyAt (verificationKeyName argv)) (w.proofAt (proofName argv))
        (w.publicAt (publicName argv)) = true →
      run w argv =
        [Effect.readFile (publicName argv), Effect.readFile (verificationKeyName argv),
          Effect.readFile (proofName argv), Effect.log "OK", Effect.exit 0]) ∧
    (isValid (w.verificationKeyAt (verificationKeyName argv)) (w.proofAt (proofName argv))
        (w.publicAt (publicName argv)) = false →
      run w argv =
        [Effect.readFile (publicName argv), Effect.readFile (verificationKeyName argv),
          Effect.readFile (proofName argv), Effect.log "INVALID", Effect.exit 1]) ∧
    (∀ text, Effect.log text ∈ run w argv → text = "OK" ∨ text = "INVALID") := by
  have hrun : run w argv =
      [Effect.readFile (publicName argv), Effect.readFile (verificationKeyName argv),
        Effect.readFile (proofName argv)] ++
      (if isValid (w.verificationKeyAt (verificationKeyName argv)) (w.proofAt (proofName argv))
          (w.publicAt (publicName argv)) = true then [Effect.log "OK", Effect.exit 0]
        else [Effect.log "INVALID", Effect.exit 1]) := by
    simp only [run, hc, h, hreg]
  rw [hrun]
  cases hv : isValid (w.verificationKeyAt (verificationKeyName argv)) (w.proofAt (proofName argv))
      (w.publicAt (publicName argv)) <;> simp

/-- Witness of `verify_outcome`: in the sample world the check accepts the
public signals of `public.json` and rejects those of any other file. -/
theorem verify_outcome_witness :
    run sampleWorld { command := some (ArgValue.str "verify") } =
      [Effect.readFile (ArgValue.str "public.json"),
        Effect.readFile (ArgValue.str "verification_key.json"),
        Effect.readFile (ArgValue.str "proof.json"), Effect.log "OK", Effect.exit 0] ∧
    run sampleWorld { command := some (ArgValue.str "verify"), «public» := some (ArgValue.str "flipped.json") } =
      [Effect.readFile (ArgValue.str "flipped.json"),
        Effect.readFile (ArgValue.str "verification_key.json"),
        Effect.readFile (ArgValue.str "proof.json"), Effect.log "INVALID", Effect.exit 1] :=
  ⟨(verify_outcome sampleWorld { command := some (ArgValue.str "verify") } "verify"
      (fun _ _ signals => signals == [9]) rfl (by decide) rfl).1 (by decide),
    (verify_outcome sampleWorld { command := some (ArgValue.str "verify"), «public» := some (ArgValue.str "flipped.json") } "verify"
      (fun _ _ signals => signals == [9]) rfl (by decide) rfl).2.1 (by decide)⟩

/-! ## The defaults of the options -/

/-- C16, evaluated on the code: with no option given, every default that the
usage text documents is the value the program uses, except the one of
`--wasm`: the usage text of `calculatewitness` documents `circuit.r1cs` and
`wasmName` is `circuit.wasm`.  An option given with a value that is not the
empty text yields that value, and so does every given value that is truthy;
the number 0, as in `--proof 0`, yields the default. -/
theorem wasm_default_differs_from_usage :
    (∀ e ∈ usageDefaults, e ≠ ("calculatewitness", "wasm", "circuit.r1cs") →
      optionValue { command := some (ArgValue.str e.1) } e.2.1 = ArgValue.str e.2.2) ∧
    ("calculatewitness", "wasm", "circuit.r1cs") ∈ usageDefaults ∧
    wasmName { command := some (ArgValue.str "calculatewitness") } =
      ArgValue.str "circuit.wasm" ∧
    optionValue { command := some (ArgValue.str "calculatewitness") } "wasm" ≠
      ArgValue.str "circuit.r1cs" ∧
    (∀ s d : String, s ≠ "" → orDefault (some (ArgValue.str s)) d = ArgValue.str s) ∧
    (∀ (v : ArgValue) (d : String), v.truthy = true → orDefault (some v) d = v) ∧
    (∀ d : String, orDefault (some (ArgValue.number 0)) d = ArgValue.str d) :=
  ⟨by decide, by decide, by decide, by decide,
    fun s d h => by simp [orDefault, ArgValue.truthy, h],
    fun v d h => by simp [orDefault, h], fun d => rfl⟩

/-! ## The artifact codec -/

theorem digitChar_isDecimal : ∀ d, d < 10 →
    ('0' ≤ Nat.digitChar d ∧ Nat.digitChar d ≤ '9') ∧
      (Nat.digitChar d).toNat - '0'.toNat = d := by
  decide

theorem isDecimal_toString10 (n : Nat) : isDecimal (toString10 n) = true := by
  have hne := toString10_ne_nil n
  have hall : ∀ c ∈ (toString10 n).data, '0' ≤ c ∧ c ≤ '9' := by
    intro c hc
    rw [toString10, toDigits_eq_digits 10 (by decide)] at hc
    by_cases hn : n = 0
    · simp [hn] at hc
      subst hc
      decide
    · simp only [hn, if_false, List.mem_map, List.mem_reverse] at hc
      obtain ⟨d, hd, rfl⟩ := hc
      exact (digitChar_isDecimal d (Nat.digits_lt_base (by decide) hd)).1
  unfold isDecimal
  simp only [Bool.and_eq_true, Bool.not_eq_true', List.isEmpty_eq_false, List.all_eq_true,
    decide_eq_true_eq]
  exact ⟨hne, hall⟩

theorem foldl_decimal_digits (ds : List Nat) (hds : ∀ d ∈ ds, d < 10) :
    (ds.reverse.map Nat.digitChar).foldl (fun acc c => 10 * acc + (c.toNat - '0'.toNat)) 0 =
      Nat.ofDigits 10 ds := by
  induction ds with
  | nil => simp
  | cons d ds ih =>
    have hd : d < 10 := hds d (List.mem_cons_self _ _)
    have ih2 := ih (fun x hx => hds x (List.mem_cons_of_mem _ hx))
    simp only [List.reverse_cons, List.map_append, List.map, List.foldl_append, List.foldl]
    rw [ih2, (digitChar_isDecimal d hd).2, Nat.ofDigits_cons]
    omega

theorem readBase10_toString10 (n : Nat) : readBase10 (toString10 n) = n := by
  rw [readBase10, toString10, toDigits_eq_digits 10 (by decide)]
  by_cases hn : n = 0
  · subst hn; decide
  · simp only [hn, if_false]
    rw [foldl_decimal_digits _ (fun d hd => Nat.digits_lt_base (by decide) hd),
      Nat.ofDigits_digits]

mutual
theorem destringify_stringify : ∀ v : Value, onlyBigInts v = true →
    destringify (stringify v) = v
  | Value.bigint n, _ => by
    rw [stringify, destringify, isDecimal_toString10, if_pos rfl, readBase10_toString10]
  | Value.seq items, h => by
    rw [onlyBigInts] at h
    rw [stringify, destringify, destringifyItems_stringifyItems items h]
  | Value.map fields, h => by
    rw [onlyBigInts] at h
    rw [stringify, destringify, destringifyFields_stringifyFields fields h]
  | Value.string _, h => by
    rw [onlyBigInts] at h
    exact Bool.noConfusion h
  | Value.other _, h => by
    rw [onlyBigInts] at h
    exact Bool.noConfusion h
theorem destringifyItems_stringifyItems : ∀ l : List Value, onlyBigIntsItems l = true →
    destringifyItems (stringifyItems l) = l
  | [], _ => by rw [stringifyItems, destringifyItems]
  | v :: rest, h => by
    rw [onlyBigIntsItems, Bool.and_eq_true] at h
    rw [stringifyItems, destringifyItems, destringify_stringify v h.1,
      destringifyItems_stringifyItems rest h.2]
theorem destringifyFields_stringifyFields : ∀ l : List (String × Value),
    onlyBigIntsFields l = true → destringifyFields (stringifyFields l) = l
  | [], _ => by rw [stringifyFields, destringifyFields]
  | (k, v) :: rest, h => by
    rw [onlyBigIntsFields, Bool.and_eq_true] at h
    rw [stringifyFields, destringifyFields, destringify_stringify v h.1,
      destringifyFields_stringifyFields rest h.2]
end

mutual
theorem noBigInt_stringify : ∀ v : Value, onlyBigInts v = true → noBigInt (stringify v) = true
  | Value.bigint n, _ => by rw [stringify, noBigInt]
  | Value.seq items, h => by
    rw [onlyBigInts] at h
    rw [stringify, noBigInt, noBigIntItems_stringifyItems items h]
  | Value.map fields, h => by
    rw [onlyBigInts] at h
    rw [stringify, noBigInt, noBigIntFields_stringifyFields fields h]
  | Value.string _, h => by
    rw [onlyBigInts] at h
    exact Bool.noConfusion h
  | Value.other _, h => by
    rw [onlyBigInts] at h
    exact Bool.noConfusion h
theorem noBigIntItems_stringifyItems : ∀ l : List Value, onlyBigIntsItems l = true →
    noBigIntItems (stringifyItems l) = true
  | [], _ => by rw [stringifyItems, noBigIntItems]
  | v :: rest, h => by
    rw [onlyBigIntsItems, Bool.and_eq_true] at h
    rw [stringifyItems, noBigIntItems, noBigInt_stringify v h.1,
      noBigIntItems_stringifyItems rest h.2]
    rfl
theorem noBigIntFields_stringifyFields : ∀ l : List (String × Value),
    onlyBigIntsFields l = true → noBigIntFields (stringifyFields l) = true
  | [], _ => by rw [stringifyFields, noBigIntFields]
  | (k, v) :: rest, h => by
    rw [onlyBigIntsFields, Bool.and_eq_true] at h
    rw [stringifyFields, noBigIntFields, noBigInt_stringify v h.1,
      noBigIntFields_stringifyFields rest h.2]
    rfl
end

/-- C17: for every value built from nested sequences, mappings and big
integers, `destringify (stringify v) = v`; and with any writer and reader of
JSON text that give back every value free of big integers, as
`JSON.stringify` and `JSON.parse` do, the artifact written from
`stringify v` and read back through `destringify` is `v`. -/
theorem codec_round_trip (v : Value) (h : onlyBigInts v = true) :
    destringify (stringify v) = v ∧
    ∀ (Text : Type) (jsonStringify : Value → Text) (jsonParse : Text → Value),
      (∀ x, noBigInt x = true → jsonParse (jsonStringify x) = x) →
      destringify (jsonParse (jsonStringify (stringify v))) = v := by
  refine ⟨destringify_stringify v h, ?_⟩
  intro Text jsonStringify jsonParse hjson
  rw [hjson _ (noBigInt_stringify v h), destringify_stringify v h]

/-- Witness of `codec_round_trip`: a proof record with a coordinate of 257
bits, and the value itself taken as its JSON text. -/
theorem codec_round_trip_witness :
    destringify (stringify sampleValue) = sampleValue ∧
    destringify (id (id (stringify sampleValue))) = sampleValue :=
  ⟨(codec_round_trip sampleValue (by decide)).1,
    (codec_round_trip sampleValue (by decide)).2 Value id id (fun _ _ => rfl)⟩

/-! ## What the generators leave in place -/

theorem indexOf_of_not_infix (tk : List Char) :
    ∀ t : List Char, ¬ tk <:+: t → indexOf tk t = none := by
  intro t
  induction t with
  | nil =>
    intro h
    have hne : tk ≠ [] := fun e => h (e ▸ List.infix_refl _)
    simp [indexOf, hne]
  | cons c cs ih =>
    intro h
    have h1 : ¬ (tk.isPrefixOf (c :: cs) = true) :=
      fun hp => h (List.isPrefixOf_iff_prefix.mp hp).isInfix
    have h2 : ¬ tk <:+: cs := fun hi => h (List.infix_cons hi)
    simp [indexOf, h1, ih h2]

/-- A text in which the search text does not occur is returned as it is. -/
theorem replaceChars_of_not_infix (tk v t : List Char) (h : ¬ tk <:+: t) :
    replaceChars t tk v = t := by
  simp [replaceChars, indexOf_of_not_infix tk t h]

theorem foldl_replaceChars_of_not_infix (value : List Char → List Char) :
    ∀ (T : List (List Char)) (t : List Char), (∀ q ∈ T, ¬ q <:+: t) →
      T.foldl (fun t x => replaceChars t x (value x)) t = t := by
  intro T
  induction T with
  | nil => intro t _; rfl
  | cons q T ih =>
    intro t h
    rw [List.foldl_cons, replaceChars_of_not_infix q _ t (h q (List.mem_cons_self _ _))]
    exact ih t (fun x hx => h x (List.mem_cons_of_mem _ hx))

/-- The replacement acts on the first occurrence: what stands before it and
what stands after it are kept. -/
theorem replaceChars_first (tk v b : List Char) (htk : tk ≠ []) (hv : ∀ c ∈ v, c ≠ '$') :
    ∀ a : List Char, ¬ tk <:+: a ++ tk.dropLast →
      replaceChars (a ++ tk ++ b) tk v = a ++ v ++ b := by
  intro a
  induction a with
  | nil =>
    intro _
    exact replaceChars_at tk v b htk hv
  | cons c a ih =>
    intro h
    have h2 : ¬ tk <:+: a ++ tk.dropLast := fun hi => h (List.infix_cons hi)
    have hn : ¬ tk <+: c :: (a ++ tk ++ b) := by
      intro hp
      have hp2 : (c :: a) ++ tk.dropLast <+: c :: (a ++ tk ++ b) := by
        obtain ⟨x, hx⟩ := List.dropLast_prefix tk
        refine ⟨x ++ b, ?_⟩
        simp only [List.cons_append, List.append_assoc]
        rw [← List.append_assoc tk.dropLast x b, hx]
      have hlen : tk.length ≤ ((c :: a) ++ tk.dropLast).length := by
        have : 0 < tk.length := List.length_pos.mpr htk
        simp only [List.length_append, List.length_cons, List.length_dropLast]
        omega
      exact h (List.prefix_of_prefix_length_le hp hp2 hlen).isInfix
    have e : (c :: a) ++ tk ++ b = c :: (a ++ tk ++ b) := by simp
    rw [e, replaceChars_cons tk v c _ hv hn, ih h2]
    simp

/-- A token that occurs neither before nor after the replaced text does not
occur in the result either, when the value put in holds a character that the
token does not hold and neither `<` nor `>`. -/
theorem not_infix_replaced (q a v b : List Char) (hq1 : q.head? = some '<')
    (hq2 : q.getLast? = some '>') (hv1 : '<' ∉ v) (hv2 : '>' ∉ v)
    (hsep : ∃ c ∈ v, c ∉ q) (ha : ¬ q <:+: a) (hb : ¬ q <:+: b) :
    ¬ q <:+: a ++ v ++ b := by
  rintro ⟨s, r, h⟩
  rw [List.append_assoc, List.append_assoc, List.append_eq_append_iff] at h
  rcases h with ⟨a', ha', h⟩ | ⟨c', hc', h⟩
  · -- the occurrence begins within `a`
    rw [List.append_eq_append_iff] at h
    rcases h with ⟨x, hx, _⟩ | ⟨x, hx, h⟩
    · -- it ends within `a`
      exact ha ⟨s, x, by rw [ha', hx]; simp⟩
    · -- it extends over the rest of `a`
      rw [List.append_eq_append_iff] at h
      rcases h with ⟨y, hy, _⟩ | ⟨y, hy, _⟩
      · -- it covers `v`
        obtain ⟨c, hcv, hcq⟩ := hsep
        apply hcq
        rw [hx, hy]
        exact List.mem_append_right _ (List.mem_append_left _ hcv)
      · -- it ends within `v`
        cases x with
        | nil =>
          rw [List.append_nil] at hx
          exact ha ⟨s, [], by rw [ha', hx]; simp⟩
        | cons d x' =>
          have hlast : (d :: x').getLast? = some '>' := by
            rw [← hq2, hx, List.getLast?_append_of_ne_nil _ (List.cons_ne_nil _ _)]
          apply hv2
          rw [hy]
          exact List.mem_append_left _ (List.mem_of_getLast?_eq_some hlast)
  · -- the occurrence begins after `a`
    rw [List.append_eq_append_iff] at h
    rcases h with ⟨x, _, h⟩ | ⟨x, hx, h⟩
    · -- it lies within `b`
      exact hb ⟨x, r, by rw [h]; simp⟩
    · -- it begins within `v`
      cases x with
      | nil =>
        rw [List.nil_append] at h
        exact hb ⟨[], r, by rw [← h]; simp⟩
      | cons d x' =>
        have hhead : (q ++ r).head? = some d := by rw [h]; rfl
        rw [List.head?_append, hq1] at hhead
        have hd : d = '<' := by
          simpa using hhead.symm
        apply hv1
        rw [hx, hd]
        exact List.mem_append_right _ (List.mem_cons_self _ _)

/-- The replacements of a generator on a template in which only the token
`tk` occurs: its first occurrence is replaced, the replacements before it and
after it find nothing. -/
theorem foldl_replaceChars_single (value : List Char → List Char) (tk a b : List Char)
    (htk : tk ≠ []) (hv : ∀ c ∈ value tk, c ≠ '$') (hfirst : ¬ tk <:+: a ++ tk.dropLast) :
    ∀ T : List (List Char), tk ∈ T → (∀ q ∈ T, q ≠ tk → ¬ q <:+: a ++ tk ++ b) →
      (∀ q ∈ tokensAfter tk T, ¬ q <:+: a ++ value tk ++ b) →
      T.foldl (fun t x => replaceChars t x (value x)) (a ++ tk ++ b) = a ++ value tk ++ b := by
  intro T
  induction T with
  | nil => intro h; exact absurd h (List.not_mem_nil _)
  | cons x T ih =>
    intro hmem hother hafter
    by_cases hx : x = tk
    · subst hx
      rw [List.foldl_cons, replaceChars_first x (value x) b htk hv a hfirst]
      apply foldl_replaceChars_of_not_infix
      intro q hq
      apply hafter
      simp [tokensAfter, hq]
    · have hmem2 : tk ∈ T := by
        rcases List.mem_cons.mp hmem with h | h
        · exact absurd h.symm hx
        · exact h
      rw [List.foldl_cons, replaceChars_of_not_infix x _ _ (hother x (List.mem_cons_self _ _) hx)]
      apply ih hmem2 (fun q hq => hother q (List.mem_cons_of_mem _ hq))
      intro q hq
      apply hafter
      simp [tokensAfter, hx, hq]

theorem tokensAfter_mem (tk : List Char) :
    ∀ (T : List (List Char)) (q : List Char), T.Nodup → q ∈ tokensAfter tk T →
      q ∈ T ∧ q ≠ tk := by
  intro T
  induction T with
  | nil => intro q _ h; exact absurd h (List.not_mem_nil _)
  | cons x T ih =>
    intro q hnd h
    rw [List.nodup_cons] at hnd
    by_cases hx : x = tk
    · rw [tokensAfter, if_pos hx] at h
      exact ⟨List.mem_cons_of_mem _ h, fun e => hnd.1 (hx ▸ e ▸ h)⟩
    · rw [tokensAfter, if_neg hx] at h
      have := ih q hnd.2 h
      exact ⟨List.mem_cons_of_mem _ this.1, this.2⟩

/-- A function that performs the replacements of the placeholders `P` in
order replaces, in a template where only the placeholder `tk` occurs, the
first occurrence of `tk` and nothing else. -/
theorem generator_single (gen : String → String) (P : List String) (value : String → String)
    (hgen : ∀ t, (gen t).data = (P.map String.data).foldl
      (fun t x => replaceChars t x (value ⟨x⟩).data) t.data)
    (hnd : P.Nodup)
    (hshape : ∀ x ∈ P.map String.data, x.head? = some '<' ∧ x.getLast? = some '>')
    (hval : ∀ tk ∈ P, ∀ c ∈ (value tk).data, c ≠ '$' ∧ c ≠ '<' ∧ c ≠ '>')
    (hsep : ∀ tk ∈ P, ∀ q ∈ tokensAfter tk.data (P.map String.data),
      ∃ c ∈ (value tk).data, c ∉ q)
    (tk : String) (htk : tk ∈ P) (a b : String)
    (hfirst : ¬ tk.data <:+: a.data ++ tk.data.dropLast)
    (hother : ∀ q ∈ P, q ≠ tk → ¬ q.data <:+: (a ++ tk ++ b).data) :
    gen (a ++ tk ++ b) = a ++ value tk ++ b := by
  apply String.ext
  rw [hgen]
  simp only [String.data_append]
  have hne : tk.data ≠ [] := by
    intro e
    have := (hshape tk.data (List.mem_map_of_mem _ htk)).1
    rw [e] at this
    exact Option.noConfusion this
  have hother2 : ∀ q ∈ P.map String.data, q ≠ tk.data →
      ¬ q <:+: a.data ++ tk.data ++ b.data := by
    intro q hq hqne
    obtain ⟨q0, hq0, rfl⟩ := List.mem_map.mp hq
    have := hother q0 hq0 (fun e => hqne (by rw [e]))
    simpa only [String.data_append] using this
  apply foldl_replaceChars_single (fun l => (value ⟨l⟩).data) tk.data a.data b.data hne
    (fun c hc => (hval tk htk c hc).1) hfirst _ (List.mem_map_of_mem _ htk) hother2
  intro q hq
  obtain ⟨hqP, hqne⟩ := tokensAfter_mem tk.data _ q (hnd.map string_data_injective) hq
  have hno := hother2 q hqP hqne
  apply not_infix_replaced q a.data (value tk).data b.data (hshape q hqP).1 (hshape q hqP).2
    (fun h => (hval tk htk _ h).2.1 rfl) (fun h => (hval tk htk _ h).2.2 rfl) (hsep tk htk q hq)
  · intro hi
    apply hno
    obtain ⟨s, r, hsr⟩ := hi
    exact ⟨s, r ++ (tk.data ++ b.data), by rw [← hsr]; simp⟩
  · intro hi
    apply hno
    obtain ⟨s, r, hsr⟩ := hi
    exact ⟨a.data ++ tk.data ++ s, r, by rw [← hsr]; simp⟩

/-- A function that performs the replacements of the placeholders `P` in
order returns a template in which none of them occurs as it is. -/
theorem generator_none (gen : String → String) (P : List String) (value : String → String)
    (hgen : ∀ t, (gen t).data = (P.map String.data).foldl
      (fun t x => replaceChars t x (value ⟨x⟩).data) t.data)
    (t : String) (h : ∀ tk ∈ P, ¬ tk.data <:+: t.data) : gen t = t := by
  apply String.ext
  rw [hgen]
  apply foldl_replaceChars_of_not_infix
  intro q hq
  obtain ⟨q0, hq0, rfl⟩ := List.mem_map.mp hq
  exact h q0 hq0

theorem toString10_digit_chars (n : Nat) :
    ∀ c ∈ (toString10 n).data, '0' ≤ c ∧ c ≤ '9' := by
  have h := isDecimal_toString10 n
  unfold isDecimal at h
  simp only [Bool.and_eq_true, List.all_eq_true, decide_eq_true_eq] at h
  exact h.2

theorem toString10Int_chars (i : Int) :
    ∀ c ∈ (toString10Int i).data, c = '-' ∨ ('0' ≤ c ∧ c ≤ '9') := by
  intro c hc
  cases i with
  | ofNat m => exact Or.inr (toString10_digit_chars m c hc)
  | negSucc m =>
    rw [toString10Int, String.data_append, List.mem_append] at hc
    rcases hc with hc | hc
    · left
      simpa using hc
    · exact Or.inr (toString10_digit_chars _ c hc)

theorem gt_not_mem_append (x y : List Char) : '>' ∉ x ++ y ↔ '>' ∉ x ∧ '>' ∉ y := by
  simp [List.mem_append, not_or]

theorem gt_not_mem_toString10 (n : Nat) : '>' ∉ (toString10 n).data := by
  intro h
  have := toString10_digit_chars n _ h
  revert this
  decide

theorem gt_not_mem_toString10Int (i : Int) : '>' ∉ (toString10Int i).data := by
  intro h
  rcases toString10Int_chars i _ h with h1 | h1
  · revert h1; decide
  · revert h1; decide

theorem gt_not_mem_g1Text (p : G1Point) : '>' ∉ (g1Text p).data := by
  simp only [g1Text, String.data_append, gt_not_mem_append, gt_not_mem_toString10,
    not_false_eq_true, true_and, and_true]
  decide

theorem gt_not_mem_g2Text (p : G2Point) : '>' ∉ (g2Text p).data := by
  simp only [g2Text, String.data_append, gt_not_mem_append, gt_not_mem_toString10,
    not_false_eq_true, true_and, and_true]
  decide

theorem gt_not_mem_icLoop : ∀ (l : List G1Point) (i : Nat) (vi : String), '>' ∉ vi.data →
    '>' ∉ (icLoop l i vi).data := by
  intro l
  induction l with
  | nil => intro i vi h; exact h
  | cons pt rest ih =>
    intro i vi h
    rw [icLoop]
    apply ih
    have h2 : '>' ∉ (if vi ≠ "" then vi ++ "        " else vi).data := by
      split
      · rw [String.data_append, gt_not_mem_append]
        exact ⟨h, by decide⟩
      · exact h
    simp only [String.data_append, gt_not_mem_append, gt_not_mem_toString10, h2,
      not_false_eq_true, true_and, and_true]
    decide

theorem comma_mem_g1Text (p : G1Point) : ',' ∈ (g1Text p).data := by
  simp [g1Text, String.data_append]

theorem comma_mem_g2Text (p : G2Point) : ',' ∈ (g2Text p).data := by
  simp [g2Text, String.data_append]

theorem placeholders_original_ends :
    ∀ x ∈ placeholders_original.map String.data, x.head? = some '<' ∧ x.getLast? = some '>' := by
  decide

theorem placeholders_groth_ends :
    ∀ x ∈ placeholders_groth.map String.data, x.head? = some '<' ∧ x.getLast? = some '>' := by
  decide

theorem substitution_original_chars (vk : VerificationKey) :
    ∀ tk ∈ placeholders_original, ∀ c ∈ (substitution_original vk tk).data,
      c ≠ '$' ∧ c ≠ '<' ∧ c ≠ '>' := by
  intro tk htk c hc
  have hp := substitution_original_plain vk tk htk c hc
  refine ⟨hp.2.2, hp.1, ?_⟩
  rintro rfl
  revert hc
  simp only [placeholders_original, List.mem_cons, List.mem_singleton, List.not_mem_nil,
    or_false] at htk
  rcases htk with rfl | rfl | rfl | rfl | rfl | rfl | rfl | rfl | rfl | rfl
  · exact gt_not_mem_g2Text _
  · exact gt_not_mem_g1Text _
  · exact gt_not_mem_g2Text _
  · exact gt_not_mem_g2Text _
  · exact gt_not_mem_g1Text _
  · exact gt_not_mem_g2Text _
  · exact gt_not_mem_g2Text _
  · exact gt_not_mem_toString10Int _
  · exact gt_not_mem_toString10 _
  · exact gt_not_mem_icLoop _ _ _ (by decide)

theorem substitution_groth_chars (vk : VerificationKey) :
    ∀ tk ∈ placeholders_groth, ∀ c ∈ (substitution_groth vk tk).data,
      c ≠ '$' ∧ c ≠ '<' ∧ c ≠ '>' := by
  intro tk htk c hc
  have hp := substitution_groth_plain vk tk htk c hc
  refine ⟨hp.2.2, hp.1, ?_⟩
  rintro rfl
  revert hc
  simp only [placeholders_groth, List.mem_cons, List.mem_singleton, List.not_mem_nil,
    or_false] at htk
  rcases htk with rfl | rfl | rfl | rfl | rfl | rfl | rfl
  · exact gt_not_mem_g1Text _
  · exact gt_not_mem_g2Text _
  · exact gt_not_mem_g2Text _
  · exact gt_not_mem_g2Text _
  · exact gt_not_mem_toString10Int _
  · exact gt_not_mem_toString10 _
  · exact gt_not_mem_icLoop _ _ _ (by decide)

/-- A text of decimal digits, with or without a sign, holds a character that
a token without digit and without `-` does not hold. -/
theorem exists_not_mem_of_digits (v q : List Char) (hne : v ≠ [])
    (hv : ∀ c ∈ v, c = '-' ∨ ('0' ≤ c ∧ c ≤ '9'))
    (hq : ∀ c ∈ q, ¬ (c = '-' ∨ ('0' ≤ c ∧ c ≤ '9'))) : ∃ c ∈ v, c ∉ q := by
  obtain ⟨c, w, rfl⟩ := List.exists_cons_of_ne_nil hne
  exact ⟨c, List.mem_cons_self _ _, fun h => hq c h (hv c (List.mem_cons_self _ _))⟩

theorem substitution_original_sep (vk : VerificationKey) :
    ∀ tk ∈ placeholders_original,
      ∀ q ∈ tokensAfter tk.data (placeholders_original.map String.data),
        ∃ c ∈ (substitution_original vk tk).data, c ∉ q := by
  intro tk htk
  simp only [placeholders_original, List.mem_cons, List.mem_singleton, List.not_mem_nil,
    or_false] at htk
  rcases htk with rfl | rfl | rfl | rfl | rfl | rfl | rfl | rfl | rfl | rfl
  · exact fun q hq => ⟨',', comma_mem_g2Text _, (by decide : ∀ q ∈ tokensAfter "<%vk_a%>".data
      (placeholders_original.map String.data), ',' ∉ q) q hq⟩
  · exact fun q hq => ⟨',', comma_mem_g1Text _, (by decide : ∀ q ∈ tokensAfter "<%vk_b%>".data
      (placeholders_original.map String.data), ',' ∉ q) q hq⟩
  · exact fun q hq => ⟨',', comma_mem_g2Text _, (by decide : ∀ q ∈ tokensAfter "<%vk_c%>".data
      (placeholders_original.map String.data), ',' ∉ q) q hq⟩
  · exact fun q hq => ⟨',', comma_mem_g2Text _, (by decide : ∀ q ∈ tokensAfter "<%vk_g%>".data
      (placeholders_original.map String.data), ',' ∉ q) q hq⟩
  · exact fun q hq => ⟨',', comma_mem_g1Text _, (by decide : ∀ q ∈ tokensAfter "<%vk_gb1%>".data
      (placeholders_original.map String.data), ',' ∉ q) q hq⟩
  · exact fun q hq => ⟨',', comma_mem_g2Text _, (by decide : ∀ q ∈ tokensAfter "<%vk_gb2%>".data
      (placeholders_original.map String.data), ',' ∉ q) q hq⟩
  · exact fun q hq => ⟨',', comma_mem_g2Text _, (by decide : ∀ q ∈ tokensAfter "<%vk_z%>".data
      (placeholders_original.map String.data), ',' ∉ q) q hq⟩
  · exact fun q hq => exists_not_mem_of_digits _ q (toString10Int_ne_nil _)
      (toString10Int_chars _) ((by decide : ∀ q ∈ tokensAfter "<%vk_input_length%>".data
        (placeholders_original.map String.data),
          ∀ c ∈ q, ¬ (c = '-' ∨ ('0' ≤ c ∧ c ≤ '9'))) q hq)
  · exact fun q hq => exists_not_mem_of_digits _ q (toString10_ne_nil _)
      (fun c hc => Or.inr (toString10_digit_chars _ c hc))
      ((by decide : ∀ q ∈ tokensAfter "<%vk_ic_length%>".data
        (placeholders_original.map String.data),
          ∀ c ∈ q, ¬ (c = '-' ∨ ('0' ≤ c ∧ c ≤ '9'))) q hq)
  · exact fun q hq => absurd hq ((by decide : ∀ q, q ∉ tokensAfter "<%vk_ic_pts%>".data
      (placeholders_original.map String.data)) q)

theorem substitution_groth_sep (vk : VerificationKey) :
    ∀ tk ∈ placeholders_groth,
      ∀ q ∈ tokensAfter tk.data (placeholders_groth.map String.data),
        ∃ c ∈ (substitution_groth vk tk).data, c ∉ q := by
  intro tk htk
  simp only [placeholders_groth, List.mem_cons, List.mem_singleton, List.not_mem_nil,
    or_false] at htk
  rcases htk with rfl | rfl | rfl | rfl | rfl | rfl | rfl
  · exact fun q hq => ⟨',', comma_mem_g1Text _, (by decide : ∀ q ∈ tokensAfter
      "<%vk_alfa1%>".data (placeholders_groth.map String.data), ',' ∉ q) q hq⟩
  · exact fun q hq => ⟨',', comma_mem_g2Text _, (by decide : ∀ q ∈ tokensAfter
      "<%vk_beta2%>".data (placeholders_groth.map String.data), ',' ∉ q) q hq⟩
  · exact fun q hq => ⟨',', comma_mem_g2Text _, (by decide : ∀ q ∈ tokensAfter
      "<%vk_gamma2%>".data (placeholders_groth.map String.data), ',' ∉ q) q hq⟩
  · exact fun q hq => ⟨',', comma_mem_g2Text _, (by decide : ∀ q ∈ tokensAfter
      "<%vk_delta2%>".data (placeholders_groth.map String.data), ',' ∉ q) q hq⟩
  · exact fun q hq => exists_not_mem_of_digits _ q (toString10Int_ne_nil _)
      (toString10Int_chars _) ((by decide : ∀ q ∈ tokensAfter "<%vk_input_length%>".data
        (placeholders_groth.map String.data),
          ∀ c ∈ q, ¬ (c = '-' ∨ ('0' ≤ c ∧ c ≤ '9'))) q hq)
  · exact fun q hq => exists_not_mem_of_digits _ q (toString10_ne_nil _)
      (fun c hc => Or.inr (toString10_digit_chars _ c hc))
      ((by decide : ∀ q ∈ tokensAfter "<%vk_ic_length%>".data
        (placeholders_groth.map String.data),
          ∀ c ∈ q, ¬ (c = '-' ∨ ('0' ≤ c ∧ c ≤ '9'))) q hq)
  · exact fun q hq => absurd hq ((by decide : ∀ q, q ∉ tokensAfter "<%vk_ic_pts%>".data
      (placeholders_groth.map String.data)) q)

/-- C20: the generators change nothing but first occurrences of their
placeholders.  For every verification key, a template in which none of the
placeholders of the generator occurs is returned unchanged; and a template
`a ++ tk ++ b` in which the placeholder `tk` occurs, first at the end of `a`,
and no other placeholder of the generator occurs, is returned as
`a ++ value ++ b` with the replace value of `tk`: what stands before and after
the first occurrence is kept as it is, further occurrences of `tk` in `b`
included. -/
theorem generateVerifier_frame (vk : VerificationKey) :
    (∀ t : String, (∀ tk ∈ placeholders_original, ¬ tk.data <:+: t.data) →
      generateVerifier_original vk t = t) ∧
    (∀ t : String, (∀ tk ∈ placeholders_groth, ¬ tk.data <:+: t.data) →
      generateVerifier_groth vk t = t ∧ generateVerifier_kimleeoh vk t = t) ∧
    (∀ tk ∈ placeholders_original, ∀ a b : String,
      ¬ tk.data <:+: a.data ++ tk.data.dropLast →
      (∀ q ∈ placeholders_original, q ≠ tk → ¬ q.data <:+: (a ++ tk ++ b).data) →
      generateVerifier_original vk (a ++ tk ++ b) = a ++ substitution_original vk tk ++ b) ∧
    (∀ tk ∈ placeholders_groth, ∀ a b : String,
      ¬ tk.data <:+: a.data ++ tk.data.dropLast →
      (∀ q ∈ placeholders_groth, q ≠ tk → ¬ q.data <:+: (a ++ tk ++ b).data) →
      generateVerifier_groth vk (a ++ tk ++ b) = a ++ substitution_groth vk tk ++ b ∧
      generateVerifier_kimleeoh vk (a ++ tk ++ b) = a ++ substitution_groth vk tk ++ b) := by
  refine ⟨?_, ?_, ?_, ?_⟩
  · intro t h
    exact generator_none _ _ _ (generateVerifier_original_data vk) t h
  · intro t h
    exact ⟨generator_none _ _ _ (generateVerifier_groth_data vk) t h,
      generator_none _ _ _ (generateVerifier_kimleeoh_data vk) t h⟩
  · intro tk htk a b hfirst hother
    exact generator_single _ _ _ (generateVerifier_original_data vk) placeholders_original_nodup
      placeholders_original_ends (substitution_original_chars vk)
      (substitution_original_sep vk) tk htk a b hfirst hother
  · intro tk htk a b hfirst hother
    exact ⟨generator_single _ _ _ (generateVerifier_groth_data vk) placeholders_groth_nodup
        placeholders_groth_ends (substitution_groth_chars vk)
        (substitution_groth_sep vk) tk htk a b hfirst hother,
      generator_single _ _ _ (generateVerifier_kimleeoh_data vk) placeholders_groth_nodup
        placeholders_groth_ends (substitution_groth_chars vk)
        (substitution_groth_sep vk) tk htk a b hfirst hother⟩

/-- Witness of `generateVerifier_frame`: with the sample key, a template
without placeholder comes back as it is, and of two occurrences of a
placeholder the first one only is replaced. -/
theorem generateVerifier_frame_witness :
    generateVerifier_original sampleKey "if (i < n) return p.Y % q;" =
      "if (i < n) return p.Y % q;" ∧
    generateVerifier_groth sampleKey "if (i < n) return p.Y % q;" =
      "if (i < n) return p.Y % q;" ∧
    generateVerifier_original sampleKey ("x < " ++ "<%vk_b%>" ++ " y <%vk_b%> z") =
      "x < " ++ "5,6" ++ " y <%vk_b%> z" ∧
    generateVerifier_groth sampleKey ("x < " ++ "<%vk_alfa1%>" ++ " y <%vk_alfa1%> z") =
      "x < " ++ "25,26" ++ " y <%vk_alfa1%> z" :=
  ⟨(generateVerifier_frame sampleKey).1 "if (i < n) return p.Y % q;" (by decide),
    ((generateVerifier_frame sampleKey).2.1 "if (i < n) return p.Y % q;" (by decide)).1,
    (generateVerifier_frame sampleKey).2.2.1 "<%vk_b%>" (by decide) "x < " " y <%vk_b%> z"
      (by decide) (by decide),
    ((generateVerifier_frame sampleKey).2.2.2 "<%vk_alfa1%>" (by decide) "x < "
      " y <%vk_alfa1%> z" (by decide) (by decide)).1⟩

/-! ## The replacements in sequence and in one pass -/

theorem fillFirstAux_skip (value : List Char → List Char) (pending : List (List Char)) :
    ∀ a y : List Char, fillFirstAux value a.length pending (a ++ y) =
      fillFirstAux value 0 pending y := by
  intro a
  induction a with
  | nil => intro y; rfl
  | cons c a ih =>
    intro y
    show fillFirstAux value (a.length + 1) pending (c :: (a ++ y)) = _
    rw [fillFirstAux]
    exact ih y

theorem replaceChars_append_of_no_lt (tk w : List Char) (htk : tk.head? = some '<')
    (hw : ∀ c ∈ w, c ≠ '$') :
    ∀ a y : List Char, '<' ∉ a → replaceChars (a ++ y) tk w = a ++ replaceChars y tk w := by
  intro a
  induction a with
  | nil => intro y _; rfl
  | cons c a ih =>
    intro y ha
    have hc : c ≠ '<' := fun e => ha (e ▸ List.mem_cons_self _ _)
    have ha2 : '<' ∉ a := fun e => ha (List.mem_cons_of_mem _ e)
    have hn : ¬ tk <+: c :: (a ++ y) := by
      intro hp
      cases tk with
      | nil => exact Option.noConfusion htk
      | cons d r =>
        rw [List.cons_prefix_cons] at hp
        have hd : d = '<' := by simpa using htk
        exact hc (by rw [← hp.1, hd])
    rw [List.cons_append, replaceChars_cons tk w c _ hw hn, ih y ha2]
    rfl

theorem IsToken.head {tk : List Char} (h : IsToken tk) : tk.head? = some '<' := by
  obtain ⟨body, rfl, _⟩ := h
  rfl

theorem replaceChars_token_append (tk x w y : List Char) (htk : IsToken tk) (hx : IsToken x)
    (hw : ∀ c ∈ w, c ≠ '$') (hn : ¬ x <+: tk ++ y) :
    replaceChars (tk ++ y) x w = tk ++ replaceChars y x w := by
  obtain ⟨body, rfl, hbody⟩ := htk
  have hno : '<' ∉ '%' :: body := by
    intro h
    rcases List.mem_cons.mp h with h | h
    · exact absurd h (by decide)
    · exact hbody h
  have e : ('<' :: '%' :: body) ++ y = '<' :: (('%' :: body) ++ y) := rfl
  rw [e] at hn ⊢
  rw [replaceChars_cons x w '<' _ hw hn,
    replaceChars_append_of_no_lt x w hx.head hw ('%' :: body) y hno]
  rfl

theorem foldl_replaceChars_nil (value : List Char → List Char) :
    ∀ L : List (List Char), (∀ x ∈ L, x ≠ []) →
      L.foldl (fun t x => replaceChars t x (value x)) [] = [] := by
  intro L
  induction L with
  | nil => intro _; rfl
  | cons x L ih =>
    intro h
    rw [List.foldl_cons, replaceChars_nil x _ (h x (List.mem_cons_self _ _))]
    exact ih (fun z hz => h z (List.mem_cons_of_mem _ hz))

theorem foldl_replaceChars_append_of_no_lt (value : List Char → List Char) (a : List Char)
    (ha : '<' ∉ a) :
    ∀ L : List (List Char), (∀ x ∈ L, IsToken x) → (∀ x ∈ L, ∀ c ∈ value x, c ≠ '$') →
      ∀ y : List Char, L.foldl (fun t x => replaceChars t x (value x)) (a ++ y) =
        a ++ L.foldl (fun t x => replaceChars t x (value x)) y := by
  intro L
  induction L with
  | nil => intro _ _ y; rfl
  | cons x L ih =>
    intro hT hv y
    rw [List.foldl_cons, List.foldl_cons,
      replaceChars_append_of_no_lt x _ (hT x (List.mem_cons_self _ _)).head
        (hv x (List.mem_cons_self _ _)) a y ha]
    exact ih (fun z hz => hT z (List.mem_cons_of_mem _ hz))
      (fun z hz => hv z (List.mem_cons_of_mem _ hz)) _

/-- Where a token of the list begins the text, the replacements in sequence
write its value there and go on, without that token, on what follows it. -/
theorem foldl_replaceChars_token (value : List Char → List Char) :
    ∀ L : List (List Char), (∀ x ∈ L, IsToken x) →
      (∀ x ∈ L, ∀ y ∈ L, x ≠ y → ¬ x <+: y) →
      (∀ x ∈ L, ∀ c ∈ value x, c ≠ '$' ∧ c ≠ '<' ∧ c ≠ '>') →
      ∀ tk ∈ L, ∀ y : List Char,
        L.foldl (fun t x => replaceChars t x (value x)) (tk ++ y) =
          value tk ++ (L.erase tk).foldl (fun t x => replaceChars t x (value x)) y := by
  intro L
  induction L with
  | nil => intro _ _ _ tk h; exact absurd h (List.not_mem_nil _)
  | cons x L ih =>
    intro hT hinc hv tk htk y
    have hTL : ∀ z ∈ L, IsToken z := fun z hz => hT z (List.mem_cons_of_mem _ hz)
    have hvL : ∀ z ∈ L, ∀ c ∈ value z, c ≠ '$' ∧ c ≠ '<' ∧ c ≠ '>' :=
      fun z hz => hv z (List.mem_cons_of_mem _ hz)
    by_cases hx : x = tk
    · subst hx
      rw [List.foldl_cons, replaceChars_at x (value x) y (hT x htk).ne_nil
        (fun c hc => (hv x htk c hc).1), List.erase_cons_head]
      exact foldl_replaceChars_append_of_no_lt value (value x)
        (fun h => (hv x htk _ h).2.1 rfl) L hTL (fun z hz c hc => (hvL z hz c hc).1) y
    · have htkL : tk ∈ L := by
        rcases List.mem_cons.mp htk with h | h
        · exact absurd h.symm hx
        · exact h
      have hn : ¬ x <+: tk ++ y := by
        intro hp
        rcases List.prefix_or_prefix_of_prefix hp (List.prefix_append tk y) with h | h
        · exact hinc x (List.mem_cons_self _ _) tk htk hx h
        · exact hinc tk htk x (List.mem_cons_self _ _) (fun e => hx e.symm) h
      have herase : (x :: L).erase tk = x :: L.erase tk := by
        rw [List.erase_cons_tail]
        simpa using hx
      rw [List.foldl_cons, replaceChars_token_append tk x (value x) y (hT tk htk)
        (hT x (List.mem_cons_self _ _)) (fun c hc => (hv x (List.mem_cons_self _ _) c hc).1) hn,
        ih hTL (fun a ha b hb => hinc a (List.mem_cons_of_mem _ ha) b (List.mem_cons_of_mem _ hb))
          hvL tk htkL, herase, List.foldl_cons]

/-- A replacement returns the text as it is, or the text with one occurrence
of the token replaced by the value. -/
theorem replaceChars_cases (x w : List Char) (hx : x ≠ []) (hw : ∀ c ∈ w, c ≠ '$') :
    ∀ t : List Char, replaceChars t x w = t ∨
      ∃ a b, t = a ++ x ++ b ∧ replaceChars t x w = a ++ w ++ b := by
  intro t
  induction t with
  | nil => exact Or.inl (replaceChars_nil x w hx)
  | cons c cs ih =>
    by_cases hp : x <+: c :: cs
    · obtain ⟨b, hb⟩ := hp
      refine Or.inr ⟨[], b, by simpa using hb.symm, ?_⟩
      rw [← hb, replaceChars_at x w b hx hw]
      rfl
    · rw [replaceChars_cons x w c cs hw hp]
      rcases ih with h | ⟨a, b, h1, h2⟩
      · exact Or.inl (by rw [h])
      · exact Or.inr ⟨c :: a, b, by rw [h1]; simp, by rw [h2]; simp⟩

/-- A token that does not begin the text does not begin it after a
replacement further on either, when the value put in holds a character that
the token does not hold and no `>`. -/
theorem not_prefix_cons_replaceChars (q x w : List Char) (c : Char) (cs : List Char)
    (hq : q.getLast? = some '>') (hx : x ≠ []) (hw : ∀ d ∈ w, d ≠ '$') (hw2 : '>' ∉ w)
    (hsep : ∃ d ∈ w, d ∉ q) (hn : ¬ q <+: c :: cs) :
    ¬ q <+: c :: replaceChars cs x w := by
  rcases replaceChars_cases x w hx hw cs with h | ⟨a, b, h1, h2⟩
  · rw [h]
    exact hn
  · rw [h2]
    rintro ⟨r, hr⟩
    have e : c :: (a ++ w ++ b) = (c :: a) ++ (w ++ b) := by simp
    rw [e, List.append_eq_append_iff] at hr
    rcases hr with ⟨a', ha', _⟩ | ⟨c', hc', h⟩
    · -- the token ends before the value
      apply hn
      rw [h1]
      exact ⟨a' ++ (x ++ b), by
        rw [← List.append_assoc, ← ha']
        simp⟩
    · rw [List.append_eq_append_iff] at h
      rcases h with ⟨a'', ha'', _⟩ | ⟨c'', hc'', _⟩
      · -- the token covers the value
        obtain ⟨d, hdw, hdq⟩ := hsep
        apply hdq
        rw [hc', ha'']
        exact List.mem_append_right _ (List.mem_append_left _ hdw)
      · -- the token ends within the value
        cases c' with
        | nil =>
          apply hn
          rw [h1, hc']
          exact ⟨x ++ b, by simp⟩
        | cons d c2 =>
          have hlast : (d :: c2).getLast? = some '>' := by
            rw [← hq, hc', List.getLast?_append_of_ne_nil _ (List.cons_ne_nil _ _)]
          apply hw2
          rw [hc'']
          exact List.mem_append_left _ (List.mem_of_getLast?_eq_some hlast)

/-- Where no token of the list begins the text, the replacements in sequence
keep the first character and go on with the rest. -/
theorem foldl_replaceChars_cons (value : List Char → List Char) (c : Char) :
    ∀ L : List (List Char), (∀ x ∈ L, IsToken x) → (∀ x ∈ L, x.getLast? = some '>') →
      (∀ x ∈ L, ∀ d ∈ value x, d ≠ '$' ∧ d ≠ '<' ∧ d ≠ '>') →
      L.Pairwise (fun x y => ∃ d ∈ value x, d ∉ y) →
      ∀ cs : List Char, (∀ x ∈ L, ¬ x <+: c :: cs) →
        L.foldl (fun t x => replaceChars t x (value x)) (c :: cs) =
          c :: L.foldl (fun t x => replaceChars t x (value x)) cs := by
  intro L
  induction L with
  | nil => intro _ _ _ _ cs _; rfl
  | cons x L ih =>
    intro hT hend hv hsep cs hn
    rw [List.pairwise_cons] at hsep
    have hvx := hv x (List.mem_cons_self _ _)
    rw [List.foldl_cons, List.foldl_cons,
      replaceChars_cons x (value x) c cs (fun d hd => (hvx d hd).1) (hn x (List.mem_cons_self _ _))]
    apply ih (fun z hz => hT z (List.mem_cons_of_mem _ hz))
      (fun z hz => hend z (List.mem_cons_of_mem _ hz))
      (fun z hz => hv z (List.mem_cons_of_mem _ hz)) hsep.2
    intro q hq
    exact not_prefix_cons_replaceChars q x (value x) c cs (hend q (List.mem_cons_of_mem _ hq))
      (hT x (List.mem_cons_self _ _)).ne_nil (fun d hd => (hvx d hd).1)
      (fun h => (hvx _ h).2.2 rfl) (hsep.1 q hq) (hn q (List.mem_cons_of_mem _ hq))

/-- The replacements of a generator, made one after the other on the whole
text, give on every text what the one pass gives: the first occurrence of
each token replaced by its value. -/
theorem foldl_replaceChars_eq_fillFirstAux (value : List Char → List Char) :
    ∀ (n : Nat) (t : List Char), t.length ≤ n → ∀ L : List (List Char),
      (∀ x ∈ L, IsToken x) → (∀ x ∈ L, x.getLast? = some '>') →
      (∀ x ∈ L, ∀ y ∈ L, x ≠ y → ¬ x <+: y) →
      (∀ x ∈ L, ∀ d ∈ value x, d ≠ '$' ∧ d ≠ '<' ∧ d ≠ '>') →
      L.Pairwise (fun x y => ∃ d ∈ value x, d ∉ y) →
      L.foldl (fun t x => replaceChars t x (value x)) t = fillFirstAux value 0 L t := by
  intro n
  induction n with
  | zero =>
    intro t ht L hT _ _ _ _
    have : t = [] := List.eq_nil_of_length_eq_zero (Nat.le_zero.mp ht)
    subst this
    rw [foldl_replaceChars_nil value L (fun x hx => (hT x hx).ne_nil)]
    rfl
  | succ n ih =>
    intro t ht L hT hend hinc hv hsep
    cases t with
    | nil =>
      rw [foldl_replaceChars_nil value L (fun x hx => (hT x hx).ne_nil)]
      rfl
    | cons c cs =>
      have hcs : cs.length ≤ n := by
        simp only [List.length_cons] at ht
        omega
      rw [fillFirstAux]
      cases hfind : L.find? (fun tk => tk.isPrefixOf (c :: cs)) with
      | none =>
        have hn : ∀ x ∈ L, ¬ x <+: c :: cs := by
          intro x hx hp
          have := List.find?_eq_none.mp hfind x hx
          exact this (List.isPrefixOf_iff_prefix.mpr hp)
        show _ = c :: fillFirstAux value 0 L cs
        rw [foldl_replaceChars_cons value c L hT hend hv hsep cs hn,
          ih cs hcs L hT hend hinc hv hsep]
      | some tk =>
        have hmem : tk ∈ L := List.mem_of_find?_eq_some hfind
        have hp : tk <+: c :: cs :=
          List.isPrefixOf_iff_prefix.mp (by simpa using List.find?_some hfind)
        obtain ⟨y, hy⟩ := hp
        obtain ⟨body, rfl, hbody⟩ := hT tk hmem
        have hc : c = '<' ∧ cs = ('%' :: body) ++ y := by
          have := hy
          simp only [List.cons_append, List.cons.injEq] at this
          exact ⟨this.1.symm, this.2.symm⟩
        obtain ⟨rfl, rfl⟩ := hc
        have hyn : y.length ≤ n := by
          simp only [List.length_append, List.length_cons] at hcs
          omega
        show _ = value ('<' :: '%' :: body) ++
          fillFirstAux value (('<' :: '%' :: body).length - 1)
            (L.erase ('<' :: '%' :: body)) (('%' :: body) ++ y)
        have hlen : ('<' :: '%' :: body).length - 1 = ('%' :: body).length := rfl
        rw [hlen, fillFirstAux_skip,
          show '<' :: (('%' :: body) ++ y) = ('<' :: '%' :: body) ++ y from rfl,
          foldl_replaceChars_token value L hT hinc hv _ hmem y,
          ih y hyn (L.erase ('<' :: '%' :: body))
            (fun x hx => hT x (List.mem_of_mem_erase hx))
            (fun x hx => hend x (List.mem_of_mem_erase hx))
            (fun a ha b hb => hinc a (List.mem_of_mem_erase ha) b (List.mem_of_mem_erase hb))
            (fun x hx => hv x (List.mem_of_mem_erase hx))
            (hsep.sublist (List.erase_sublist _ _))]

theorem pairwise_of_tokensAfter (R : List Char → List Char → Prop) :
    ∀ L : List (List Char), L.Nodup → (∀ x ∈ L, ∀ q ∈ tokensAfter x L, R x q) →
      L.Pairwise R := by
  intro L
  induction L with
  | nil => intro _ _; exact List.Pairwise.nil
  | cons x L ih =>
    intro hnd h
    rw [List.nodup_cons] at hnd
    rw [List.pairwise_cons]
    constructor
    · intro q hq
      apply h x (List.mem_cons_self _ _)
      rw [tokensAfter, if_pos rfl]
      exact hq
    · apply ih hnd.2
      intro z hz q hq
      apply h z (List.mem_cons_of_mem _ hz)
      have hxz : x ≠ z := fun e => hnd.1 (e ▸ hz)
      rw [tokensAfter, if_neg hxz]
      exact hq

/-- A function that performs the replacements of the placeholders `P` in
order returns, on every template, the template with the first occurrence of
each placeholder replaced by its value. -/
theorem generator_fillFirst (gen : String → String) (P : List String) (value : String → String)
    (hgen : ∀ t, (gen t).data = (P.map String.data).foldl
      (fun t x => replaceChars t x (value ⟨x⟩).data) t.data)
    (hnd : P.Nodup)
    (hT : ∀ x ∈ P.map String.data, x.take 2 = ['<', '%'] ∧ '<' ∉ x.drop 2)
    (hends : ∀ x ∈ P.map String.data, x.head? = some '<' ∧ x.getLast? = some '>')
    (hinc : ∀ x ∈ P.map String.data, ∀ y ∈ P.map String.data, x ≠ y → ¬ x <+: y)
    (hval : ∀ tk ∈ P, ∀ c ∈ (value tk).data, c ≠ '$' ∧ c ≠ '<' ∧ c ≠ '>')
    (hsep : ∀ tk ∈ P, ∀ q ∈ tokensAfter tk.data (P.map String.data),
      ∃ c ∈ (value tk).data, c ∉ q)
    (t : String) : gen t = fillFirst value P t := by
  apply String.ext
  rw [hgen]
  show _ = fillFirstAux (fun tk => (value ⟨tk⟩).data) 0 (P.map String.data) t.data
  apply foldl_replaceChars_eq_fillFirstAux (fun l => (value ⟨l⟩).data) t.data.length t.data
    (Nat.le_refl _) (P.map String.data) (fun x hx => isToken_of x (hT x hx))
    (fun x hx => (hends x hx).2) hinc
  · intro x hx
    obtain ⟨tk, htk, rfl⟩ := List.mem_map.mp hx
    exact hval tk htk
  · apply pairwise_of_tokensAfter _ _ (hnd.map string_data_injective)
    intro x hx q hq
    obtain ⟨tk, htk, rfl⟩ := List.mem_map.mp hx
    exact hsep tk htk q hq

theorem generateVerifier_original_fillFirst (vk : VerificationKey) (template : String) :
    generateVerifier_original vk template =
      fillFirst (substitution_original vk) placeholders_original template :=
  generator_fillFirst _ _ _ (generateVerifier_original_data vk) placeholders_original_nodup
    placeholders_original_shape placeholders_original_ends placeholders_original_incomparable
    (substitution_original_chars vk) (substitution_original_sep vk) template

theorem generateVerifier_groth_fillFirst (vk : VerificationKey) (template : String) :
    generateVerifier_groth vk template =
      fillFirst (substitution_groth vk) placeholders_groth template :=
  generator_fillFirst _ _ _ (generateVerifier_groth_data vk) placeholders_groth_nodup
    placeholders_groth_shape placeholders_groth_ends placeholders_groth_incomparable
    (substitution_groth_chars vk) (substitution_groth_sep vk) template

theorem generateVerifier_kimleeoh_fillFirst (vk : VerificationKey) (template : String) :
    generateVerifier_kimleeoh vk template =
      fillFirst (substitution_groth vk) placeholders_groth template :=
  generator_fillFirst _ _ _ (generateVerifier_kimleeoh_data vk) placeholders_groth_nodup
    placeholders_groth_shape placeholders_groth_ends placeholders_groth_incomparable
    (substitution_groth_chars vk) (substitution_groth_sep vk) template

/-! ## The two lengths -/

/-- C9: for every verification key with a non-empty `IC` and every template,
each of the three generators returns the template in which the first
occurrence of `<%vk_input_length%>` is replaced by the decimal literal of
`len(IC) - 1` and the first occurrence of `<%vk_ic_length%>` by the decimal
literal of `len(IC)`, the first occurrence of each other placeholder of the
generator by its replace value, and every other character is kept. -/
theorem generateVerifier_lengths (vk : VerificationKey) (hIC : vk.IC ≠ []) (template : String) :
    generateVerifier_original vk template =
      fillFirst (fun tk =>
        if tk = "<%vk_input_length%>" then toString10 (vk.IC.length - 1)
        else if tk = "<%vk_ic_length%>" then toString10 vk.IC.length
        else substitution_original vk tk) placeholders_original template ∧
    generateVerifier_groth vk template =
      fillFirst (fun tk =>
        if tk = "<%vk_input_length%>" then toString10 (vk.IC.length - 1)
        else if tk = "<%vk_ic_length%>" then toString10 vk.IC.length
        else substitution_groth vk tk) placeholders_groth template ∧
    generateVerifier_kimleeoh vk template =
      fillFirst (fun tk =>
        if tk = "<%vk_input_length%>" then toString10 (vk.IC.length - 1)
        else if tk = "<%vk_ic_length%>" then toString10 vk.IC.length
        else substitution_groth vk tk) placeholders_groth template := by
  have hlen : vk.IC.length ≠ 0 := fun h => hIC (List.eq_nil_of_length_eq_zero h)
  have hO : (fun tk =>
      if tk = "<%vk_input_length%>" then toString10 (vk.IC.length - 1)
      else if tk = "<%vk_ic_length%>" then toString10 vk.IC.length
      else substitution_original vk tk) = substitution_original vk := by
    funext tk
    by_cases h : tk = "<%vk_input_length%>"
    · subst h
      rw [if_pos rfl, ← toString10Int_pred _ hlen]
      rfl
    · rw [if_neg h]
      by_cases h2 : tk = "<%vk_ic_length%>"
      · subst h2
        rw [if_pos rfl]
        rfl
      · rw [if_neg h2]
  have hG : (fun tk =>
      if tk = "<%vk_input_length%>" then toString10 (vk.IC.length - 1)
      else if tk = "<%vk_ic_length%>" then toString10 vk.IC.length
      else substitution_groth vk tk) = substitution_groth vk := by
    funext tk
    by_cases h : tk = "<%vk_input_length%>"
    · subst h
      rw [if_pos rfl, ← toString10Int_pred _ hlen]
      rfl
    · rw [if_neg h]
      by_cases h2 : tk = "<%vk_ic_length%>"
      · subst h2
        rw [if_pos rfl]
        rfl
      · rw [if_neg h2]
  rw [hO, hG]
  exact ⟨generateVerifier_original_fillFirst vk template,
    generateVerifier_groth_fillFirst vk template,
    generateVerifier_kimleeoh_fillFirst vk template⟩

/-- Witness of `generateVerifier_lengths`: the sample key, whose `IC` has two
points, on a template that holds a stray `<%`, the two placeholders, and the
first of them a second time. -/
theorem generateVerifier_lengths_witness :
    generateVerifier_original sampleKey
        "<% uint[<%vk_input_length%>] G1Point[](<%vk_ic_length%>) <%vk_input_length%>" =
      "<% uint[1] G1Point[](2) <%vk_input_length%>" ∧
    generateVerifier_groth sampleKey
        "<% uint[<%vk_input_length%>] G1Point[](<%vk_ic_length%>) <%vk_input_length%>" =
      "<% uint[1] G1Point[](2) <%vk_input_length%>" ∧
    generateVerifier_kimleeoh sampleKey
        "<% uint[<%vk_input_length%>] G1Point[](<%vk_ic_length%>) <%vk_input_length%>" =
      "<% uint[1] G1Point[](2) <%vk_input_length%>" :=
  ⟨(generateVerifier_lengths sampleKey (by decide)
      "<% uint[<%vk_input_length%>] G1Point[](<%vk_ic_length%>) <%vk_input_length%>").1.trans
      (by decide),
    (generateVerifier_lengths sampleKey (by decide)
      "<% uint[<%vk_input_length%>] G1Point[](<%vk_ic_length%>) <%vk_input_length%>").2.1.trans
      (by decide),
    (generateVerifier_lengths sampleKey (by decide)
      "<% uint[<%vk_input_length%>] G1Point[](<%vk_ic_length%>) <%vk_input_length%>").2.2.trans
      (by decide)⟩

/-! ## The points of the Groth verification key -/

/-- C10: for every verification key and every template,
`generateVerifier_groth` returns the template in which the first occurrence
of `<%vk_alfa1%>` is replaced by the text `x,y` of the G1 point `vk_alfa_1`,
and the first occurrence of each of `<%vk_beta2%>`, `<%vk_gamma2%>`,
`<%vk_delta2%>` by the text `[x.c1,x.c0], [y.c1,y.c0]` of the corresponding
G2 point: the pair of `x` first, then the pair of `y`, each pair written `c1`
then `c0`, all in decimal; the first occurrence of each other placeholder of
the generator is replaced by its replace value and every other character is
kept. -/
theorem generateVerifier_groth_points (vk : VerificationKey) (template : String) :
    generateVerifier_groth vk template =
      fillFirst (fun tk =>
        if tk = "<%vk_alfa1%>" then
          toString10 vk.vk_alfa_1.1 ++ "," ++ toString10 vk.vk_alfa_1.2
        else if tk = "<%vk_beta2%>" then
          "[" ++ toString10 vk.vk_beta_2.1.2 ++ "," ++ toString10 vk.vk_beta_2.1.1 ++ "], [" ++
            toString10 vk.vk_beta_2.2.2 ++ "," ++ toString10 vk.vk_beta_2.2.1 ++ "]"
        else if tk = "<%vk_gamma2%>" then
          "[" ++ toString10 vk.vk_gamma_2.1.2 ++ "," ++ toString10 vk.vk_gamma_2.1.1 ++ "], [" ++
            toString10 vk.vk_gamma_2.2.2 ++ "," ++ toString10 vk.vk_gamma_2.2.1 ++ "]"
        else if tk = "<%vk_delta2%>" then
          "[" ++ toString10 vk.vk_delta_2.1.2 ++ "," ++ toString10 vk.vk_delta_2.1.1 ++ "], [" ++
            toString10 vk.vk_delta_2.2.2 ++ "," ++ toString10 vk.vk_delta_2.2.1 ++ "]"
        else substitution_groth vk tk) placeholders_groth template := by
  have hg2 : ∀ p : G2Point,
      "[" ++ toString10 p.1.2 ++ "," ++ toString10 p.1.1 ++ "], [" ++
        toString10 p.2.2 ++ "," ++ toString10 p.2.1 ++ "]" = g2Text p := by
    intro p
    apply String.ext
    simp [g2Text, String.data_append]
  have hG : (fun tk =>
      if tk = "<%vk_alfa1%>" then
        toString10 vk.vk_alfa_1.1 ++ "," ++ toString10 vk.vk_alfa_1.2
      else if tk = "<%vk_beta2%>" then
        "[" ++ toString10 vk.vk_beta_2.1.2 ++ "," ++ toString10 vk.vk_beta_2.1.1 ++ "], [" ++
          toString10 vk.vk_beta_2.2.2 ++ "," ++ toString10 vk.vk_beta_2.2.1 ++ "]"
      else if tk = "<%vk_gamma2%>" then
        "[" ++ toString10 vk.vk_gamma_2.1.2 ++ "," ++ toString10 vk.vk_gamma_2.1.1 ++ "], [" ++
          toString10 vk.vk_gamma_2.2.2 ++ "," ++ toString10 vk.vk_gamma_2.2.1 ++ "]"
      else if tk = "<%vk_delta2%>" then
        "[" ++ toString10 vk.vk_delta_2.1.2 ++ "," ++ toString10 vk.vk_delta_2.1.1 ++ "], [" ++
          toString10 vk.vk_delta_2.2.2 ++ "," ++ toString10 vk.vk_delta_2.2.1 ++ "]"
      else substitution_groth vk tk) = substitution_groth vk := by
    funext tk
    simp only [hg2]
    by_cases h1 : tk = "<%vk_alfa1%>"
    · subst h1; rfl
    · rw [if_neg h1]
      by_cases h2 : tk = "<%vk_beta2%>"
      · subst h2; rfl
      · rw [if_neg h2]
        by_cases h3 : tk = "<%vk_gamma2%>"
        · subst h3; rfl
        · rw [if_neg h3]
          by_cases h4 : tk = "<%vk_delta2%>"
          · subst h4; rfl
          · rw [if_neg h4]
  rw [hG]
  exact generateVerifier_groth_fillFirst vk template

/-- Witness of `generateVerifier_groth_points`: the sample key on a template
with the four placeholders, a stray `<%` and a second `<%vk_alfa1%>`. -/
theorem generateVerifier_groth_points_witness :
    generateVerifier_groth sampleKey
        "<% a(<%vk_alfa1%>) b(<%vk_beta2%>) g(<%vk_gamma2%>) d(<%vk_delta2%>) <%vk_alfa1%>" =
      "<% a(25,26) b([28,27], [30,29]) g([32,31], [34,33]) d([36,35], [38,37]) <%vk_alfa1%>" :=
  (generateVerifier_groth_points sampleKey
    "<% a(<%vk_alfa1%>) b(<%vk_beta2%>) g(<%vk_gamma2%>) d(<%vk_delta2%>) <%vk_alfa1%>").trans
    (by decide)

/-! ## The points of the Original verification key -/

/-- C11, as stated, fails: for `vk_a = ((1,2),(3,4))` the text that
`generateVerifier_original` writes is `[2,1], [4,3]`, the pair of `x` first,
and not `[y.c1,y.c0], [x.c1,x.c0]`, which is `[4,3], [2,1]`. -/
theorem generateVerifier_original_x_pair_first :
    generateVerifier_original sampleKey "<%vk_a%>" = "[2,1], [4,3]" ∧
    generateVerifier_original sampleKey "<%vk_a%>" ≠
      "[" ++ toString10 sampleKey.vk_a.2.2 ++ "," ++ toString10 sampleKey.vk_a.2.1 ++ "], [" ++
        toString10 sampleKey.vk_a.1.2 ++ "," ++ toString10 sampleKey.vk_a.1.1 ++ "]" :=
  ⟨by decide, by decide⟩

/-- C11, amended: for every verification key and every template,
`generateVerifier_original` returns the template in which the first
occurrence of each of `<%vk_a%>`, `<%vk_c%>`, `<%vk_g%>`, `<%vk_gb2%>`,
`<%vk_z%>` is replaced by the text `[x.c1,x.c0], [y.c1,y.c0]` of the G2
point: the pair of `x` first, then the pair of `y`, each pair written `c1`
then `c0`; and the first occurrence of `<%vk_b%>` and of `<%vk_gb1%>` by the
text `x,y` of the G1 point; all in decimal; the first occurrence of each
other placeholder of the generator is replaced by its replace value and every
other character is kept. -/
theorem generateVerifier_original_points (vk : VerificationKey) (template : String) :
    generateVerifier_original vk template =
      fillFirst (fun tk =>
        if tk = "<%vk_a%>" then
          "[" ++ toString10 vk.vk_a.1.2 ++ "," ++ toString10 vk.vk_a.1.1 ++ "], [" ++
            toString10 vk.vk_a.2.2 ++ "," ++ toString10 vk.vk_a.2.1 ++ "]"
        else if tk = "<%vk_b%>" then
          toString10 vk.vk_b.1 ++ "," ++ toString10 vk.vk_b.2
        else if tk = "<%vk_c%>" then
          "[" ++ toString10 vk.vk_c.1.2 ++ "," ++ toString10 vk.vk_c.1.1 ++ "], [" ++
            toString10 vk.vk_c.2.2 ++ "," ++ toString10 vk.vk_c.2.1 ++ "]"
        else if tk = "<%vk_g%>" then
          "[" ++ toString10 vk.vk_g.1.2 ++ "," ++ toString10 vk.vk_g.1.1 ++ "], [" ++
            toString10 vk.vk_g.2.2 ++ "," ++ toString10 vk.vk_g.2.1 ++ "]"
        else if tk = "<%vk_gb1%>" then
          toString10 vk.vk_gb_1.1 ++ "," ++ toString10 vk.vk_gb_1.2
        else if tk = "<%vk_gb2%>" then
          "[" ++ toString10 vk.vk_gb_2.1.2 ++ "," ++ toString10 vk.vk_gb_2.1.1 ++ "], [" ++
            toString10 vk.vk_gb_2.2.2 ++ "," ++ toString10 vk.vk_gb_2.2.1 ++ "]"
        else if tk = "<%vk_z%>" then
          "[" ++ toString10 vk.vk_z.1.2 ++ "," ++ toString10 vk.vk_z.1.1 ++ "], [" ++
            toString10 vk.vk_z.2.2 ++ "," ++ toString10 vk.vk_z.2.1 ++ "]"
        else substitution_original vk tk) placeholders_original template := by
  have hg2 : ∀ p : G2Point,
      "[" ++ toString10 p.1.2 ++ "," ++ toString10 p.1.1 ++ "], [" ++
        toString10 p.2.2 ++ "," ++ toString10 p.2.1 ++ "]" = g2Text p := by
    intro p
    apply String.ext
    simp [g2Text, String.data_append]
  have hO : (fun tk =>
      if tk = "<%vk_a%>" then
        "[" ++ toString10 vk.vk_a.1.2 ++ "," ++ toString10 vk.vk_a.1.1 ++ "], [" ++
          toString10 vk.vk_a.2.2 ++ "," ++ toString10 vk.vk_a.2.1 ++ "]"
      else if tk = "<%vk_b%>" then
        toString10 vk.vk_b.1 ++ "," ++ toString10 vk.vk_b.2
      else if tk = "<%vk_c%>" then
        "[" ++ toString10 vk.vk_c.1.2 ++ "," ++ toString10 vk.vk_c.1.1 ++ "], [" ++
          toString10 vk.vk_c.2.2 ++ "," ++ toString10 vk.vk_c.2.1 ++ "]"
      else if tk = "<%vk_g%>" then
        "[" ++ toString10 vk.vk_g.1.2 ++ "," ++ toString10 vk.vk_g.1.1 ++ "], [" ++
          toString10 vk.vk_g.2.2 ++ "," ++ toString10 vk.vk_g.2.1 ++ "]"
      else if tk = "<%vk_gb1%>" then
        toString10 vk.vk_gb_1.1 ++ "," ++ toString10 vk.vk_gb_1.2
      else if tk = "<%vk_gb2%>" then
        "[" ++ toString10 vk.vk_gb_2.1.2 ++ "," ++ toString10 vk.vk_gb_2.1.1 ++ "], [" ++
          toString10 vk.vk_gb_2.2.2 ++ "," ++ toString10 vk.vk_gb_2.2.1 ++ "]"
      else if tk = "<%vk_z%>" then
        "[" ++ toString10 vk.vk_z.1.2 ++ "," ++ toString10 vk.vk_z.1.1 ++ "], [" ++
          toString10 vk.vk_z.2.2 ++ "," ++ toString10 vk.vk_z.2.1 ++ "]"
      else substitution_original vk tk) = substitution_original vk := by
    funext tk
    simp only [hg2]
    by_cases h0 : tk = "<%vk_a%>"
    · subst h0; rfl
    rw [if_neg h0]
    by_cases h1 : tk = "<%vk_b%>"
    · subst h1; rfl
    rw [if_neg h1]
    by_cases h2 : tk = "<%vk_c%>"
    · subst h2; rfl
    rw [if_neg h2]
    by_cases h3 : tk = "<%vk_g%>"
    · subst h3; rfl
    rw [if_neg h3]
    by_cases h4 : tk = "<%vk_gb1%>"
    · subst h4; rfl
    rw [if_neg h4]
    by_cases h5 : tk = "<%vk_gb2%>"
    · subst h5; rfl
    rw [if_neg h5]
    by_cases h6 : tk = "<%vk_z%>"
    · subst h6; rfl
    rw [if_neg h6]
  rw [hO]
  exact generateVerifier_original_fillFirst vk template

/-- Witness of `generateVerifier_original_points`: the sample key on a
template with the seven placeholders, a stray `<%` and a second `<%vk_a%>`. -/
theorem generateVerifier_original_points_witness :
    generateVerifier_original sampleKey
        "<% a(<%vk_a%>) b(<%vk_b%>) c(<%vk_c%>) g(<%vk_g%>) gb1(<%vk_gb1%>) gb2(<%vk_gb2%>) z(<%vk_z%>) <%vk_a%>" =
      "<% a([2,1], [4,3]) b(5,6) c([8,7], [10,9]) g([12,11], [14,13]) gb1(15,16) gb2([18,17], [20,19]) z([22,21], [24,23]) <%vk_a%>" :=
  (generateVerifier_original_points sampleKey
    "<% a(<%vk_a%>) b(<%vk_b%>) c(<%vk_c%>) g(<%vk_g%>) gb1(<%vk_gb1%>) gb2(<%vk_gb2%>) z(<%vk_z%>) <%vk_a%>").trans
    (by decide)

end Snarkjs
